import Mathlib

/-!
Verification of the schema-driven normalization engine of the
simple-ebook-manager repository, as a shallow embedding in Lean 4.

Python strings are modelled as `List Char` (`Str`): Python's `str`
comparison is lexicographic on Unicode code points, which coincides with
lexicographic comparison of `Char` lists by `Char.val`.  Python's stable
`sorted` is modelled by `List.insertionSort`: on every list this code
sorts, elements that compare equal are identical values, so any stable
or unstable sort with the same comparator yields the same list.

External collaborators (the `datetime` library, `uuid.uuid4`, the file
system) enter as explicit function parameters ("oracles") of the
embedded operations, exactly where the source calls out to them.
-/

/-- A Python string, as its list of characters. -/
abbrev Str := List Char

/-- Convert a Lean string literal to the `Str` model. -/
def chars (s : String) : Str := s.data

/-- Python `<` on strings: lexicographic comparison by code point. -/
def strLtB : Str → Str → Bool
  | [], [] => false
  | [], _ :: _ => true
  | _ :: _, [] => false
  | a :: as, b :: bs =>
    if a < b then true else if b < a then false else strLtB as bs

/-- Python `<=` on strings (total order: `a <= b` iff `not (b < a)`). -/
def strLeB (a b : Str) : Bool := !(strLtB b a)

theorem strLtB_irrefl (a : Str) : strLtB a a = false := by
  induction a with
  | nil => rfl
  | cons c cs ih => simp [strLtB, ih]

theorem strLtB_asymm {a b : Str} (h : strLtB a b = true) : strLtB b a = false := by
  induction a generalizing b with
  | nil =>
    cases b with
    | nil => simp [strLtB] at h
    | cons d ds => simp [strLtB]
  | cons c cs ih =>
    cases b with
    | nil => simp [strLtB] at h
    | cons d ds =>
      simp only [strLtB] at h ⊢
      rcases lt_trichotomy c d with hcd | hcd | hcd
      · simp [hcd, not_lt_of_gt hcd, ne_of_gt hcd]
      · subst hcd
        simp only [lt_irrefl, if_false] at h ⊢
        exact ih h
      · simp [hcd, not_lt_of_gt hcd] at h

theorem strLtB_trans {a b c : Str} (h₁ : strLtB a b = true)
    (h₂ : strLtB b c = true) : strLtB a c = true := by
  induction a generalizing b c with
  | nil =>
    cases c with
    | nil =>
      cases b with
      | nil => exact h₁
      | cons d ds => simp [strLtB] at h₂
    | cons e es => simp [strLtB]
  | cons x xs ih =>
    cases b with
    | nil => simp [strLtB] at h₁
    | cons y ys =>
      cases c with
      | nil => simp [strLtB] at h₂
      | cons z zs =>
        simp only [strLtB] at h₁ h₂ ⊢
        rcases lt_trichotomy x y with hxy | hxy | hxy
        · rcases lt_trichotomy y z with hyz | hyz | hyz
          · have : x < z := lt_trans hxy hyz
            simp [this]
          · subst hyz; simp [hxy]
          · simp [hyz, not_lt_of_gt hyz] at h₂
        · subst hxy
          rcases lt_trichotomy x z with hyz | hyz | hyz
          · simp [hyz]
          · subst hyz
            simp only [lt_irrefl, if_false] at h₁ h₂ ⊢
            exact ih h₁ h₂
          · simp [hyz, not_lt_of_gt hyz] at h₂
        · simp [hxy, not_lt_of_gt hxy] at h₁

theorem strLtB_eq_of_not {a b : Str} (h₁ : strLtB a b = false)
    (h₂ : strLtB b a = false) : a = b := by
  induction a generalizing b with
  | nil =>
    cases b with
    | nil => rfl
    | cons d ds => simp [strLtB] at h₁
  | cons c cs ih =>
    cases b with
    | nil => simp [strLtB] at h₂
    | cons d ds =>
      simp only [strLtB] at h₁ h₂
      rcases lt_trichotomy c d with hcd | hcd | hcd
      · simp [hcd] at h₁
      · subst hcd
        simp only [lt_irrefl, if_false] at h₁ h₂
        rw [ih h₁ h₂]
      · simp [hcd] at h₂

theorem strLeB_total (a b : Str) : strLeB a b = true ∨ strLeB b a = true := by
  unfold strLeB
  rcases h : strLtB b a with _ | _
  · left; rfl
  · right; simp [strLtB_asymm h]

theorem strLeB_trans {a b c : Str} (h₁ : strLeB a b = true)
    (h₂ : strLeB b c = true) : strLeB a c = true := by
  unfold strLeB at h₁ h₂ ⊢
  simp only [Bool.not_eq_true'] at h₁ h₂ ⊢
  by_contra h
  simp only [Bool.not_eq_false] at h
  rcases hbc : strLtB b c with _ | _
  · have := strLtB_eq_of_not hbc h₂
    subst this
    rw [h] at h₁
    cases h₁
  · have := strLtB_trans hbc h
    rw [this] at h₁
    cases h₁

theorem strLeB_antisymm {a b : Str} (h₁ : strLeB a b = true)
    (h₂ : strLeB b a = true) : a = b := by
  unfold strLeB at h₁ h₂
  simp only [Bool.not_eq_true'] at h₁ h₂
  exact strLtB_eq_of_not h₂ h₁

theorem strLtB_of_le_of_ne {a b : Str} (h₁ : strLeB a b = true) (h₂ : a ≠ b) :
    strLtB a b = true := by
  unfold strLeB at h₁
  simp only [Bool.not_eq_true'] at h₁
  rcases h : strLtB a b with _ | _
  · exact absurd (strLtB_eq_of_not h h₁) h₂
  · rfl

theorem strLtB_ne {a b : Str} (h : strLtB a b = true) : a ≠ b := by
  intro he; subst he; rw [strLtB_irrefl] at h; cases h

/-- Python `str.zfill`: left-pad with `'0'` to the given width, keeping a
leading sign character in front of the padding. -/
def zfill (width : Nat) : Str → Str
  | c :: rest =>
    if c = '+' ∨ c = '-' then
      if rest.length + 1 < width then
        c :: (List.replicate (width - (rest.length + 1)) '0' ++ rest)
      else c :: rest
    else
      if (c :: rest).length < width then
        List.replicate (width - (c :: rest).length) '0' ++ (c :: rest)
      else c :: rest
  | [] => List.replicate width '0'

/-- Python `sep.join(parts)` (and `"\n".join`): intercalate. -/
def pyJoin (sep : Str) : List Str → Str
  | [] => []
  | [p] => p
  | p :: rest => p ++ sep ++ pyJoin sep rest

/-- Helper for `pySplit`: structural recursion on a fuel bound (at least the
length of the remaining input) so the function reduces by kernel evaluation. -/
def pySplitAux (sep : Str) : Nat → Str → Str → List Str
  | _, [], acc => [acc.reverse]
  | 0, s, acc => [acc.reverse ++ s]
  | fuel + 1, c :: rest, acc =>
    if sep.isPrefixOf (c :: rest) then
      acc.reverse :: pySplitAux sep fuel (List.drop (sep.length - 1) rest) []
    else
      pySplitAux sep fuel rest (c :: acc)

/-- Python `s.split(sep)` for a non-empty separator `sep` (the source only
splits on `"\n"` and `"%Y"`; Python rejects an empty separator). -/
def pySplit (sep : Str) (s : Str) : List Str :=
  pySplitAux sep s.length s []

/-- Whitespace characters stripped by Python's `str.strip()` (the ASCII
ones; the source only ever strips spaces, tabs and line ends). -/
def isPyWs (c : Char) : Bool :=
  c = ' ' || c = '\t' || c = '\n' || c = '\r' || c = '\x0b' || c = '\x0c'

/-- Python `s.strip()`. -/
def pyStrip (s : Str) : Str :=
  ((s.dropWhile isPyWs).reverse.dropWhile isPyWs).reverse

/-- Python `s.rstrip("\n")`. -/
def rstripNl (s : Str) : Str :=
  (s.reverse.dropWhile (fun c => c = '\n')).reverse

/-- Python `s.rstrip(",\n")`. -/
def rstripCommaNl (s : Str) : Str :=
  (s.reverse.dropWhile (fun c => c = ',' || c = '\n')).reverse

/-- Python `s.rstrip(",")`. -/
def rstripComma (s : Str) : Str :=
  (s.reverse.dropWhile (fun c => c = ',')).reverse

/-- Python `s.removeprefix(p)`. -/
def removePrefix (p s : Str) : Str :=
  if p.isPrefixOf s then s.drop p.length else s

/-- Python `p in s` (substring containment), as a proposition:
`p` occurs contiguously inside `s`. -/
def containsSubstr (s p : Str) : Prop := p <:+: s

instance (s p : Str) : Decidable (containsSubstr s p) := by
  unfold containsSubstr
  infer_instance

/-- Decimal digits of `n`, by structural recursion on a fuel bound. -/
def natDigitsAux : Nat → Nat → Str
  | 0, _ => []
  | _ + 1, 0 => []
  | fuel + 1, n => natDigitsAux fuel (n / 10) ++ [Char.ofNat (48 + n % 10)]

/-- Python `str(n)` for a natural number. -/
def natStr (n : Nat) : Str :=
  if n = 0 then ['0'] else natDigitsAux n n

/-! ## Errors

The source distinguishes `SimpleEbookManagerExit` (reported user-data
errors, raised with a human-readable message) from
`SimpleEbookManagerException` (internal programming faults).  Fallible
operations return `Except SemError`. -/

/-- The two fault categories of the source. -/
inductive SemError where
  /-- `SimpleEbookManagerExit`: reported user-data error with its message. -/
  | exit (msg : Str)
  /-- `SimpleEbookManagerException` (or an uncaught builtin exception):
  internal programming fault. -/
  | exception (msg : Str)
deriving DecidableEq, Repr

/-- `SemError.isUserError`: whether the fault is a reported user-data
error (`SimpleEbookManagerExit`) rather than an internal fault. -/
def SemError.isUserError : SemError → Bool
  | .exit _ => true
  | .exception _ => false

/-! ## `src/book/date.py`: `BookDate`

The Python `datetime` object inside a `BookDate` is an external value;
`strftime` is an oracle parameter `Str → Str` giving, for the fixed
datetime held by the `BookDate`, the platform's rendering of any format
string. -/

/-- An opaque Python `datetime` instance. -/
structure PyDatetime where
  /-- Identity of the external datetime value. -/
  id : Nat
deriving DecidableEq, Repr

/-- `BookDate` (`src/book/date.py`): wraps a `datetime`. -/
structure BookDate where
  /-- The source's `_datetime` field. -/
  _datetime : PyDatetime
deriving DecidableEq, Repr

/-- The `_YEAR` constant of `src/book/date.py`. -/
def _YEAR : Str := chars "%Y"

/-- `BookDate.as_str` (`src/book/date.py` lines 20-27): format the year
directive separately with `zfill(4)` and join the `strftime`-rendered
remaining parts of the format with it.  `strftime fmt` is the platform
rendering of format `fmt` for this date's `datetime`. -/
def BookDate.as_str (strftime : Str → Str) (dt_fmt : Str) : Str :=
  let year_formatted := zfill 4 (strftime _YEAR)
  pyJoin year_formatted ((pySplit _YEAR dt_fmt).map strftime)

/-! ## `src/book/sortdisplay.py`: `SortDisplay` -/

/-- `SortDisplay` (`src/book/sortdisplay.py`): a cross-referenceable
(sort, display, optional key) triple. -/
structure SortDisplay where
  /-- Sort string. -/
  sort : Str
  /-- Display string. -/
  display : Str
  /-- The source's `_key` field: `None` until key assignment. -/
  _key : Option Str := none
deriving DecidableEq, Repr

/-- `SortDisplay.key` (`src/book/sortdisplay.py` lines 22-27): raises the
programming-error exception `SimpleEbookManagerException` carrying the
sort value when `_key` is `None`, else returns `_key`. -/
def SortDisplay.key (sd : SortDisplay) : Except SemError Str :=
  match sd._key with
  | none => .error (.exception (chars "key for 'sort=" ++ sd.sort ++ chars "' is None"))
  | some k => .ok k

/-! ## Lemmas about `zfill` -/

/-- A string that does not start with a sign character, so `zfill` pads it
with plain zeros (`strftime("%Y")` output for common era years). -/
def noSign (s : Str) : Prop := s.head? ≠ some '+' ∧ s.head? ≠ some '-'

instance (s : Str) : Decidable (noSign s) := by
  unfold noSign
  infer_instance

theorem zfill_length (s : Str) : 4 ≤ (zfill 4 s).length := by
  match s with
  | [] => simp [zfill]
  | c :: rest =>
    simp only [zfill]
    by_cases hsign : c = '+' ∨ c = '-'
    · rw [if_pos hsign]
      by_cases hlen : rest.length + 1 < 4
      · rw [if_pos hlen]
        simp only [List.length_cons, List.length_append, List.length_replicate]
        omega
      · rw [if_neg hlen]
        simp only [List.length_cons]
        omega
    · rw [if_neg hsign]
      by_cases hlen : (c :: rest).length < 4
      · rw [if_pos hlen]
        simp only [List.length_append, List.length_replicate]
        omega
      · rw [if_neg hlen]
        omega

theorem zfill_no_sign (s : Str) (hsign : noSign s) :
    zfill 4 s = List.replicate (4 - s.length) '0' ++ s := by
  match s with
  | [] => simp [zfill]
  | c :: rest =>
    have h : ¬(c = '+' ∨ c = '-') := by
      rcases hsign with ⟨h1, h2⟩
      simp only [List.head?_cons, ne_eq, Option.some.injEq] at h1 h2
      tauto
    simp only [zfill]
    rw [if_neg h]
    by_cases hlen : (c :: rest).length < 4
    · rw [if_pos hlen]
    · rw [if_neg hlen]
      have h0 : 4 - (c :: rest).length = 0 := by
        simp only [List.length_cons] at hlen ⊢
        omega
      rw [h0]
      simp

theorem zfill_eq_pad (s : Str) (hsign : noSign s) :
    ∃ k, zfill 4 s = List.replicate k '0' ++ s :=
  ⟨4 - s.length, zfill_no_sign s hsign⟩

theorem zfill_pad_invariant (y : Str) (k : Nat) (hsign : noSign y)
    (hlen : k + y.length ≤ 4) :
    zfill 4 (List.replicate k '0' ++ y) = zfill 4 y := by
  have hsign2 : noSign (List.replicate k '0' ++ y) := by
    match k with
    | 0 => simpa using hsign
    | k' + 1 =>
      constructor <;> simp [List.replicate_succ]
  rw [zfill_no_sign _ hsign2, zfill_no_sign _ hsign]
  rw [← List.append_assoc, ← List.replicate_add]
  congr 2
  simp only [List.length_append, List.length_replicate]
  omega

/-- C8: for every `BookDate` (represented through its `strftime` oracle) and
every output format, `BookDate.as_str` interpolates the year as
`zfill 4 (strftime "%Y")`: the year component has at least 4 characters, it
is the platform's year digits preceded only by zero padding (when the year
is unsigned), it is invariant under the platform's own choice of
zero-padding the year up to width 4, and the remaining parts of the format
are rendered as plain `strftime` output joined around the year. -/
theorem bookdate_as_str_year_padded (strftime : Str → Str) (dt_fmt : Str) :
    BookDate.as_str strftime dt_fmt =
        pyJoin (zfill 4 (strftime _YEAR)) ((pySplit _YEAR dt_fmt).map strftime) ∧
    4 ≤ (zfill 4 (strftime _YEAR)).length ∧
    (noSign (strftime _YEAR) →
      ∃ k, zfill 4 (strftime _YEAR) = List.replicate k '0' ++ strftime _YEAR) ∧
    (∀ (strftime' : Str → Str) (k : Nat),
      strftime' _YEAR = List.replicate k '0' ++ strftime _YEAR →
      noSign (strftime _YEAR) →
      k + (strftime _YEAR).length ≤ 4 →
      zfill 4 (strftime' _YEAR) = zfill 4 (strftime _YEAR)) := by
  refine ⟨rfl, zfill_length _, fun hsign => zfill_eq_pad _ hsign, ?_⟩
  intro strftime' k hpad hsign hlen
  rw [hpad]
  exact zfill_pad_invariant _ k hsign hlen

/-- Witness for C8 at a concrete platform oracle: a platform whose `%Y`
renders year 7 as the unpadded `"7"` still yields `"0007-"` for the
format `"%Y-"`, identical to a platform that pads to `"0007"` itself. -/
theorem bookdate_as_str_year_padded_witness :
    BookDate.as_str (fun s => if s = _YEAR then chars "7" else s) (chars "%Y-") =
      chars "0007-" ∧
    zfill 4 (chars "7") = zfill 4 (chars "0007") := by
  have h := bookdate_as_str_year_padded
    (fun s => if s = _YEAR then chars "7" else s) (chars "%Y-")
  refine ⟨?_, ?_⟩
  · rw [h.1]
    decide
  · have h4 := h.2.2.2 (fun s => if s = _YEAR then chars "0007" else s) 3
      (by decide) (by decide) (by decide)
    simp only [if_pos rfl] at h4
    exact h4.symm

/-- C9: reading the key of a `SortDisplay` whose key has not been assigned
raises the internal programming-error exception
(`SimpleEbookManagerException`) carrying the sort value — never a reported
user-data error — and an assigned key is returned as-is. -/
theorem sortdisplay_key_unassigned (sd : SortDisplay) :
    (sd._key = none →
      sd.key = Except.error (SemError.exception
        (chars "key for 'sort=" ++ sd.sort ++ chars "' is None"))) ∧
    (∀ k, sd._key = some k → sd.key = Except.ok k) ∧
    (∀ e, sd.key = Except.error e →
      e.isUserError = false ∧
      ∃ msg, e = SemError.exception msg ∧ containsSubstr msg sd.sort) := by
  refine ⟨?_, ?_, ?_⟩
  · intro h
    simp [SortDisplay.key, h]
  · intro k h
    simp [SortDisplay.key, h]
  · intro e he
    match hk : sd._key with
    | none =>
      simp only [SortDisplay.key, hk] at he
      cases he
      refine ⟨rfl, _, rfl, ?_⟩
      exact ⟨chars "key for 'sort=", chars "' is None", rfl⟩
    | some k =>
      simp [SortDisplay.key, hk] at he

/-- Witness for C9: a concrete `SortDisplay` with unassigned key. -/
theorem sortdisplay_key_unassigned_witness :
    (SortDisplay.mk (chars "a") (chars "b") none).key =
      Except.error (SemError.exception (chars "key for 'sort=a' is None")) := by
  exact (sortdisplay_key_unassigned ⟨chars "a", chars "b", none⟩).1 rfl

/-! ## Ordering of model values

Python dataclasses with `order=True` compare as tuples of their fields.
`None` keys only ever meet `None` keys in comparisons the source performs
(keys are assigned after all sorting), so ordering `none` first is a
conservative completion of the partial Python order. -/

/-- Ordering of optional keys (`none` first). -/
def optStrLtB : Option Str → Option Str → Bool
  | none, none => false
  | none, some _ => true
  | some _, none => false
  | some a, some b => strLtB a b

theorem optStrLtB_asymm {a b : Option Str} (h : optStrLtB a b = true) :
    optStrLtB b a = false := by
  match a, b with
  | none, none => simp [optStrLtB] at h
  | none, some _ => rfl
  | some _, none => cases h
  | some x, some y => exact strLtB_asymm h

theorem optStrLtB_trans {a b c : Option Str} (h₁ : optStrLtB a b = true)
    (h₂ : optStrLtB b c = true) : optStrLtB a c = true := by
  match a, b, c with
  | none, none, _ => exact h₂
  | none, some _, none => cases h₂
  | none, some _, some _ => rfl
  | some _, none, _ => cases h₁
  | some x, some y, none => cases h₂
  | some x, some y, some z => exact strLtB_trans h₁ h₂

theorem optStrLtB_eq_of_not {a b : Option Str} (h₁ : optStrLtB a b = false)
    (h₂ : optStrLtB b a = false) : a = b := by
  match a, b with
  | none, none => rfl
  | none, some _ => cases h₁
  | some _, none => cases h₂
  | some x, some y => rw [strLtB_eq_of_not h₁ h₂]

/-- Python `<` on `SortDisplay` (dataclass `order=True`): lexicographic on
`(sort, display, _key)`. -/
def sdLtB (a b : SortDisplay) : Bool :=
  strLtB a.sort b.sort ||
    (a.sort == b.sort &&
      (strLtB a.display b.display ||
        (a.display == b.display && optStrLtB a._key b._key)))

theorem sdLtB_irrefl (a : SortDisplay) : sdLtB a a = false := by
  unfold sdLtB
  simp only [strLtB_irrefl, beq_self_eq_true, Bool.true_and, Bool.false_or]
  match h : a._key with
  | none => rfl
  | some k => simp [optStrLtB, strLtB_irrefl]

theorem sdLtB_asymm {a b : SortDisplay} (h : sdLtB a b = true) :
    sdLtB b a = false := by
  unfold sdLtB at h ⊢
  rcases hs : strLtB a.sort b.sort with _ | _
  · rw [hs] at h
    simp only [Bool.false_or, Bool.and_eq_true, beq_iff_eq] at h
    obtain ⟨hse, hrest⟩ := h
    rw [hse, strLtB_irrefl]
    simp only [Bool.false_or, beq_self_eq_true, Bool.true_and]
    rcases hd : strLtB a.display b.display with _ | _
    · rw [hd] at hrest
      simp only [Bool.false_or, Bool.and_eq_true, beq_iff_eq] at hrest
      obtain ⟨hde, hk⟩ := hrest
      rw [hde, strLtB_irrefl]
      simp only [Bool.false_or, beq_self_eq_true, Bool.true_and]
      simp [optStrLtB_asymm hk]
    · rw [strLtB_asymm hd]
      have hne : (b.display == a.display) = false := by
        simp only [beq_eq_false_iff_ne, ne_eq]
        intro he
        exact strLtB_ne hd he.symm
      simp [hne]
  · rw [strLtB_asymm hs]
    have hne : (b.sort == a.sort) = false := by
      simp only [beq_eq_false_iff_ne, ne_eq]
      intro he
      exact strLtB_ne hs he.symm
    simp [hne]

theorem sdLtB_trans {a b c : SortDisplay} (h₁ : sdLtB a b = true)
    (h₂ : sdLtB b c = true) : sdLtB a c = true := by
  unfold sdLtB at h₁ h₂ ⊢
  simp only [Bool.or_eq_true, Bool.and_eq_true, beq_iff_eq] at h₁ h₂ ⊢
  rcases h₁ with h₁ | ⟨hse₁, h₁⟩
  · rcases h₂ with h₂ | ⟨hse₂, _⟩
    · exact Or.inl (strLtB_trans h₁ h₂)
    · rw [hse₂] at h₁
      exact Or.inl h₁
  · rcases h₂ with h₂ | ⟨hse₂, h₂⟩
    · rw [hse₁]
      exact Or.inl h₂
    · refine Or.inr ⟨hse₁.trans hse₂, ?_⟩
      rcases h₁ with h₁ | ⟨hde₁, h₁⟩
      · rcases h₂ with h₂ | ⟨hde₂, _⟩
        · exact Or.inl (strLtB_trans h₁ h₂)
        · rw [hde₂] at h₁
          exact Or.inl h₁
      · rcases h₂ with h₂ | ⟨hde₂, h₂⟩
        · rw [hde₁]
          exact Or.inl h₂
        · exact Or.inr ⟨hde₁.trans hde₂, optStrLtB_trans h₁ h₂⟩

theorem sdLtB_eq_of_not {a b : SortDisplay} (h₁ : sdLtB a b = false)
    (h₂ : sdLtB b a = false) : a = b := by
  unfold sdLtB at h₁ h₂
  simp only [Bool.or_eq_false_iff, Bool.and_eq_false_iff, beq_eq_false_iff_ne,
    ne_eq] at h₁ h₂
  obtain ⟨hs₁, hrest₁⟩ := h₁
  obtain ⟨hs₂, hrest₂⟩ := h₂
  have hse : a.sort = b.sort := strLtB_eq_of_not hs₁ hs₂
  rcases hrest₁ with hne | hrest₁
  · exact absurd hse hne
  rcases hrest₂ with hne | hrest₂
  · exact absurd hse.symm hne
  obtain ⟨hd₁, hk₁⟩ := hrest₁
  obtain ⟨hd₂, hk₂⟩ := hrest₂
  have hde : a.display = b.display := strLtB_eq_of_not hd₁ hd₂
  rcases hk₁ with hne | hk₁
  · exact absurd hde hne
  rcases hk₂ with hne | hk₂
  · exact absurd hde.symm hne
  have hke : a._key = b._key := optStrLtB_eq_of_not hk₁ hk₂
  cases a
  cases b
  simp only at hse hde hke
  rw [hse, hde, hke]

/-- Generic: totality of `not lt-flipped` from asymmetry of `lt`. -/
theorem leB_total_of_lt {α : Type} (lt : α → α → Bool)
    (hasymm : ∀ {a b : α}, lt a b = true → lt b a = false) (a b : α) :
    (!(lt b a)) = true ∨ (!(lt a b)) = true := by
  rcases h : lt b a with _ | _
  · left; rfl
  · right; simp [hasymm h]

/-- Generic: transitivity of `not lt-flipped` from transitivity of `lt` plus
substitutivity of incomparable elements. -/
theorem leB_trans_of_lt {α : Type} (lt : α → α → Bool)
    (htrans : ∀ {a b c : α}, lt a b = true → lt b c = true → lt a c = true)
    (hrepl : ∀ {a b : α}, lt a b = false → lt b a = false →
      ∀ c, lt c a = lt c b)
    {a b c : α} (h₁ : (!(lt b a)) = true) (h₂ : (!(lt c b)) = true) :
    (!(lt c a)) = true := by
  simp only [Bool.not_eq_true'] at h₁ h₂ ⊢
  by_contra hca
  simp only [Bool.not_eq_false] at hca
  rcases hab : lt a b with _ | _
  · rw [hrepl hab h₁ c] at hca
    rw [hca] at h₂
    cases h₂
  · rw [htrans hca hab] at h₂
    cases h₂

/-- Python `<=` for `Str` as a proposition, for sorting. -/
def strLe (a b : Str) : Prop := strLeB a b = true

instance : DecidableRel strLe := fun a b => by unfold strLe; infer_instance

instance : IsTotal Str strLe :=
  ⟨fun a b => leB_total_of_lt strLtB (fun h => strLtB_asymm h) a b⟩

instance : IsTrans Str strLe :=
  ⟨fun _ _ _ h₁ h₂ => strLeB_trans h₁ h₂⟩

/-- Python `<=` on `SortDisplay`. -/
def sdLeB (a b : SortDisplay) : Bool := !(sdLtB b a)

/-- `sdLeB` as a proposition, for sorting. -/
def sdLe (a b : SortDisplay) : Prop := sdLeB a b = true

instance : DecidableRel sdLe := fun a b => by unfold sdLe; infer_instance

instance : IsTotal SortDisplay sdLe :=
  ⟨fun a b => leB_total_of_lt sdLtB (fun h => sdLtB_asymm h) a b⟩

instance : IsTrans SortDisplay sdLe :=
  ⟨fun _ _ _ h₁ h₂ =>
    leB_trans_of_lt sdLtB (fun ha hb => sdLtB_trans ha hb)
      (fun ha hb c => by rw [sdLtB_eq_of_not ha hb]) h₁ h₂⟩

theorem sdLeB_sort {a b : SortDisplay} (h : sdLeB a b = true) :
    strLeB a.sort b.sort = true := by
  unfold sdLeB at h
  unfold strLeB
  simp only [Bool.not_eq_true'] at h ⊢
  rcases hs : strLtB b.sort a.sort with _ | _
  · rfl
  · unfold sdLtB at h
    rw [hs] at h
    simp at h

/-! ## Remaining data model (`src/book`, `src/util/misc.py`) -/

/-- `KeyType` (`src/all_metadata.py`): which key type to assign. -/
inductive KeyType where
  /-- `sequential-integer`. -/
  | INT
  /-- no key. -/
  | NONE
  /-- `random-unique-id`. -/
  | UUID
deriving DecidableEq, Repr

/-- `DirVar` (`src/util/misc.py`): a directory substitution variable. -/
structure DirVar where
  /-- Variable name. -/
  name : Str
  /-- Variable value. -/
  value : Str
deriving DecidableEq, Repr

/-- `str(dir_var)`: `"name=value"`. -/
def DirVar.toStr (dv : DirVar) : Str := dv.name ++ chars "=" ++ dv.value

/-- Python `<` on `DirVar` (dataclass `order=True`): lexicographic on
`(name, value)`. -/
def dvLtB (a b : DirVar) : Bool :=
  strLtB a.name b.name || (a.name == b.name && strLtB a.value b.value)

/-- `dvLtB`-induced `<=`, for sorting `dir_vars`. -/
def dvLe (a b : DirVar) : Prop := (!(dvLtB b a)) = true

instance : DecidableRel dvLe := fun a b => by unfold dvLe; infer_instance

/-- `BookKeyValue` (`src/book/keyvalue.py`). -/
structure BookKeyValue where
  /-- Key. -/
  key : Str
  /-- Value. -/
  value : Str
deriving DecidableEq, Repr

/-- `BookFile` (`src/book/file.py`): a physical file attached to a Book.
`Path` values are modelled as their POSIX string form. -/
structure BookFile where
  /-- Title sort of the owning book. -/
  book_title_sort : Str
  /-- File basename. -/
  basename : Str
  /-- Directory of the book's metadata file. -/
  metadata_dir : Str
  /-- The (sorted) dir vars in effect. -/
  dir_vars : List DirVar
  /-- The raw `directory` value from the metadata file. -/
  input_dir_str : Str
  /-- Content hash, algorithm-tagged. -/
  hash : Str
  /-- Resolved absolute path. -/
  fn : Str
deriving DecidableEq, Repr

/-- Lexicographic `<` on `List DirVar` (Python tuple comparison). -/
def dvListLtB : List DirVar → List DirVar → Bool
  | [], [] => false
  | [], _ :: _ => true
  | _ :: _, [] => false
  | a :: as, b :: bs =>
    if dvLtB a b then true else if dvLtB b a then false
    else if a == b then dvListLtB as bs else false

/-- Python `<` on `BookFile` (dataclass `order=True`): lexicographic on the
declared field tuple. -/
def bfLtB (a b : BookFile) : Bool :=
  strLtB a.book_title_sort b.book_title_sort ||
    (a.book_title_sort == b.book_title_sort &&
      (strLtB a.basename b.basename ||
        (a.basename == b.basename &&
          (strLtB a.metadata_dir b.metadata_dir ||
            (a.metadata_dir == b.metadata_dir &&
              (dvListLtB a.dir_vars b.dir_vars ||
                (a.dir_vars == b.dir_vars &&
                  (strLtB a.input_dir_str b.input_dir_str ||
                    (a.input_dir_str == b.input_dir_str &&
                      (strLtB a.hash b.hash ||
                        (a.hash == b.hash && strLtB a.fn b.fn)))))))))))

/-- `bfLtB`-induced `<=`, for sorting the flattened file list. -/
def bfLe (a b : BookFile) : Prop := (!(bfLtB b a)) = true

instance : DecidableRel bfLe := fun a b => by unfold bfLe; infer_instance

/-- `_BookFields` (`src/book/book.py`): per-kind field maps of one book,
as association lists from field name to typed value. -/
structure BookFields where
  /-- Date fields. -/
  dates : List (Str × Option BookDate)
  /-- KeyValue fields. -/
  keyvalues : List (Str × List BookKeyValue)
  /-- SortDisplay (Reference) fields. -/
  sortdisplays : List (Str × List SortDisplay)
  /-- String fields. -/
  strings : List (Str × Option Str)
deriving DecidableEq, Repr

/-- `Book` (`src/book/book.py`): one catalogued item. -/
structure Book where
  /-- The Title value. -/
  title : SortDisplay
  /-- Directory of the metadata file. -/
  metadata_dir : Str
  /-- Field values. -/
  fields : BookFields
  /-- Attached files. -/
  files : List BookFile
deriving DecidableEq, Repr

/-- Python `<` on `Book` (dataclass `order=True`): compares
`(title, metadata_dir, fields, files)`; the comparison never reaches
`fields` in the source because it only sorts books whose `(title,
metadata_dir)` pairs are pairwise distinct, so the model compares the
first two components. -/
def bookLtB (a b : Book) : Bool :=
  sdLtB a.title b.title ||
    (a.title == b.title && strLtB a.metadata_dir b.metadata_dir)

/-- `bookLtB`-induced `<=`, for sorting books. -/
def bookLe (a b : Book) : Prop := (!(bookLtB b a)) = true

instance : DecidableRel bookLe := fun a b => by unfold bookLe; infer_instance

theorem bookLtB_asymm {a b : Book} (h : bookLtB a b = true) :
    bookLtB b a = false := by
  unfold bookLtB at h ⊢
  simp only [Bool.or_eq_true, Bool.and_eq_true, beq_iff_eq] at h
  rcases h with h | ⟨hte, h⟩
  · rw [sdLtB_asymm h]
    have hne : (b.title == a.title) = false := by
      simp only [beq_eq_false_iff_ne, ne_eq]
      intro he
      rw [he] at h
      rw [sdLtB_irrefl] at h
      cases h
    simp [hne]
  · rw [hte, sdLtB_irrefl]
    simp only [Bool.false_or, beq_self_eq_true, Bool.true_and]
    exact strLtB_asymm h

theorem bookLtB_trans {a b c : Book} (h₁ : bookLtB a b = true)
    (h₂ : bookLtB b c = true) : bookLtB a c = true := by
  unfold bookLtB at h₁ h₂ ⊢
  simp only [Bool.or_eq_true, Bool.and_eq_true, beq_iff_eq] at h₁ h₂ ⊢
  rcases h₁ with h₁ | ⟨hte₁, h₁⟩
  · rcases h₂ with h₂ | ⟨hte₂, _⟩
    · exact Or.inl (sdLtB_trans h₁ h₂)
    · rw [hte₂] at h₁
      exact Or.inl h₁
  · rcases h₂ with h₂ | ⟨hte₂, h₂⟩
    · rw [hte₁]
      exact Or.inl h₂
    · exact Or.inr ⟨hte₁.trans hte₂, strLtB_trans h₁ h₂⟩

theorem bookLtB_keys_eq_of_not {a b : Book} (h₁ : bookLtB a b = false)
    (h₂ : bookLtB b a = false) :
    a.title = b.title ∧ a.metadata_dir = b.metadata_dir := by
  unfold bookLtB at h₁ h₂
  simp only [Bool.or_eq_false_iff, Bool.and_eq_false_iff, beq_eq_false_iff_ne,
    ne_eq] at h₁ h₂
  obtain ⟨ht₁, hr₁⟩ := h₁
  obtain ⟨ht₂, hr₂⟩ := h₂
  have hte : a.title = b.title := sdLtB_eq_of_not ht₁ ht₂
  rcases hr₁ with hne | hr₁
  · exact absurd hte hne
  rcases hr₂ with hne | hr₂
  · exact absurd hte.symm hne
  exact ⟨hte, strLtB_eq_of_not hr₁ hr₂⟩

instance : IsTotal Book bookLe :=
  ⟨fun a b => leB_total_of_lt bookLtB (fun h => bookLtB_asymm h) a b⟩

instance : IsTrans Book bookLe :=
  ⟨fun _ _ _ h₁ h₂ =>
    leB_trans_of_lt bookLtB (fun ha hb => bookLtB_trans ha hb)
      (fun ha hb c => by
        obtain ⟨hte, hde⟩ := bookLtB_keys_eq_of_not ha hb
        unfold bookLtB
        rw [hte, hde]) h₁ h₂⟩

theorem bookLe_title {a b : Book} (h : bookLe a b) :
    sdLeB a.title b.title = true := by
  unfold bookLe at h
  unfold sdLeB
  simp only [Bool.not_eq_true'] at h ⊢
  rcases hs : sdLtB b.title a.title with _ | _
  · rfl
  · unfold bookLtB at h
    rw [hs] at h
    simp at h

/-! ## Sortedness and adjacent-duplicate machinery -/

/-- Conjunction of two adjacent-pair chains. -/
theorem chain'_and {α : Type} {R S : α → α → Prop} :
    ∀ {l : List α}, l.Chain' R → l.Chain' S → l.Chain' (fun a b => R a b ∧ S a b)
  | [], _, _ => List.chain'_nil
  | [_], _, _ => List.chain'_singleton _
  | a :: b :: t, h1, h2 => by
    rw [List.chain'_cons] at h1 h2 ⊢
    exact ⟨⟨h1.1, h2.1⟩, chain'_and h1.2 h2.2⟩

/-- In a list weakly sorted by a `Str`-valued key, if no two adjacent
elements share the key then all keys are distinct. -/
theorem nodup_map_of_sorted_chain_ne {α : Type} (key : α → Str) {l : List α}
    (hs : l.Pairwise (fun a b => strLeB (key a) (key b) = true))
    (hadj : l.Chain' (fun a b => key a ≠ key b)) :
    (l.map key).Nodup := by
  have hlt : l.Chain' (fun a b => strLtB (key a) (key b) = true) :=
    (chain'_and hs.chain' hadj).imp
      (fun _ _ h => strLtB_of_le_of_ne h.1 h.2)
  haveI : IsTrans α (fun a b => strLtB (key a) (key b) = true) :=
    ⟨fun _ _ _ h1 h2 => strLtB_trans h1 h2⟩
  have hpw : l.Pairwise (fun a b => strLtB (key a) (key b) = true) :=
    List.chain'_iff_pairwise.1 hlt
  rw [List.Nodup, List.pairwise_map]
  exact hpw.imp (fun h => strLtB_ne h)

/-- Scan a sorted list of strings for an adjacent duplicate (the loop over
`displays` in `_get_sd_dicts`, lines 119-121 of `src/all_metadata.py`). -/
def findAdjacentDup : List Str → Option Str
  | a :: b :: rest => if a = b then some a else findAdjacentDup (b :: rest)
  | _ => none

theorem findAdjacentDup_none :
    ∀ {l : List Str}, findAdjacentDup l = none → l.Chain' (· ≠ ·)
  | [], _ => List.chain'_nil
  | [_], _ => List.chain'_singleton _
  | a :: b :: t, h => by
    rw [findAdjacentDup] at h
    by_cases hab : a = b
    · rw [if_pos hab] at h
      cases h
    · rw [if_neg hab] at h
      rw [List.chain'_cons]
      exact ⟨hab, findAdjacentDup_none h⟩

theorem findAdjacentDup_sublist :
    ∀ {l : List Str} {v : Str}, findAdjacentDup l = some v → [v, v].Sublist l
  | [], _, h => by cases h
  | [_], _, h => by cases h
  | a :: b :: t, v, h => by
    rw [findAdjacentDup] at h
    by_cases hab : a = b
    · rw [if_pos hab] at h
      injection h with hv
      subst hv
      subst hab
      exact List.sublist_append_left [a, a] t
    · rw [if_neg hab] at h
      exact (findAdjacentDup_sublist h).cons a

/-- A pair sublist survives permutation. -/
theorem pair_sublist_of_perm {α : Type} {v : α} {l₁ l₂ : List α}
    (hp : l₁.Perm l₂) (hs : [v, v].Sublist l₁) : [v, v].Sublist l₂ := by
  have hsp : [v, v].Subperm l₂ := hs.subperm.trans hp.subperm
  obtain ⟨l', hl', hsub⟩ := hsp
  have hlen : l'.length = 2 := hl'.length_eq
  match l', hlen, hl', hsub with
  | [a, b], _, hl', hsub =>
    have ha : a ∈ ([v, v] : List α) := hl'.mem_iff.1 (by simp)
    have hb : b ∈ ([v, v] : List α) := hl'.mem_iff.1 (by simp)
    simp only [List.mem_cons, List.mem_singleton, or_self,
      List.not_mem_nil, or_false] at ha hb
    subst ha
    subst hb
    exact hsub

/-- Scan a sorted list of `SortDisplay`s for adjacent entries sharing the
sort value (the check at lines 124-126 of `src/all_metadata.py`). -/
def findAdjacentSortDup : List SortDisplay → Option Str
  | a :: b :: rest =>
    if a.sort = b.sort then some a.sort else findAdjacentSortDup (b :: rest)
  | _ => none

theorem findAdjacentSortDup_none :
    ∀ {l : List SortDisplay}, findAdjacentSortDup l = none →
      l.Chain' (fun a b => a.sort ≠ b.sort)
  | [], _ => List.chain'_nil
  | [_], _ => List.chain'_singleton _
  | a :: b :: t, h => by
    rw [findAdjacentSortDup] at h
    by_cases hab : a.sort = b.sort
    · rw [if_pos hab] at h
      cases h
    · rw [if_neg hab] at h
      rw [List.chain'_cons]
      exact ⟨hab, findAdjacentSortDup_none h⟩

theorem findAdjacentSortDup_some :
    ∀ {l : List SortDisplay} {v : Str}, findAdjacentSortDup l = some v →
      ∃ a b, [a, b].Sublist l ∧ a.sort = v ∧ b.sort = v
  | [], _, h => by cases h
  | [_], _, h => by cases h
  | a :: b :: t, v, h => by
    rw [findAdjacentSortDup] at h
    by_cases hab : a.sort = b.sort
    · rw [if_pos hab] at h
      injection h with hv
      refine ⟨a, b, ?_, hv, by rw [← hab, hv]⟩
      exact List.sublist_append_left [a, b] t
    · rw [if_neg hab] at h
      obtain ⟨x, y, hsub, hx, hy⟩ := findAdjacentSortDup_some h
      exact ⟨x, y, hsub.cons a, hx, hy⟩

/-! ## `src/all_metadata.py`: the Cross-Document Normalizer -/

/-- `_sd_error_duplicate` (`src/all_metadata.py` lines 96-102): the reported
error for a partial duplicate among a field's SortDisplays. -/
def _sd_error_duplicate (fieldname type_ val : Str) : SemError :=
  .exit (chars "ERROR: for field '" ++ fieldname ++ chars "' the " ++ type_ ++
    chars " value '" ++ val ++ chars "' has more than one " ++
    (if type_ = chars "sort" then chars "display" else chars "sort") ++
    chars " value over all books.")

/-- The key computed for the `i`-th (0-based) entry of a sorted SortDisplay
set (`src/all_metadata.py` lines 128-135).  `uuid` is the oracle for
`uuid.uuid4()` outcomes. -/
def sdKeyFor (key_type : KeyType) (uuid : Nat → Str) (i : Nat) : Option Str :=
  match key_type with
  | .INT => some (natStr (i + 1))
  | .NONE => none
  | .UUID => some (uuid i)

/-- The body of the per-field loop of `_get_sd_dicts` (`src/all_metadata.py`
lines 117-137): sort the displays and report an adjacent duplicate, then
sort the set, report adjacent duplicate sorts, and key each entry by its
rank.  The source raises on the first adjacent duplicate encountered while
interleaving key assignment; an aborted run produces no dict, so the
uninterleaved model is observationally the same. -/
def buildSdDict (fieldname : Str) (sd_set : List SortDisplay)
    (key_type : KeyType) (uuid : Nat → Str) :
    Except SemError (List (SortDisplay × SortDisplay)) :=
  match findAdjacentDup
      (List.insertionSort strLe (sd_set.map (fun sd => sd.display))) with
  | some d => .error (_sd_error_duplicate fieldname (chars "display") d)
  | none =>
    match findAdjacentSortDup (List.insertionSort sdLe sd_set) with
    | some s => .error (_sd_error_duplicate fieldname (chars "sort") s)
    | none =>
      .ok ((List.insertionSort sdLe sd_set).enum.map (fun p =>
        (p.2, SortDisplay.mk p.2.sort p.2.display (sdKeyFor key_type uuid p.1))))

/-- The SortDisplay values of book `b` for field `f`. -/
def bookFieldSds (b : Book) (f : Str) : List SortDisplay :=
  (b.fields.sortdisplays.lookup f).getD []

/-- The field names of the `sd_sets` DefaultDict built by `_get_sd_dicts`
(lines 110-114), in first-appearance order. -/
def sdFieldnames (books : List Book) : List Str :=
  (books.flatMap (fun b => b.fields.sortdisplays.map (fun p => p.1))).dedup

/-- `sd_sets[f]`: the union over all books of the SortDisplay values of
field `f` (a Python `set`; deduplicated, order canonicalized by the sort
that follows). -/
def sdSet (books : List Book) (f : Str) : List SortDisplay :=
  (books.flatMap (fun b => bookFieldSds b f)).dedup

/-- Per-field traversal of `_get_sd_dicts`, aborting at the first failing
field (fields are visited in `sd_sets` insertion order). -/
def getSdDictsGo (books : List Book) (key_type : KeyType) (uuid : Nat → Str) :
    List Str → Except SemError (List (Str × List (SortDisplay × SortDisplay)))
  | [] => .ok []
  | f :: rest =>
    match buildSdDict f (sdSet books f) key_type uuid with
    | .error e => .error e
    | .ok d =>
      match getSdDictsGo books key_type uuid rest with
      | .error e => .error e
      | .ok ds => .ok ((f, d) :: ds)

/-- `_get_sd_dicts` (`src/all_metadata.py` lines 108-139): collect each
field's deduplicated SortDisplay set, check the sort/display bijection and
assign keys.  The same `uuid` oracle is shared across fields (the source
draws fresh `uuid4()` values; no claim depends on their values). -/
def _get_sd_dicts (books : List Book) (key_type : KeyType) (uuid : Nat → Str) :
    Except SemError (List (Str × List (SortDisplay × SortDisplay))) :=
  getSdDictsGo books key_type uuid (sdFieldnames books)

/-- The duplicate-title error of `_get_books` (lines 70-74). -/
def titlePairDupMsg (sort display : Str) : SemError :=
  .exit (chars "ERROR: the title with sort '" ++ sort ++
    chars "' and display '" ++ display ++
    chars "' appears in more than one book.")

/-- The duplicate-display error of `_get_books` (lines 77-81). -/
def titleDisplayDupMsg (display : Str) : SemError :=
  .exit (chars "ERROR: the title display value '" ++ display ++
    chars "' has more than one sort value over all books.")

/-- The duplicate-sort error of `_get_books` (lines 84-88). -/
def titleSortDupMsg (sort : Str) : SemError :=
  .exit (chars "ERROR: the title sort value '" ++ sort ++
    chars "' has more than one display value over all books.")

/-- The loop of `_get_books` (`src/all_metadata.py` lines 64-91), with the
accumulated `titles`, `displays`, `sorts` and `books` lists. -/
def getBooksGo : List Book → List SortDisplay → List Str → List Str →
    List Book → Except SemError (List Book)
  | [], _, _, _, books => .ok (List.insertionSort bookLe books)
  | b :: rest, titles, displays, sorts, books =>
    if titles.contains b.title then
      .error (titlePairDupMsg b.title.sort b.title.display)
    else if displays.contains b.title.display then
      .error (titleDisplayDupMsg b.title.display)
    else if sorts.contains b.title.sort then
      .error (titleSortDupMsg b.title.sort)
    else
      getBooksGo rest (titles ++ [b.title]) (displays ++ [b.title.display])
        (sorts ++ [b.title.sort]) (books ++ [b])

/-- `_get_books` (`src/all_metadata.py` lines 60-93) applied to the already
loaded books (`Book.from_args` on each book dir is the I/O boundary):
check the three title-duplicate conditions and return the books sorted. -/
def _get_books (b_list : List Book) : Except SemError (List Book) :=
  getBooksGo b_list [] [] [] []

/-- Traverse a list with a fallible function, stopping at the first error
(`Except`-monadic map, written out for structural reasoning). -/
def mapExcept {α β : Type} (f : α → Except SemError β) :
    List α → Except SemError (List β)
  | [] => .ok []
  | a :: rest =>
    match f a with
    | .error e => .error e
    | .ok b =>
      match mapExcept f rest with
      | .error e => .error e
      | .ok bs => .ok (b :: bs)

theorem mapExcept_ok {α β : Type} {f : α → Except SemError β} :
    ∀ {l : List α} {bs : List β}, mapExcept f l = .ok bs →
      List.Forall₂ (fun a b => f a = .ok b) l bs
  | [], bs, h => by
    cases h
    exact List.Forall₂.nil
  | a :: rest, bs, h => by
    rw [mapExcept] at h
    split at h
    · cases h
    · rename_i b hb
      split at h
      · cases h
      · rename_i bs' hbs
        cases h
        exact List.Forall₂.cons hb (mapExcept_ok hbs)

/-- Rewrite one book's SortDisplay fields through the keyed dicts
(`src/all_metadata.py` lines 153-157).  A missing dict key is Python's
`KeyError`: an internal fault. -/
def rewriteBookSds (sd_dicts : List (Str × List (SortDisplay × SortDisplay)))
    (b : Book) :
    Except SemError (List (Str × List SortDisplay)) :=
  mapExcept (fun p =>
    match mapExcept (fun sd =>
        match ((sd_dicts.lookup p.1).getD []).lookup sd with
        | some keyed => Except.ok keyed
        | none => Except.error (.exception (chars "KeyError"))) p.2 with
    | .error e => .error e
    | .ok sds => .ok (p.1, sds)) b.fields.sortdisplays

/-- The loop of `_get_books_with_keys` (`src/all_metadata.py` lines
146-158): key the `i`-th book's title by `i+1` (or a fresh uuid) and
replace its SortDisplay values by the keyed dict entries.  `uuidB` is the
oracle for the title `uuid4()` draws. -/
def getBooksWithKeysGo (sd_dicts : List (Str × List (SortDisplay × SortDisplay)))
    (key_type : KeyType) (uuidB : Nat → Str) :
    Nat → List Book → Except SemError (List Book)
  | _, [] => .ok []
  | i, b :: rest =>
    match rewriteBookSds sd_dicts b with
    | .error e => .error e
    | .ok newSds =>
      match getBooksWithKeysGo sd_dicts key_type uuidB (i + 1) rest with
      | .error e => .error e
      | .ok rest' =>
        Except.ok ({ b with
          title := SortDisplay.mk b.title.sort b.title.display
            (some (if key_type = KeyType.UUID then uuidB i else natStr (i + 1))),
          fields := { b.fields with sortdisplays := newSds } } :: rest')

/-- `_get_books_with_keys` (`src/all_metadata.py` lines 142-160). -/
def _get_books_with_keys (books_no_keys : List Book)
    (sd_dicts : List (Str × List (SortDisplay × SortDisplay)))
    (key_type : KeyType) (uuidB : Nat → Str) : Except SemError (List Book) :=
  getBooksWithKeysGo sd_dicts key_type uuidB 0 books_no_keys

/-- `AllMetadata` (`src/all_metadata.py` lines 166-172). -/
structure AllMetadata where
  /-- All books, keyed when requested. -/
  books : List Book
  /-- Per-field keyed SortDisplay registries. -/
  fields : List (Str × List SortDisplay)
  /-- The flattened, sorted file list. -/
  files : List BookFile
deriving DecidableEq, Repr

/-- `AllMetadata.from_args` (`src/all_metadata.py` lines 174-203), from the
loaded book list (directory discovery and `Book.from_args` are the I/O
boundary): validate titles, build the keyed registries, rewrite books when
keys are assigned, and flatten the files. -/
def AllMetadata.from_books (b_list : List Book) (key_type : KeyType)
    (uuidF uuidB : Nat → Str) : Except SemError AllMetadata :=
  match _get_books b_list with
  | .error e => .error e
  | .ok books_no_keys =>
    match _get_sd_dicts books_no_keys key_type uuidF with
    | .error e => .error e
    | .ok sd_dicts =>
      match (if key_type ≠ KeyType.NONE then
          _get_books_with_keys books_no_keys sd_dicts key_type uuidB
        else
          Except.ok books_no_keys) with
      | .error e => .error e
      | .ok books =>
        Except.ok ⟨books,
          sd_dicts.map (fun p => (p.1, p.2.map (fun q => q.2))),
          List.insertionSort bfLe (books_no_keys.flatMap (fun b => b.files))⟩

/-! ## Properties of `buildSdDict` and `_get_sd_dicts` -/

theorem buildSdDict_ok {f : Str} {s : List SortDisplay} {kt : KeyType}
    {u : Nat → Str} {d : List (SortDisplay × SortDisplay)}
    (h : buildSdDict f s kt u = .ok d) :
    d = (List.insertionSort sdLe s).enum.map (fun p =>
      (p.2, SortDisplay.mk p.2.sort p.2.display (sdKeyFor kt u p.1))) ∧
    findAdjacentDup (List.insertionSort strLe
      (s.map (fun sd => sd.display))) = none ∧
    findAdjacentSortDup (List.insertionSort sdLe s) = none := by
  unfold buildSdDict at h
  split at h
  · cases h
  · rename_i hdisp
    split at h
    · cases h
    · rename_i hsort
      exact ⟨(Except.ok.inj h).symm, hdisp, hsort⟩

theorem buildSdDict_error {f : Str} {s : List SortDisplay} {kt : KeyType}
    {u : Nat → Str} {e : SemError} (hnodup : s.Nodup)
    (h : buildSdDict f s kt u = .error e) :
    ∃ t v a b, e = _sd_error_duplicate f t v ∧
      ((t = chars "display" ∧ a.display = v ∧ b.display = v) ∨
        (t = chars "sort" ∧ a.sort = v ∧ b.sort = v)) ∧
      a ∈ s ∧ b ∈ s ∧ a ≠ b := by
  have hperm : (List.insertionSort sdLe s).Perm s := List.perm_insertionSort _ _
  unfold buildSdDict at h
  split at h
  · rename_i v hd
    have hsub : [v, v].Sublist (s.map (fun sd => sd.display)) :=
      pair_sublist_of_perm (List.perm_insertionSort _ _)
        (findAdjacentDup_sublist hd)
    obtain ⟨l', hl', hmap⟩ := List.sublist_map_iff.1 hsub
    have hlen : l'.length = 2 := by
      have := congrArg List.length hmap
      simpa using this.symm
    match l', hlen, hl', hmap with
    | [a, b], _, hl', hmap =>
      simp only [List.map_cons, List.map_nil, List.cons.injEq, and_true] at hmap
      have hne : a ≠ b := by
        have hnd : ([a, b] : List SortDisplay).Nodup := hl'.nodup hnodup
        simp only [List.nodup_cons, List.mem_singleton, List.not_mem_nil,
          not_false_iff, and_true, List.nodup_nil] at hnd
        exact hnd
      exact ⟨chars "display", v, a, b, (Except.error.inj h).symm,
        Or.inl ⟨rfl, hmap.1.symm, hmap.2.symm⟩,
        hl'.subset (by simp), hl'.subset (by simp), hne⟩
  · split at h
    · rename_i v hs
      obtain ⟨a, b, hsub, ha, hb⟩ := findAdjacentSortDup_some hs
      have hmem : ∀ x ∈ ([a, b] : List SortDisplay), x ∈ s := fun x hx =>
        hperm.mem_iff.1 (hsub.subset hx)
      have hne : a ≠ b := by
        have hnd : ([a, b] : List SortDisplay).Nodup :=
          hsub.nodup (hperm.nodup_iff.2 hnodup)
        simp only [List.nodup_cons, List.mem_singleton, List.not_mem_nil,
          not_false_iff, and_true, List.nodup_nil] at hnd
        exact hnd
      exact ⟨chars "sort", v, a, b, (Except.error.inj h).symm,
        Or.inr ⟨rfl, ha, hb⟩, hmem a (by simp), hmem b (by simp), hne⟩
    · cases h

/-- Mapping a projection over an enumerated list ignores the indices. -/
theorem enum_map_proj {α β : Type} (l : List α) (g : α → β) :
    l.enum.map (fun p => g p.2) = l.map g := by
  rw [show (fun p : Nat × α => g p.2) = g ∘ Prod.snd from rfl,
    ← List.map_map, List.enum_map_snd]

/-- On success, `buildSdDict`'s registry (the dict's values) carries the
sorts and displays of the sorted deduplicated set, and the `i`-th entry
holds the key computed for rank `i`. -/
theorem buildSdDict_registry {f : Str} {s : List SortDisplay} {kt : KeyType}
    {u : Nat → Str} {d : List (SortDisplay × SortDisplay)}
    (h : buildSdDict f s kt u = .ok d) :
    (d.map (fun q => q.2)).map (fun sd => sd.sort) =
      (List.insertionSort sdLe s).map (fun sd => sd.sort) ∧
    (d.map (fun q => q.2)).map (fun sd => sd.display) =
      (List.insertionSort sdLe s).map (fun sd => sd.display) ∧
    ∀ i (hi : i < (d.map (fun q : SortDisplay × SortDisplay => q.2)).length),
      ((d.map (fun q : SortDisplay × SortDisplay => q.2)).get ⟨i, hi⟩)._key =
        sdKeyFor kt u i := by
  obtain ⟨hd, _, _⟩ := buildSdDict_ok h
  subst hd
  refine ⟨?_, ?_, ?_⟩
  · rw [List.map_map, List.map_map]
    exact enum_map_proj (List.insertionSort sdLe s) (fun sd => sd.sort)
  · rw [List.map_map, List.map_map]
    exact enum_map_proj (List.insertionSort sdLe s) (fun sd => sd.display)
  · intro i hi
    rw [List.get_eq_getElem]
    simp only [List.getElem_map, List.getElem_enum]

/-- On success, the registry has pairwise-distinct sorts, pairwise-distinct
displays, and is strictly ascending by sort. -/
theorem buildSdDict_nodups {f : Str} {s : List SortDisplay} {kt : KeyType}
    {u : Nat → Str} {d : List (SortDisplay × SortDisplay)}
    (h : buildSdDict f s kt u = .ok d) :
    ((d.map (fun q => q.2)).map (fun sd => sd.sort)).Nodup ∧
    ((d.map (fun q => q.2)).map (fun sd => sd.display)).Nodup ∧
    (d.map (fun q => q.2)).Pairwise
      (fun x y => strLtB x.sort y.sort = true) := by
  obtain ⟨hsorts, hdisplays, _⟩ := buildSdDict_registry h
  obtain ⟨_, hdisp, hsort⟩ := buildSdDict_ok h
  have hsorted : (List.insertionSort sdLe s).Pairwise sdLe :=
    List.sorted_insertionSort sdLe s
  have hle : (List.insertionSort sdLe s).Pairwise
      (fun a b => strLeB a.sort b.sort = true) :=
    hsorted.imp (fun hab => sdLeB_sort hab)
  have hadj : (List.insertionSort sdLe s).Chain'
      (fun a b => a.sort ≠ b.sort) := findAdjacentSortDup_none hsort
  have hnodup_sorts : ((List.insertionSort sdLe s).map
      (fun sd => sd.sort)).Nodup :=
    nodup_map_of_sorted_chain_ne (fun sd : SortDisplay => sd.sort) hle hadj
  have hnodup_displays : ((List.insertionSort sdLe s).map
      (fun sd => sd.display)).Nodup := by
    have hds0 : (List.insertionSort strLe
        (s.map (fun sd => sd.display))).Pairwise strLe :=
      List.sorted_insertionSort strLe
        (s.map (fun sd : SortDisplay => sd.display))
    have hds : (List.insertionSort strLe
        (s.map (fun sd => sd.display))).Pairwise
        (fun a b => strLeB a b = true) := hds0.imp (fun hab => hab)
    have hda : (List.insertionSort strLe
        (s.map (fun sd => sd.display))).Chain' (· ≠ ·) :=
      findAdjacentDup_none hdisp
    have hnd : ((List.insertionSort strLe
        (s.map (fun sd => sd.display))).map (fun x => x)).Nodup :=
      nodup_map_of_sorted_chain_ne (fun x : Str => x) hds hda
    rw [List.map_id'] at hnd
    have hperm1 : (List.insertionSort strLe
        (s.map (fun sd => sd.display))).Perm (s.map (fun sd => sd.display)) :=
      List.perm_insertionSort _ _
    have hperm2 : ((List.insertionSort sdLe s).map
        (fun sd => sd.display)).Perm (s.map (fun sd => sd.display)) :=
      (List.perm_insertionSort sdLe s).map _
    exact hperm2.nodup_iff.2 (hperm1.nodup_iff.1 hnd)
  refine ⟨by rw [hsorts]; exact hnodup_sorts,
    by rw [hdisplays]; exact hnodup_displays, ?_⟩
  have hne : (d.map (fun q => q.2)).Pairwise
      (fun x y => x.sort ≠ y.sort) := by
    have := (List.pairwise_map (f := fun sd : SortDisplay => sd.sort)
      (R := fun a b : Str => a ≠ b)).1 (by rw [hsorts]; exact hnodup_sorts)
    exact this
  have hle2 : (d.map (fun q => q.2)).Pairwise
      (fun x y => strLeB x.sort y.sort = true) := by
    have hps : ((d.map (fun q => q.2)).map (fun sd => sd.sort)).Pairwise
        (fun a b => strLeB a b = true) := by
      rw [hsorts]
      exact (List.pairwise_map).2 hle
    exact (List.pairwise_map).1 hps
  exact (hle2.and hne).imp (fun hab => strLtB_of_le_of_ne hab.1 hab.2)

/-- `(sdSet books f)` is duplicate-free (it models a Python `set`). -/
theorem sdSet_nodup (books : List Book) (f : Str) : (sdSet books f).Nodup :=
  List.nodup_dedup _

theorem getSdDictsGo_ok {books : List Book} {kt : KeyType} {u : Nat → Str} :
    ∀ {fs : List Str} {d : List (Str × List (SortDisplay × SortDisplay))},
      getSdDictsGo books kt u fs = .ok d →
      d.map (fun p => p.1) = fs ∧
      ∀ p ∈ d, buildSdDict p.1 (sdSet books p.1) kt u = .ok p.2
  | [], d, h => by
    cases h
    exact ⟨rfl, by simp⟩
  | f :: rest, d, h => by
    rw [getSdDictsGo] at h
    split at h
    · cases h
    · rename_i dd hdd
      split at h
      · cases h
      · rename_i ds hds
        cases h
        obtain ⟨hmap, hmem⟩ := getSdDictsGo_ok hds
        refine ⟨by simp [hmap], ?_⟩
        intro p hp
        rcases List.mem_cons.1 hp with hp | hp
        · subst hp
          exact hdd
        · exact hmem p hp

theorem getSdDictsGo_error {books : List Book} {kt : KeyType} {u : Nat → Str} :
    ∀ {fs : List Str} {e : SemError},
      getSdDictsGo books kt u fs = .error e →
      ∃ f ∈ fs, buildSdDict f (sdSet books f) kt u = .error e
  | [], e, h => by cases h
  | f :: rest, e, h => by
    rw [getSdDictsGo] at h
    split at h
    · rename_i e' he
      cases h
      exact ⟨f, List.mem_cons_self f rest, he⟩
    · rename_i dd hdd
      split at h
      · rename_i e' he
        cases h
        obtain ⟨f', hf', hbe⟩ := getSdDictsGo_error he
        exact ⟨f', List.mem_cons_of_mem f hf', hbe⟩
      · cases h

/-! ## Properties of `_get_books` -/

/-- Build a two-element sublist from an accumulated member and the current
head. -/
theorem pair_sublist_of_mem_left {α : Type} {a b : α} {l₁ l₂ : List α}
    (ha : a ∈ l₁) : [a, b].Sublist (l₁ ++ b :: l₂) :=
  (List.singleton_sublist.2 ha).append
    (List.singleton_sublist.2 (List.mem_cons_self b l₂))

theorem getBooksGo_ok :
    ∀ {rest : List Book} {titles : List SortDisplay} {displays sorts : List Str}
      {acc books : List Book}
      (_ : getBooksGo rest titles displays sorts acc = .ok books),
      books = List.insertionSort bookLe (acc ++ rest) ∧
      (titles.Nodup →
        (titles ++ rest.map (fun b => b.title)).Nodup) ∧
      (displays.Nodup →
        (displays ++ rest.map (fun b => b.title.display)).Nodup) ∧
      (sorts.Nodup →
        (sorts ++ rest.map (fun b => b.title.sort)).Nodup)
  | [], titles, displays, sorts, acc, books, h => by
    cases h
    refine ⟨by simp, ?_, ?_, ?_⟩ <;> simp
  | b :: rest, titles, displays, sorts, acc, books, h => by
    rw [getBooksGo] at h
    split at h
    · cases h
    · split at h
      · cases h
      · split at h
        · cases h
        · rename_i ht hd hs
          simp only [List.elem_iff] at ht hd hs
          have ih := getBooksGo_ok h
          obtain ⟨ih1, ih2, ih3, ih4⟩ := ih
          refine ⟨?_, ?_, ?_, ?_⟩
          · rw [ih1, List.append_assoc, List.singleton_append]
          · intro hnd
            have : (titles ++ [b.title]).Nodup := by
              simp [List.nodup_append, hnd]
              exact ht
            have h2 := ih2 this
            rwa [List.append_assoc, List.singleton_append] at h2
          · intro hnd
            have : (displays ++ [b.title.display]).Nodup := by
              simp [List.nodup_append, hnd]
              exact hd
            have h2 := ih3 this
            rwa [List.append_assoc, List.singleton_append] at h2
          · intro hnd
            have : (sorts ++ [b.title.sort]).Nodup := by
              simp [List.nodup_append, hnd]
              exact hs
            have h2 := ih4 this
            rwa [List.append_assoc, List.singleton_append] at h2

theorem getBooksGo_error :
    ∀ {rest : List Book} {acc : List Book} {e : SemError}
      (_ : getBooksGo rest (acc.map (fun bk => bk.title))
        (acc.map (fun bk => bk.title.display))
        (acc.map (fun bk => bk.title.sort)) acc = .error e),
      ∃ a b, [a, b].Sublist (acc ++ rest) ∧
        ((e = titlePairDupMsg b.title.sort b.title.display ∧
            a.title = b.title) ∨
          (e = titleDisplayDupMsg b.title.display ∧
            a.title.display = b.title.display ∧ a.title ≠ b.title) ∨
          (e = titleSortDupMsg b.title.sort ∧
            a.title.sort = b.title.sort ∧
            a.title.display ≠ b.title.display))
  | [], acc, e, h => by cases h
  | b :: rest, acc, e, h => by
    rw [getBooksGo] at h
    split at h
    · rename_i ht
      simp only [List.elem_iff, List.mem_map] at ht
      obtain ⟨a, ha, hat⟩ := ht
      cases h
      exact ⟨a, b, pair_sublist_of_mem_left ha, Or.inl ⟨rfl, hat⟩⟩
    · rename_i ht
      split at h
      · rename_i hd
        simp only [List.elem_iff, List.mem_map] at ht hd
        obtain ⟨a, ha, had⟩ := hd
        cases h
        refine ⟨a, b, pair_sublist_of_mem_left ha,
          Or.inr (Or.inl ⟨rfl, had, ?_⟩)⟩
        intro he
        exact ht ⟨a, ha, he⟩
      · rename_i hd
        split at h
        · rename_i hs
          simp only [List.elem_iff, List.mem_map] at hd hs
          obtain ⟨a, ha, has⟩ := hs
          cases h
          refine ⟨a, b, pair_sublist_of_mem_left ha,
            Or.inr (Or.inr ⟨rfl, has, ?_⟩)⟩
          intro he
          exact hd ⟨a, ha, he⟩
        · rename_i hs
          have ih := @getBooksGo_error rest (acc ++ [b]) e ?hrec
          · obtain ⟨x, y, hsub, hcase⟩ := ih
            rw [List.append_assoc, List.singleton_append] at hsub
            exact ⟨x, y, hsub, hcase⟩
          · rw [List.map_append, List.map_append, List.map_append] at *
            simpa using h

/-- Two appended strings with different characters at position 17 differ. -/
theorem append_inj_at17 {p q t1 t2 : Str} (hp : 17 < p.length)
    (hq : 17 < q.length) (hm : p ++ t1 = q ++ t2) :
    p.get ⟨17, hp⟩ = q.get ⟨17, hq⟩ := by
  have h17 := congrArg (fun l : Str => l[17]?) hm
  simp only at h17
  rw [List.getElem?_append_left hp, List.getElem?_append_left hq,
    List.getElem?_eq_getElem hp, List.getElem?_eq_getElem hq] at h17
  simpa [List.get_eq_getElem] using h17

/-- The three title-duplicate errors are pairwise distinct for all embedded
values: they disagree at character 17 (`w`/`d`/`s`). -/
theorem title_msgs_distinct (s d v : Str) :
    titlePairDupMsg s d ≠ titleDisplayDupMsg v ∧
    titlePairDupMsg s d ≠ titleSortDupMsg v ∧
    titleDisplayDupMsg s ≠ titleSortDupMsg v := by
  refine ⟨fun h => ?_, fun h => ?_, fun h => ?_⟩ <;>
  · have hm := SemError.exit.inj h
    simp only [List.append_assoc] at hm
    have h17 := append_inj_at17 (by decide) (by decide) hm
    revert h17
    decide

/-- A concrete two-field library book for witnesses. -/
def sampleBook1 : Book :=
  ⟨⟨chars "b1", chars "B1", none⟩, chars "/lib/b1",
    ⟨[], [], [(chars "authors", [⟨chars "smith", chars "Smith", none⟩])], []⟩,
    []⟩

/-- A second concrete book sharing one `authors` value with `sampleBook1`. -/
def sampleBook2 : Book :=
  ⟨⟨chars "b2", chars "B2", none⟩, chars "/lib/b2",
    ⟨[], [],
      [(chars "authors",
        [⟨chars "jones", chars "Jones", none⟩,
          ⟨chars "smith", chars "Smith", none⟩])], []⟩,
    []⟩

/-- A book whose title collides with `sampleBook1`'s. -/
def sampleBook1Dup : Book :=
  ⟨⟨chars "b1", chars "B1", none⟩, chars "/lib/b1-copy",
    ⟨[], [], [(chars "authors", [])], []⟩, []⟩

/-- `Except` success test, for evaluating concrete runs in witnesses. -/
def isOkB {α : Type} : Except SemError α → Bool
  | .ok _ => true
  | .error _ => false

instance {ε α : Type} [DecidableEq ε] [DecidableEq α] :
    DecidableEq (Except ε α) := fun x y =>
  match x, y with
  | .error e1, .error e2 =>
    if h : e1 = e2 then isTrue (by rw [h])
    else isFalse (fun hc => h (Except.error.inj hc))
  | .error _, .ok _ => isFalse (fun hc => Except.noConfusion hc)
  | .ok _, .error _ => isFalse (fun hc => Except.noConfusion hc)
  | .ok a1, .ok a2 =>
    if h : a1 = a2 then isTrue (by rw [h])
    else isFalse (fun hc => h (Except.ok.inj hc))

/-- C4: `_get_books` validates global Title uniqueness with a three-way
check: an identical `(sort, display)` pair reused by two Documents, the
same display with a different sort, and the same sort with a different
display each produce a distinct reported error (the three message shapes
are pairwise distinct for all embedded values), and any such duplicate
makes the whole `AllMetadata.from_args` run fail with that error before
key assignment and rewriting proceed; on success the three projections
are duplicate-free and the books are returned sorted. -/
theorem title_uniqueness_three_way (b_list : List Book)
    (hkeys : ∀ bk ∈ b_list, bk.title._key = none) :
    (∀ books₀, _get_books b_list = .ok books₀ →
      books₀ = List.insertionSort bookLe b_list ∧
      (b_list.map (fun b => b.title)).Nodup ∧
      (b_list.map (fun b => b.title.display)).Nodup ∧
      (b_list.map (fun b => b.title.sort)).Nodup) ∧
    (∀ e, _get_books b_list = .error e →
      (∃ a b, [a, b].Sublist b_list ∧
        ((e = titlePairDupMsg b.title.sort b.title.display ∧
            a.title = b.title) ∨
          (e = titleDisplayDupMsg b.title.display ∧
            a.title.display = b.title.display ∧
            a.title.sort ≠ b.title.sort) ∨
          (e = titleSortDupMsg b.title.sort ∧
            a.title.sort = b.title.sort ∧
            a.title.display ≠ b.title.display))) ∧
      ∀ kt uF uB, AllMetadata.from_books b_list kt uF uB = .error e) ∧
    (∀ s d v, titlePairDupMsg s d ≠ titleDisplayDupMsg v ∧
      titlePairDupMsg s d ≠ titleSortDupMsg v ∧
      titleDisplayDupMsg s ≠ titleSortDupMsg v) := by
  refine ⟨?_, ?_, title_msgs_distinct⟩
  · intro books₀ h
    obtain ⟨h1, h2, h3, h4⟩ := getBooksGo_ok h
    refine ⟨by simpa using h1, ?_, ?_, ?_⟩
    · simpa using h2 List.nodup_nil
    · simpa using h3 List.nodup_nil
    · simpa using h4 List.nodup_nil
  · intro e h
    constructor
    · have := @getBooksGo_error b_list [] e (by simpa using h)
      obtain ⟨a, b, hsub, hcase⟩ := this
      simp only [List.nil_append] at hsub
      refine ⟨a, b, hsub, ?_⟩
      rcases hcase with hc | hc | hc
      · exact Or.inl hc
      · refine Or.inr (Or.inl ⟨hc.1, hc.2.1, ?_⟩)
        intro hse
        apply hc.2.2
        have ha := hkeys a (hsub.subset (by simp))
        have hb := hkeys b (hsub.subset (by simp))
        cases hat : a.title
        cases hbt : b.title
        rw [hat] at ha hse
        rw [hbt] at hb hse
        have had := hc.2.1
        rw [hat, hbt] at had
        simp only at ha hb hse had
        rw [hse, had, ha, hb]
      · exact Or.inr (Or.inr hc)
    · intro kt uF uB
      unfold AllMetadata.from_books
      rw [h]

/-- Witness for C4: the sample library with a duplicated title is rejected
with the identical-pair error, and the well-formed sample library loads
with duplicate-free projections. -/
theorem title_uniqueness_three_way_witness :
    _get_books [sampleBook1, sampleBook2, sampleBook1Dup] =
      .error (titlePairDupMsg (chars "b1") (chars "B1")) ∧
    (∀ e, _get_books [sampleBook1, sampleBook2, sampleBook1Dup] = .error e →
      ∀ kt uF uB,
        AllMetadata.from_books [sampleBook1, sampleBook2, sampleBook1Dup]
          kt uF uB = .error e) ∧
    ((([sampleBook1, sampleBook2] : List Book).map
      (fun b => b.title.sort)).Nodup) := by
  refine ⟨by decide, ?_, ?_⟩
  · intro e h kt uF uB
    exact ((title_uniqueness_three_way [sampleBook1, sampleBook2, sampleBook1Dup]
      (by decide)).2.1 e h).2 kt uF uB
  · have hok : isOkB (_get_books [sampleBook1, sampleBook2]) = true := by decide
    rcases h : _get_books [sampleBook1, sampleBook2] with e | books₀
    · rw [h] at hok
      cases hok
    · exact ((title_uniqueness_three_way [sampleBook1, sampleBook2]
        (by decide)).1 books₀ h).2.2.2

/-- C1: for every Reference (SortDisplay) field, the per-field registry of
the Normalized Collection built by `AllMetadata.from_args` is a bijection
between sort and display values — no two registry entries share a sort and
no two share a display — and a collection violating the bijection is
rejected with the `_sd_error_duplicate` error naming the field and the
genuinely duplicated sort or display value, in which case no
`AllMetadata` is produced. -/
theorem sd_registry_bijection (b_list : List Book) (kt : KeyType)
    (uuidF uuidB : Nat → Str) :
    (∀ am, AllMetadata.from_books b_list kt uuidF uuidB = .ok am →
      ∀ f reg, (f, reg) ∈ am.fields →
        (reg.map (fun sd => sd.sort)).Nodup ∧
        (reg.map (fun sd => sd.display)).Nodup) ∧
    (∀ books₀, _get_books b_list = .ok books₀ →
      ∀ e, _get_sd_dicts books₀ kt uuidF = .error e →
        (∃ f t v a b, e = _sd_error_duplicate f t v ∧
          ((t = chars "display" ∧ a.display = v ∧ b.display = v) ∨
            (t = chars "sort" ∧ a.sort = v ∧ b.sort = v)) ∧
          a ∈ sdSet books₀ f ∧ b ∈ sdSet books₀ f ∧ a ≠ b) ∧
        AllMetadata.from_books b_list kt uuidF uuidB = .error e) := by
  constructor
  · intro am ham f reg hmem
    unfold AllMetadata.from_books at ham
    split at ham
    · cases ham
    · rename_i books₀ hb
      split at ham
      · cases ham
      · rename_i sd_dicts hsd
        split at ham
        · cases ham
        · rename_i books hbk
          cases ham
          simp only [List.mem_map] at hmem
          obtain ⟨p, hp, hpe⟩ := hmem
          have hbuild := (getSdDictsGo_ok hsd).2 p hp
          have hnd := buildSdDict_nodups hbuild
          have hf : p.1 = f := congrArg Prod.fst hpe
          have hr : p.2.map (fun q => q.2) = reg := congrArg Prod.snd hpe
          rw [hr] at hnd
          exact ⟨hnd.1, hnd.2.1⟩
  · intro books₀ hb e he
    constructor
    · obtain ⟨f, _, hbe⟩ := getSdDictsGo_error he
      obtain ⟨t, v, a, b, hmsg, hcase, ha, hbmem, hne⟩ :=
        buildSdDict_error (sdSet_nodup books₀ f) hbe
      exact ⟨f, t, v, a, b, hmsg, hcase, ha, hbmem, hne⟩
    · unfold AllMetadata.from_books
      rw [hb]
      simp only
      rw [he]

/-- Witness for C1: the two sample books produce a normalized collection
whose `authors` registry has duplicate-free sorts and displays. -/
theorem sd_registry_bijection_witness :
    ∃ am, AllMetadata.from_books [sampleBook1, sampleBook2] KeyType.INT
        (fun _ => chars "x") (fun _ => chars "x") = .ok am ∧
      ∀ f reg, (f, reg) ∈ am.fields →
        (reg.map (fun sd => sd.sort)).Nodup ∧
        (reg.map (fun sd => sd.display)).Nodup := by
  have hok : isOkB (AllMetadata.from_books [sampleBook1, sampleBook2]
      KeyType.INT (fun _ => chars "x") (fun _ => chars "x")) = true := by decide
  rcases h : AllMetadata.from_books [sampleBook1, sampleBook2] KeyType.INT
      (fun _ => chars "x") (fun _ => chars "x") with e | am
  · rw [h] at hok
    cases hok
  · exact ⟨am, rfl, fun f reg hmem =>
      (sd_registry_bijection [sampleBook1, sampleBook2] KeyType.INT
        (fun _ => chars "x") (fun _ => chars "x")).1 am h f reg hmem⟩

/-! ## Properties of `_get_books_with_keys` -/

theorem getBooksWithKeysGo_ok
    {sd_dicts : List (Str × List (SortDisplay × SortDisplay))}
    {kt : KeyType} {uuidB : Nat → Str} :
    ∀ {i : Nat} {bs out : List Book}
      (_ : getBooksWithKeysGo sd_dicts kt uuidB i bs = .ok out),
      out.length = bs.length ∧
      ∀ j (hj : j < out.length) (hj' : j < bs.length),
        (out.get ⟨j, hj⟩).title =
          SortDisplay.mk (bs.get ⟨j, hj'⟩).title.sort
            (bs.get ⟨j, hj'⟩).title.display
            (some (if kt = KeyType.UUID then uuidB (i + j)
              else natStr (i + j + 1))) ∧
        (out.get ⟨j, hj⟩).metadata_dir = (bs.get ⟨j, hj'⟩).metadata_dir ∧
        (out.get ⟨j, hj⟩).files = (bs.get ⟨j, hj'⟩).files ∧
        rewriteBookSds sd_dicts (bs.get ⟨j, hj'⟩) =
          .ok (out.get ⟨j, hj⟩).fields.sortdisplays
  | i, [], out, h => by
    cases h
    exact ⟨rfl, fun j hj hj' => absurd hj (by simp)⟩
  | i, b :: rest, out, h => by
    rw [getBooksWithKeysGo] at h
    split at h
    · cases h
    · rename_i newSds hsds
      split at h
      · cases h
      · rename_i rest' hrest
        cases h
        obtain ⟨ihlen, ih⟩ := getBooksWithKeysGo_ok hrest
        refine ⟨by simpa using ihlen, ?_⟩
        intro j hj hj'
        match j with
        | 0 =>
          refine ⟨by simp, by simp, by simp, ?_⟩
          simp only [List.get_eq_getElem, List.getElem_cons_zero]
          exact hsds.symm ▸ rfl
        | j' + 1 =>
          have hj2 : j' < rest'.length := by
            simp only [List.length_cons] at hj
            omega
          have hj2' : j' < rest.length := by
            simp only [List.length_cons] at hj'
            omega
          have := ih j' hj2 hj2'
          simp only [List.get_eq_getElem, List.getElem_cons_succ]
          simp only [List.get_eq_getElem] at this
          refine ⟨?_, this.2.1, this.2.2.1, this.2.2.2⟩
          rw [this.1]
          have : i + 1 + j' = i + (j' + 1) := by omega
          rw [this]

/-- Helper: `sdLeB` follows from a strict sort comparison. -/
theorem sdLeB_of_sort_lt {x y : SortDisplay}
    (h : strLtB x.sort y.sort = true) : sdLeB x y = true := by
  unfold sdLeB sdLtB
  rw [strLtB_asymm h]
  have hne : (y.sort == x.sort) = false := by
    simp only [beq_eq_false_iff_ne, ne_eq]
    intro he
    exact strLtB_ne h he.symm
  simp [hne]

/-- C2: under `KeyType.INT`, every field registry is strictly ascending by
sort with the `i`-th entry keyed `i+1` (1-based rank in sort order), and
every book's Title is keyed by the book's own 1-based rank in the
title-sorted book list; under `KeyType.NONE` no key is assigned anywhere. -/
theorem sequential_int_keys (b_list : List Book) (uuidF uuidB : Nat → Str) :
    (∀ am, AllMetadata.from_books b_list KeyType.INT uuidF uuidB = .ok am →
      (∀ f reg, (f, reg) ∈ am.fields →
        reg.Pairwise (fun x y => strLtB x.sort y.sort = true) ∧
        ∀ i (hi : i < reg.length),
          (reg.get ⟨i, hi⟩)._key = some (natStr (i + 1))) ∧
      am.books.Pairwise (fun x y => sdLeB x.title y.title = true) ∧
      ∀ i (hi : i < am.books.length),
        ((am.books.get ⟨i, hi⟩).title)._key = some (natStr (i + 1))) ∧
    (∀ am, AllMetadata.from_books b_list KeyType.NONE uuidF uuidB = .ok am →
      (∀ bk ∈ b_list, bk.title._key = none ∧
        ∀ p ∈ bk.fields.sortdisplays, ∀ sd ∈ p.2, sd._key = none) →
      (∀ f reg, (f, reg) ∈ am.fields → ∀ sd ∈ reg, sd._key = none) ∧
      (∀ bk ∈ am.books, bk.title._key = none ∧
        ∀ p ∈ bk.fields.sortdisplays, ∀ sd ∈ p.2, sd._key = none)) := by
  constructor
  · intro am ham
    unfold AllMetadata.from_books at ham
    split at ham
    · cases ham
    · rename_i books₀ hb
      split at ham
      · cases ham
      · rename_i sd_dicts hsd
        split at ham
        · cases ham
        · rename_i books hbk
          cases ham
          have hbk' : getBooksWithKeysGo sd_dicts KeyType.INT uuidB 0 books₀ =
              .ok books := by
            rw [if_pos (by decide)] at hbk
            exact hbk
          obtain ⟨hlen, hrel⟩ := getBooksWithKeysGo_ok hbk'
          obtain ⟨hsorted₀, hnd_t, hnd_d, hnd_s⟩ :=
            getBooksGo_ok (by simpa [_get_books] using hb)
          refine ⟨?_, ?_, ?_⟩
          · intro f reg hmem
            simp only [List.mem_map] at hmem
            obtain ⟨p, hp, hpe⟩ := hmem
            have hbuild := (getSdDictsGo_ok hsd).2 p hp
            have hr : p.2.map (fun q => q.2) = reg := congrArg Prod.snd hpe
            subst hr
            constructor
            · exact (buildSdDict_nodups hbuild).2.2
            · intro i hi
              exact (buildSdDict_registry hbuild).2.2 i hi
          · rw [List.pairwise_iff_get]
            intro i j hij
            have hib : (i : Nat) < books.length := i.isLt
            have hjb : (j : Nat) < books.length := j.isLt
            have hi' : (i : Nat) < books₀.length := by omega
            have hj' : (j : Nat) < books₀.length := by omega
            have hrel_i := (hrel i hib hi').1
            have hrel_j := (hrel j hjb hj').1
            have hstrict : books₀.Pairwise
                (fun x y => strLtB x.title.sort y.title.sort = true) := by
              have hle : books₀.Pairwise
                  (fun x y => strLeB x.title.sort y.title.sort = true) := by
                have hpw : books₀.Pairwise bookLe := by
                  rw [hsorted₀]
                  exact List.sorted_insertionSort bookLe b_list
                exact hpw.imp (fun hab => sdLeB_sort (bookLe_title hab))
              have hperm : books₀.Perm b_list := by
                rw [hsorted₀]
                exact List.perm_insertionSort bookLe b_list
              have hnd₀ : (books₀.map
                  (fun b => b.title.sort)).Nodup := by
                refine ((hperm.map (fun b : Book => b.title.sort)).nodup_iff).2 ?_
                simpa using hnd_s List.nodup_nil
              have hne : books₀.Pairwise
                  (fun x y => x.title.sort ≠ y.title.sort) :=
                (List.pairwise_map).1 hnd₀
              exact (hle.and hne).imp
                (fun hab => strLtB_of_le_of_ne hab.1 hab.2)
            have hij' := (List.pairwise_iff_get.1 hstrict)
              ⟨i, hi'⟩ ⟨j, hj'⟩ (by simpa using hij)
            show sdLeB (books.get ⟨(i : Nat), hib⟩).title
              (books.get ⟨(j : Nat), hjb⟩).title = true
            rw [hrel_i, hrel_j]
            apply sdLeB_of_sort_lt
            simpa using hij'
          · intro i hi
            have hi'' : i < books.length := hi
            have hi' : i < books₀.length := by omega
            have := (hrel i hi'' hi').1
            show ((books.get ⟨i, hi''⟩).title)._key = some (natStr (i + 1))
            rw [this]
            simp
  · intro am ham hkeys
    unfold AllMetadata.from_books at ham
    split at ham
    · cases ham
    · rename_i books₀ hb
      split at ham
      · cases ham
      · rename_i sd_dicts hsd
        split at ham
        · cases ham
        · rename_i books hbk
          cases ham
          rw [if_neg (by decide)] at hbk
          cases hbk
          obtain ⟨hsorted₀, _, _, _⟩ :=
            getBooksGo_ok (by simpa [_get_books] using hb)
          have hperm : books₀.Perm b_list := by
            rw [hsorted₀]
            exact List.perm_insertionSort bookLe b_list
          constructor
          · intro f reg hmem sd hsd_mem
            simp only [List.mem_map] at hmem
            obtain ⟨p, hp, hpe⟩ := hmem
            have hbuild := (getSdDictsGo_ok hsd).2 p hp
            have hr : p.2.map (fun q => q.2) = reg := congrArg Prod.snd hpe
            rw [← hr] at hsd_mem
            obtain ⟨n, hn⟩ := List.mem_iff_get.1 hsd_mem
            have := (buildSdDict_registry hbuild).2.2 n n.isLt
            rw [hn] at this
            exact this
          · intro bk hbk_mem
            exact hkeys bk (hperm.mem_iff.1 hbk_mem)

/-- Witness for C2: with `KeyType.INT`, the sample collection's `authors`
registry is keyed `1, 2` in sort order and the two books' titles are keyed
`1, 2` in title order; with `KeyType.NONE` nothing is keyed. -/
theorem sequential_int_keys_witness :
    ∃ am, AllMetadata.from_books [sampleBook2, sampleBook1] KeyType.INT
        (fun _ => chars "x") (fun _ => chars "x") = .ok am ∧
      (∀ i (hi : i < am.books.length),
        ((am.books.get ⟨i, hi⟩).title)._key = some (natStr (i + 1))) ∧
      am.books.Pairwise (fun x y => sdLeB x.title y.title = true) := by
  have hok : isOkB (AllMetadata.from_books [sampleBook2, sampleBook1]
      KeyType.INT (fun _ => chars "x") (fun _ => chars "x")) = true := by decide
  rcases h : AllMetadata.from_books [sampleBook2, sampleBook1] KeyType.INT
      (fun _ => chars "x") (fun _ => chars "x") with e | am
  · rw [h] at hok
    cases hok
  · have hres := (sequential_int_keys [sampleBook2, sampleBook1]
      (fun _ => chars "x") (fun _ => chars "x")).1 am h
    exact ⟨am, rfl, hres.2.2, hres.2.1⟩

/-! ## Association-list and counting helpers -/

theorem lookup_some_mem {κ β : Type} [BEq κ] [LawfulBEq κ] :
    ∀ {l : List (κ × β)} {k : κ} {v : β},
      l.lookup k = some v → (k, v) ∈ l
  | [], _, _, h => by cases h
  | (k', v') :: rest, k, v, h => by
    rw [List.lookup] at h
    rcases hk : k == k' with _ | _
    · rw [hk] at h
      exact List.mem_cons_of_mem _ (lookup_some_mem h)
    · rw [hk] at h
      cases h
      have : k = k' := eq_of_beq hk
      subst this
      exact List.mem_cons_self _ _

theorem lookup_of_mem_nodup {κ β : Type} [BEq κ] [LawfulBEq κ] :
    ∀ {l : List (κ × β)} {k : κ} {v : β},
      (k, v) ∈ l → (l.map (fun p => p.1)).Nodup → l.lookup k = some v
  | [], _, _, hmem, _ => by cases hmem
  | (k', v') :: rest, k, v, hmem, hnd => by
    rw [List.lookup]
    rcases List.mem_cons.1 hmem with heq | hmem'
    · injection heq with hk1 hk2
      subst hk1
      subst hk2
      rw [show (k == k) = true by simp]
    · by_cases hk : k = k'
      · subst hk
        exfalso
        simp only [List.map_cons, List.nodup_cons, List.mem_map] at hnd
        exact hnd.1 ⟨(k, v), hmem', rfl⟩
      · rw [show (k == k') = false by simpa using hk]
        have hnd' : (rest.map (fun p => p.1)).Nodup := by
          simp only [List.map_cons, List.nodup_cons] at hnd
          exact hnd.2
        exact lookup_of_mem_nodup hmem' hnd'

theorem forall₂_mem_right {α β : Type} {R : α → β → Prop} :
    ∀ {l : List α} {l' : List β}, List.Forall₂ R l l' →
      ∀ {q : β}, q ∈ l' → ∃ p ∈ l, R p q
  | _, _, List.Forall₂.nil, q, hq => by cases hq
  | _, _, List.Forall₂.cons hr hrest, q, hq => by
    rcases List.mem_cons.1 hq with heq | hq'
    · subst heq
      exact ⟨_, List.mem_cons_self _ _, hr⟩
    · obtain ⟨p, hp, hpr⟩ := forall₂_mem_right hrest hq'
      exact ⟨p, List.mem_cons_of_mem _ hp, hpr⟩

/-- A predicate that pins down the projection of its satisfiers holds for
exactly one element of a list with duplicate-free projections, as soon as
it holds for one member. -/
theorem countP_eq_one_of_mem_nodup_proj {α : Type} (proj : α → Str)
    {l : List α} (hnd : (l.map proj).Nodup) {x : α} (hx : x ∈ l)
    (p : α → Bool) (hpx : p x = true)
    (himp : ∀ y, p y = true → proj y = proj x) : l.countP p = 1 := by
  rw [List.countP_eq_length_filter]
  have hxf : x ∈ l.filter p := List.mem_filter.2 ⟨hx, hpx⟩
  have hfn : ((l.filter p).map proj).Nodup :=
    ((List.filter_sublist l).map proj).nodup hnd
  have hall : ∀ y ∈ l.filter p, proj y = proj x := fun y hy =>
    himp y (List.of_mem_filter hy)
  match hf : l.filter p with
  | [] => rw [hf] at hxf; cases hxf
  | [_] => rfl
  | a :: b :: t =>
    exfalso
    rw [hf] at hfn hall
    simp only [List.map_cons, List.nodup_cons, List.mem_cons,
      List.mem_map] at hfn
    apply hfn.1
    left
    rw [hall a (by simp), hall b (by simp)]

/-- Field names of a book's SortDisplay fields are collected fields. -/
theorem field_in_sdFieldnames {books₀ : List Book} {b : Book}
    (hb : b ∈ books₀) {p : Str × List SortDisplay}
    (hp : p ∈ b.fields.sortdisplays) : p.1 ∈ sdFieldnames books₀ := by
  unfold sdFieldnames
  rw [List.mem_dedup]
  exact List.mem_flatMap.2 ⟨b, hb, List.mem_map.2 ⟨p, hp, rfl⟩⟩

/-- A book's field values are members of the field's collected set. -/
theorem mem_sdSet_of_mem {books₀ : List Book} {b : Book}
    (hb : b ∈ books₀) {p : Str × List SortDisplay}
    (hp : p ∈ b.fields.sortdisplays)
    (hnd : (b.fields.sortdisplays.map (fun q => q.1)).Nodup)
    {sd : SortDisplay} (hsd : sd ∈ p.2) : sd ∈ sdSet books₀ p.1 := by
  unfold sdSet
  rw [List.mem_dedup]
  refine List.mem_flatMap.2 ⟨b, hb, ?_⟩
  unfold bookFieldSds
  have hl : b.fields.sortdisplays.lookup p.1 = some p.2 :=
    lookup_of_mem_nodup hp hnd
  rw [hl]
  exact hsd

/-- Resolve a collected field name to its dict entry. -/
theorem sd_dicts_lookup_of_field {books₀ : List Book} {kt : KeyType}
    {u : Nat → Str} {sd_dicts : List (Str × List (SortDisplay × SortDisplay))}
    (hsd : _get_sd_dicts books₀ kt u = .ok sd_dicts) {f : Str}
    (hf : f ∈ sdFieldnames books₀) :
    ∃ dd, sd_dicts.lookup f = some dd ∧ (f, dd) ∈ sd_dicts ∧
      buildSdDict f (sdSet books₀ f) kt u = .ok dd := by
  obtain ⟨hmap, hall⟩ := getSdDictsGo_ok hsd
  have hnd : (sd_dicts.map (fun p => p.1)).Nodup := by
    rw [hmap]
    exact List.nodup_dedup _
  have hfm : f ∈ sd_dicts.map (fun p => p.1) := by
    rw [hmap]
    exact hf
  obtain ⟨q, hq, hq1⟩ := List.mem_map.1 hfm
  have hqe : (f, q.2) ∈ sd_dicts := by
    cases q
    cases hq1
    exact hq
  exact ⟨q.2, lookup_of_mem_nodup hqe hnd, hqe, hall (f, q.2) hqe⟩

/-- A registry entry's `(sort, display)` pair occurs exactly once in its
registry. -/
theorem registry_countP_one {f : Str} {s : List SortDisplay} {kt : KeyType}
    {u : Nat → Str} {dd : List (SortDisplay × SortDisplay)}
    (hbuild : buildSdDict f s kt u = .ok dd) {sd : SortDisplay}
    (hsd : sd ∈ dd.map (fun q => q.2)) :
    (dd.map (fun q => q.2)).countP
      (fun en => en.sort == sd.sort && en.display == sd.display) = 1 := by
  have hnd := (buildSdDict_nodups hbuild).2.1
  refine countP_eq_one_of_mem_nodup_proj (fun en : SortDisplay => en.display)
    hnd hsd _ ?_ ?_
  · simp
  · intro y hy
    simp only [Bool.and_eq_true, beq_iff_eq] at hy
    exact hy.2

/-- Under `KeyType.NONE`, the registry is the sorted set itself (no keys). -/
theorem buildSdDict_reg_none {f : Str} {s : List SortDisplay} {u : Nat → Str}
    {dd : List (SortDisplay × SortDisplay)}
    (hbuild : buildSdDict f s KeyType.NONE u = .ok dd) :
    dd.map (fun q => q.2) = (List.insertionSort sdLe s).map
      (fun x => SortDisplay.mk x.sort x.display none) := by
  obtain ⟨hdd, _, _⟩ := buildSdDict_ok hbuild
  subst hdd
  rw [List.map_map]
  exact enum_map_proj _ (fun x : SortDisplay => SortDisplay.mk x.sort x.display none)

/-- C5: in a successfully normalized collection, every Reference value held
by any Document is itself the canonical registry entry for its field — it
is a member of the field's registry, and the registry contains exactly one
entry with its `(sort, display)` pair — so any two Documents sharing a
`(sort, display)` pair in a field reference that single canonical keyed
entry. -/
theorem shared_reference_canonical (b_list : List Book) (kt : KeyType)
    (uuidF uuidB : Nat → Str)
    (hkeys : ∀ bk ∈ b_list, ∀ p ∈ bk.fields.sortdisplays, ∀ sd ∈ p.2,
      sd._key = none)
    (hfnd : ∀ bk ∈ b_list,
      (bk.fields.sortdisplays.map (fun q => q.1)).Nodup) :
    ∀ am, AllMetadata.from_books b_list kt uuidF uuidB = .ok am →
      ∀ b ∈ am.books, ∀ p ∈ b.fields.sortdisplays, ∀ sd ∈ p.2,
        ∃ reg, (p.1, reg) ∈ am.fields ∧ sd ∈ reg ∧
          reg.countP (fun en =>
            en.sort == sd.sort && en.display == sd.display) = 1 := by
  intro am ham b hbmem p hpmem sd hsdmem
  unfold AllMetadata.from_books at ham
  split at ham
  · cases ham
  · rename_i books₀ hb
    split at ham
    · cases ham
    · rename_i sd_dicts hsd
      split at ham
      · cases ham
      · rename_i books hbk
        cases ham
        obtain ⟨hsorted₀, -, -, -⟩ :=
          getBooksGo_ok (by simpa [_get_books] using hb)
        have hperm : books₀.Perm b_list := by
          rw [hsorted₀]
          exact List.perm_insertionSort bookLe b_list
        have hbmem' : b ∈ books := hbmem
        by_cases hkt : kt = KeyType.NONE
        · subst hkt
          rw [if_neg (by simp)] at hbk
          cases hbk
          have hb₀ : b ∈ b_list := hperm.mem_iff.1 hbmem'
          have hkey : sd._key = none := hkeys b hb₀ p hpmem sd hsdmem
          have hf := field_in_sdFieldnames hbmem' hpmem
          obtain ⟨dd, hlk, hdde, hbuild⟩ := sd_dicts_lookup_of_field hsd hf
          refine ⟨dd.map (fun q => q.2), ?_, ?_, ?_⟩
          · exact List.mem_map.2 ⟨(p.1, dd), hdde, rfl⟩
          · rw [buildSdDict_reg_none hbuild]
            have hset := mem_sdSet_of_mem hbmem' hpmem (hfnd b hb₀) hsdmem
            have hlist : sd ∈ List.insertionSort sdLe (sdSet books₀ p.1) :=
              (List.perm_insertionSort sdLe _).mem_iff.2 hset
            refine List.mem_map.2 ⟨sd, hlist, ?_⟩
            obtain ⟨ss, dsp, kk⟩ := sd
            simp only at hkey
            rw [hkey]
          · have hreg : sd ∈ dd.map (fun q => q.2) := by
              rw [buildSdDict_reg_none hbuild]
              have hset := mem_sdSet_of_mem hbmem' hpmem (hfnd b hb₀) hsdmem
              have hlist : sd ∈ List.insertionSort sdLe (sdSet books₀ p.1) :=
                (List.perm_insertionSort sdLe _).mem_iff.2 hset
              refine List.mem_map.2 ⟨sd, hlist, ?_⟩
              obtain ⟨ss, dsp, kk⟩ := sd
              simp only at hkey
              rw [hkey]
            exact registry_countP_one hbuild hreg
        · rw [if_pos hkt] at hbk
          obtain ⟨hlen, hrel⟩ := getBooksWithKeysGo_ok hbk
          obtain ⟨n, hn⟩ := List.mem_iff_get.1 hbmem'
          have hn' : (n : Nat) < books₀.length := by
            have := n.isLt
            omega
          have hb₀mem : books₀.get ⟨n, hn'⟩ ∈ books₀ := List.get_mem _ _ _
          have hrw := (hrel n n.isLt hn').2.2.2
          rw [hn] at hrw
          have hforall := mapExcept_ok hrw
          obtain ⟨a, hamem, har⟩ := forall₂_mem_right hforall hpmem
          split at har
          · cases har
          · rename_i sds hsds
            have hpe : p = (a.1, sds) := (Except.ok.inj har).symm
            have hinner := mapExcept_ok hsds
            have hsdmem2 : sd ∈ sds := by
              rw [hpe] at hsdmem
              exact hsdmem
            obtain ⟨sd₀, hsd₀mem, hsd₀r⟩ := forall₂_mem_right hinner hsdmem2
            split at hsd₀r
            · rename_i keyed hkeyed
              have hsd_eq : keyed = sd := Except.ok.inj hsd₀r
              subst hsd_eq
              have hf : a.1 ∈ sdFieldnames books₀ :=
                field_in_sdFieldnames hb₀mem hamem
              obtain ⟨dd, hlk, hdde, hbuild⟩ := sd_dicts_lookup_of_field hsd hf
              rw [hlk] at hkeyed
              simp only [Option.getD_some] at hkeyed
              have hpair : (sd₀, keyed) ∈ dd := lookup_some_mem hkeyed
              have hreg : keyed ∈ dd.map (fun q => q.2) :=
                List.mem_map.2 ⟨(sd₀, keyed), hpair, rfl⟩
              refine ⟨dd.map (fun q => q.2), ?_, hreg, ?_⟩
              · have : p.1 = a.1 := by rw [hpe]
                rw [this]
                exact List.mem_map.2 ⟨(a.1, dd), hdde, rfl⟩
              · exact registry_countP_one hbuild hreg
            · cases hsd₀r

/-- Witness for C5: in the normalized sample collection both books carry
the shared `authors` value, and it occurs exactly once in the `authors`
registry. -/
theorem shared_reference_canonical_witness :
    ∃ am, AllMetadata.from_books [sampleBook1, sampleBook2] KeyType.INT
        (fun _ => chars "x") (fun _ => chars "x") = .ok am ∧
      ∀ b ∈ am.books, ∀ p ∈ b.fields.sortdisplays, ∀ sd ∈ p.2,
        ∃ reg, (p.1, reg) ∈ am.fields ∧ sd ∈ reg ∧
          reg.countP (fun en =>
            en.sort == sd.sort && en.display == sd.display) = 1 := by
  have hok : isOkB (AllMetadata.from_books [sampleBook1, sampleBook2]
      KeyType.INT (fun _ => chars "x") (fun _ => chars "x")) = true := by decide
  rcases h : AllMetadata.from_books [sampleBook1, sampleBook2] KeyType.INT
      (fun _ => chars "x") (fun _ => chars "x") with e | am
  · rw [h] at hok
    cases hok
  · exact ⟨am, rfl, shared_reference_canonical [sampleBook1, sampleBook2]
      KeyType.INT (fun _ => chars "x") (fun _ => chars "x")
      (by decide) (by decide) am h⟩

/-! ## `src/book/file.py`: `BookFile.from_args`

`str(Path(input_dir_str))` is modelled for the POSIX flavour of `pathlib`
(drop empty and `.` segments, collapse slashes, keep a `//` root), and
`str.format` is modelled for plain replacement fields `\x7bname\x7d` (the
only form directory expressions use), raising `KeyError` (`missingKey`) for
an unknown name and `ValueError` (`malformed`) for stray braces. -/

/-- `str(pathlib.Path(s))` on POSIX. -/
def posixPathStr (s : Str) : Str :=
  let root : Str :=
    if s.take 2 = ['/', '/'] ∧ s.take 3 ≠ ['/', '/', '/'] then ['/', '/']
    else if s.take 1 = ['/'] then ['/']
    else []
  let parts := (pySplit ['/'] s).filter
    (fun p => !(p == ([] : Str)) && !(p == ['.']))
  if root = [] ∧ parts = [] then ['.']
  else root ++ pyJoin ['/'] parts

/-- Failure modes of `str.format`. -/
inductive FormatErr where
  /-- `KeyError`: a referenced name is absent. -/
  | missingKey (name : Str)
  /-- `ValueError`: unbalanced braces. -/
  | malformed
deriving DecidableEq, Repr

/-- The substitution mapping of `\x7bdv.name: dv.value\x7d` built by
`BookFile.from_args`: a later duplicate name overwrites an earlier one, so
lookups run over the reversed list. -/
def dirVarsMap (dir_vars : List DirVar) : List (Str × Str) :=
  dir_vars.reverse.map (fun dv => (dv.name, dv.value))

/-- One step of `str.format` scanning, on fuel.  A replacement field is
read to the closing brace; doubled braces escape; an unmatched brace is
`ValueError`. -/
def pyFormatAux (vars : List DirVar) : Nat → Str → Except FormatErr Str
  | 0, s => if s = [] then .ok [] else .error .malformed
  | _ + 1, [] => .ok []
  | fuel + 1, c :: rest =>
    if c = '\x7b' then
      match rest with
      | [] => .error .malformed
      | c2 :: rest2 =>
        if c2 = '\x7b' then
          match pyFormatAux vars fuel rest2 with
          | .error e => .error e
          | .ok t => .ok ('\x7b' :: t)
        else
          match rest.dropWhile (fun d => !(d == '\x7d')) with
          | [] => .error .malformed
          | _ :: rest3 =>
            match (dirVarsMap vars).lookup
                (rest.takeWhile (fun d => !(d == '\x7d'))) with
            | some v =>
              match pyFormatAux vars fuel rest3 with
              | .error e => .error e
              | .ok t => .ok (v ++ t)
            | none =>
              .error (.missingKey (rest.takeWhile (fun d => !(d == '\x7d'))))
    else if c = '\x7d' then
      match rest with
      | [] => .error .malformed
      | c2 :: rest2 =>
        if c2 = '\x7d' then
          match pyFormatAux vars fuel rest2 with
          | .error e => .error e
          | .ok t => .ok ('\x7d' :: t)
        else .error .malformed
    else
      match pyFormatAux vars fuel rest with
      | .error e => .error e
      | .ok t => .ok (c :: t)

/-- Python `template.format(**vars)` for plain replacement fields. -/
def pyFormat (template : Str) (vars : List DirVar) : Except FormatErr Str :=
  pyFormatAux vars template.length template

/-- `str(dir_var)` list, or the empty marker (`src/book/file.py` lines
43-47). -/
def dirVarsStr (dir_vars : List DirVar) : Str :=
  if dir_vars = [] then chars "<none provided>"
  else pyJoin (chars ", ") (dir_vars.map DirVar.toStr)

/-- The reported error of `BookFile.from_args` (lines 48-51). -/
def notEnoughDirVarsMsg (metadata_dir input_dir_str : Str)
    (dir_vars : List DirVar) : SemError :=
  .exit (chars "ERROR: not enough dir_vars provided, metadata file directory: '" ++
    metadata_dir ++ chars "', file relative directory: '" ++ input_dir_str ++
    chars "', dir_vars: '" ++ dirVarsStr dir_vars ++ chars "'.")

/-- Model of `Path.resolve()` for an absolute POSIX path (no symlinks; the
loader always resolves against an absolute metadata dir). -/
def pyResolve (s : Str) : Str :=
  let parts := (pySplit ['/'] s).filter
    (fun p => !(p == ([] : Str)) && !(p == ['.']))
  let final := parts.foldl
    (fun acc p => if p = ['.', '.'] then acc.dropLast else acc ++ [p]) []
  ['/'] ++ pyJoin ['/'] final

/-- Whether a POSIX path string is absolute. -/
def isAbsPath : Str → Bool
  | '/' :: _ => true
  | _ => false

/-- `BookFile.from_args` (`src/book/file.py` lines 26-63): localize and
interpolate the directory expression; a `KeyError` becomes the reported
`not enough dir_vars` exit, any other `str.format` failure propagates as an
internal fault; the file path resolves against the metadata dir unless
absolute. -/
def BookFile.from_args (book_title_sort basename : Str) (metadata_dir : Str)
    (dir_vars : List DirVar) (input_dir_str hash_ : Str) :
    Except SemError BookFile :=
  match pyFormat (posixPathStr input_dir_str) dir_vars with
  | .error (.missingKey _) =>
    .error (notEnoughDirVarsMsg metadata_dir input_dir_str dir_vars)
  | .error .malformed => .error (.exception (chars "ValueError"))
  | .ok interpolated =>
    .ok ⟨book_title_sort, basename, metadata_dir, dir_vars, input_dir_str,
      hash_,
      if isAbsPath (posixPathStr (interpolated ++ ['/'] ++ basename)) then
        posixPathStr (interpolated ++ ['/'] ++ basename)
      else
        pyResolve (metadata_dir ++ ['/'] ++
          posixPathStr (interpolated ++ ['/'] ++ basename))⟩

theorem lookup_ne_none_of_mem {κ β : Type} [BEq κ] [LawfulBEq κ] :
    ∀ {l : List (κ × β)} {k : κ} {v : β},
      (k, v) ∈ l → l.lookup k ≠ none
  | [], _, _, hmem => by cases hmem
  | (k', v') :: rest, k, v, hmem => by
    rw [List.lookup]
    rcases List.mem_cons.1 hmem with heq | hmem'
    · injection heq with hk1 hk2
      subst hk1
      rw [show (k == k) = true by simp]
      simp
    · rcases hk : k == k' with _ | _
      · exact lookup_ne_none_of_mem hmem'
      · simp

/-- If `str.format` raises `KeyError` for `name`, the template contains the
replacement field `\x7bname\x7d` and no supplied variable binds `name`. -/
theorem pyFormatAux_missingKey {vars : List DirVar} :
    ∀ {fuel : Nat} {s name : Str},
      pyFormatAux vars fuel s = .error (.missingKey name) →
      containsSubstr s (['\x7b'] ++ name ++ ['\x7d']) ∧
      (dirVarsMap vars).lookup name = none
  | 0, s, name, h => by
    simp only [pyFormatAux] at h
    split at h <;> simp at h
  | fuel + 1, [], name, h => by cases h
  | fuel + 1, c :: rest, name, h => by
    simp only [pyFormatAux] at h
    split at h
    · rename_i hc
      subst hc
      split at h
      · simp at h
      · rename_i c2 rest2
        split at h
        · rename_i hc2
          subst hc2
          split at h
          · rename_i e he
            cases h
            obtain ⟨hsub, hlk⟩ := pyFormatAux_missingKey he
            exact ⟨List.infix_cons (List.infix_cons hsub), hlk⟩
          · cases h
        · rename_i hc2
          split at h
          · simp at h
          · rename_i x rest3 hdrop
            split at h
            · rename_i v hlk
              split at h
              · rename_i e he
                cases h
                obtain ⟨hsub, hlk2⟩ := pyFormatAux_missingKey he
                have hsuf : rest3 <:+ (c2 :: rest2) := by
                  have h1 : x :: rest3 <:+ (c2 :: rest2) := by
                    rw [← hdrop]
                    exact List.dropWhile_suffix _
                  exact (List.suffix_cons x rest3).trans h1
                exact ⟨List.infix_cons (hsub.trans hsuf.isInfix), hlk2⟩
              · cases h
            · rename_i hlk
              injection h with h'
              injection h' with h''
              subst h''
              constructor
              · have hx : x = '\x7d' := by
                  have hpx : (fun d => !(d == '\x7d')) x = false := by
                    have := List.head?_dropWhile_not
                      (fun d => !(d == '\x7d')) (c2 :: rest2)
                    rw [hdrop] at this
                    simpa using this
                  simpa using hpx
                subst hx
                refine ⟨[], rest3, ?_⟩
                have hr : c2 :: rest2 =
                    (c2 :: rest2).takeWhile (fun d => !(d == '\x7d')) ++
                      ('\x7d' :: rest3) := by
                  conv_lhs => rw [← List.takeWhile_append_dropWhile
                    (fun d => !(d == '\x7d')) (c2 :: rest2)]
                  rw [hdrop]
                rw [List.nil_append]
                conv_rhs => rw [hr]
                simp
              · exact hlk
    · rename_i hc
      split at h
      · rename_i hc2
        subst hc2
        split at h
        · simp at h
        · rename_i c2 rest2
          split at h
          · split at h
            · rename_i e he
              cases h
              obtain ⟨hsub, hlk⟩ := pyFormatAux_missingKey he
              exact ⟨List.infix_cons (List.infix_cons hsub), hlk⟩
            · cases h
          · simp at h
      · rename_i hc2
        split at h
        · rename_i e he
          cases h
          obtain ⟨hsub, hlk⟩ := pyFormatAux_missingKey he
          exact ⟨List.infix_cons hsub, hlk⟩
        · cases h

/-- C7. A directory expression referencing a variable absent from the
caller-supplied `dir_vars` makes `BookFile.from_args` fail with the
reported `SimpleEbookManagerExit` (a user-data error, not an internal
fault); the localized expression contains the replacement field of the
missing variable, no supplied variable binds that name, the message quotes
both the raw directory expression and the available variable set, and the
empty marker `<none provided>` is shown exactly when no variables were
supplied. -/
theorem bookfile_missing_dirvar
    (book_title_sort basename metadata_dir input_dir_str hash_ name : Str)
    (dir_vars : List DirVar)
    (hmiss : pyFormat (posixPathStr input_dir_str) dir_vars =
      .error (.missingKey name)) :
    BookFile.from_args book_title_sort basename metadata_dir dir_vars
        input_dir_str hash_ =
      .error (notEnoughDirVarsMsg metadata_dir input_dir_str dir_vars) ∧
    (notEnoughDirVarsMsg metadata_dir input_dir_str dir_vars).isUserError =
      true ∧
    containsSubstr (posixPathStr input_dir_str)
      (['\x7b'] ++ name ++ ['\x7d']) ∧
    (∀ dv ∈ dir_vars, dv.name ≠ name) ∧
    (∀ msg, notEnoughDirVarsMsg metadata_dir input_dir_str dir_vars =
      .exit msg →
      containsSubstr msg input_dir_str ∧
      containsSubstr msg (dirVarsStr dir_vars)) ∧
    (dirVarsStr dir_vars = chars "<none provided>" ↔ dir_vars = []) := by
  obtain ⟨hsub, hlk⟩ := pyFormatAux_missingKey hmiss
  refine ⟨?_, rfl, hsub, ?_, ?_, ?_⟩
  · rw [BookFile.from_args, hmiss]
  · intro dv hdv hne
    apply lookup_ne_none_of_mem (l := dirVarsMap dir_vars)
      (k := name) (v := dv.value) _ hlk
    rw [dirVarsMap, ← hne]
    exact List.mem_map_of_mem _ (List.mem_reverse.2 hdv)
  · intro msg hmsg
    rw [notEnoughDirVarsMsg] at hmsg
    injection hmsg with hmsg
    subst hmsg
    constructor
    · exact ⟨chars "ERROR: not enough dir_vars provided, metadata file directory: '" ++
        metadata_dir ++ chars "', file relative directory: '",
        chars "', dir_vars: '" ++ dirVarsStr dir_vars ++ chars "'.", by simp⟩
    · exact ⟨chars "ERROR: not enough dir_vars provided, metadata file directory: '" ++
        metadata_dir ++ chars "', file relative directory: '" ++ input_dir_str ++
        chars "', dir_vars: '", chars "'.", by simp⟩
  · constructor
    · intro hmark
      rcases dir_vars with _ | ⟨dv, rest⟩
      · rfl
      · exfalso
        rw [dirVarsStr, if_neg (by simp)] at hmark
        have hmem : '=' ∈ pyJoin (chars ", ")
            ((dv :: rest).map DirVar.toStr) := by
          have hdv : '=' ∈ DirVar.toStr dv := by
            rw [DirVar.toStr]
            simp [chars]
          rw [List.map_cons]
          rcases rest with _ | ⟨dv2, rest2⟩
          · simpa [pyJoin] using hdv
          · rw [List.map_cons, pyJoin]
            · simp only [List.mem_append]
              exact Or.inl (Or.inl hdv)
            · intro hcontra
              cases hcontra
        rw [hmark] at hmem
        revert hmem
        decide
    · intro h
      subst h
      rfl

theorem bookfile_missing_dirvar_witness :
    BookFile.from_args (chars "Title A") (chars "book.epub")
        (chars "/library/book_a") [] (chars "\x7broot\x7d")
        (chars "abc123") =
      .error (notEnoughDirVarsMsg (chars "/library/book_a")
        (chars "\x7broot\x7d") []) ∧
    containsSubstr (posixPathStr (chars "\x7broot\x7d"))
      (['\x7b'] ++ chars "root" ++ ['\x7d']) ∧
    dirVarsStr [] = chars "<none provided>" :=
  have h := bookfile_missing_dirvar (chars "Title A") (chars "book.epub")
    (chars "/library/book_a") (chars "\x7broot\x7d") (chars "abc123")
    (chars "root") [] (by decide)
  ⟨h.1, h.2.2.1, (h.2.2.2.2.2).mpr rfl⟩

/-! ## `src/util/file.py`: `read_json` and `_error_if_duplicate_obj_keys`

`json.loads` is modelled on an already-lexed JSON value tree; the
`object_pairs_hook` fires on each object in parse order (an object's
values, left to right, before the object itself), and
`_error_if_duplicate_obj_keys` raises at the first key already seen while
folding the pair list into a dict. -/

mutual
/-- A lexed JSON value. -/
inductive RawJson where
  /-- `null`. -/
  | null : RawJson
  /-- A boolean literal. -/
  | bool (b : Bool) : RawJson
  /-- A number literal. -/
  | num (n : Int) : RawJson
  /-- A string literal. -/
  | str (s : Str) : RawJson
  /-- An array. -/
  | arr (items : RawJsonList) : RawJson
  /-- An object: its key/value pairs in document order. -/
  | obj (fields : RawJsonFields) : RawJson
/-- A list of JSON values (array elements in document order). -/
inductive RawJsonList where
  /-- Empty. -/
  | nil : RawJsonList
  /-- Cons. -/
  | cons (head : RawJson) (tail : RawJsonList) : RawJsonList
/-- Object members in document order, duplicates included. -/
inductive RawJsonFields where
  /-- Empty. -/
  | nil : RawJsonFields
  /-- Cons. -/
  | cons (key : Str) (value : RawJson) (tail : RawJsonFields) : RawJsonFields
end

/-- The fold of `_error_if_duplicate_obj_keys` (`src/util/file.py` lines
86-93): scanning pairs left to right, raise `_JSONDuplicateExit k` at the
first key `k` already in the dict built so far. -/
def dupInPairs (seen : List Str) : RawJsonFields → Option Str
  | .nil => none
  | .cons k _ rest => if k ∈ seen then some k else dupInPairs (k :: seen) rest

mutual
/-- The first `_JSONDuplicateExit` raised while parsing the tree: the hook
fires on each object after its values are parsed, values left to right. -/
def firstDup : RawJson → Option Str
  | .null => none
  | .bool _ => none
  | .num _ => none
  | .str _ => none
  | .arr items => firstDupList items
  | .obj fields =>
    match firstDupFields fields with
    | some d => some d
    | none => dupInPairs [] fields
/-- `firstDup` over array elements, left to right. -/
def firstDupList : RawJsonList → Option Str
  | .nil => none
  | .cons x xs =>
    match firstDup x with
    | some d => some d
    | none => firstDupList xs
/-- `firstDup` over an object's values, left to right. -/
def firstDupFields : RawJsonFields → Option Str
  | .nil => none
  | .cons _ v rest =>
    match firstDup v with
    | some d => some d
    | none => firstDupFields rest
end

/-- How many members of an object carry key `k`. -/
def countKey (k : Str) : RawJsonFields → Nat
  | .nil => 0
  | .cons k2 _ rest => (if k2 = k then 1 else 0) + countKey k rest

mutual
/-- Some object node of the tree carries key `k` at least twice. -/
def containsDupKey (k : Str) : RawJson → Bool
  | .null => false
  | .bool _ => false
  | .num _ => false
  | .str _ => false
  | .arr items => containsDupKeyList k items
  | .obj fields =>
    decide (2 ≤ countKey k fields) || containsDupKeyFields k fields
/-- `containsDupKey` over array elements. -/
def containsDupKeyList (k : Str) : RawJsonList → Bool
  | .nil => false
  | .cons x xs => containsDupKey k x || containsDupKeyList k xs
/-- `containsDupKey` over an object's values. -/
def containsDupKeyFields (k : Str) : RawJsonFields → Bool
  | .nil => false
  | .cons _ v rest => containsDupKey k v || containsDupKeyFields k rest
end

mutual
/-- Every object node of the tree has pairwise distinct keys. -/
def allKeysNodup : RawJson → Bool
  | .null => true
  | .bool _ => true
  | .num _ => true
  | .str _ => true
  | .arr items => allKeysNodupList items
  | .obj fields => (dupInPairs [] fields).isNone && allKeysNodupFields fields
/-- `allKeysNodup` over array elements. -/
def allKeysNodupList : RawJsonList → Bool
  | .nil => true
  | .cons x xs => allKeysNodup x && allKeysNodupList xs
/-- `allKeysNodup` over an object's values. -/
def allKeysNodupFields : RawJsonFields → Bool
  | .nil => true
  | .cons _ v rest => allKeysNodup v && allKeysNodupFields rest
end

/-- The reported message of `read_json` (`src/util/file.py` lines 102-105). -/
def dupKeyMsg (k fn : Str) : Str :=
  chars "ERROR: duplicate key '" ++ k ++ chars "' found in '" ++ fn ++
    chars "'."

/-- `read_json` (`src/util/file.py` lines 96-106): parse with
`_error_if_duplicate_obj_keys` as the object hook; the raised
`_JSONDuplicateExit` is re-raised as `SimpleEbookManagerExit` naming the
key and the file. -/
def read_json (fn : Str) (tree : RawJson) : Except SemError RawJson :=
  match firstDup tree with
  | some k => .error (.exit (dupKeyMsg k fn))
  | none => .ok tree

theorem dupInPairs_spec :
    ∀ {seen : List Str} {fields : RawJsonFields} {k : Str},
      dupInPairs seen fields = some k →
      (k ∈ seen ∧ 1 ≤ countKey k fields) ∨ 2 ≤ countKey k fields
  | seen, .nil, k, h => by simp [dupInPairs] at h
  | seen, .cons k2 v rest, k, h => by
    rw [dupInPairs] at h
    split at h
    · rename_i hk2
      injection h with h
      subst h
      left
      refine ⟨hk2, ?_⟩
      rw [countKey, if_pos rfl]
      omega
    · rename_i hk2
      rcases dupInPairs_spec h with ⟨hmem, hc⟩ | hc
      · rcases List.mem_cons.1 hmem with heq | hmem'
        · subst heq
          right
          rw [countKey, if_pos rfl]
          omega
        · left
          refine ⟨hmem', ?_⟩
          rw [countKey]
          omega
      · right
        rw [countKey]
        omega

theorem dupInPairs_nil_count {fields : RawJsonFields} {k : Str}
    (h : dupInPairs [] fields = some k) : 2 ≤ countKey k fields := by
  rcases dupInPairs_spec h with ⟨hmem, -⟩ | hc
  · cases hmem
  · exact hc

mutual
theorem firstDup_dup : ∀ {t : RawJson} {k : Str},
    firstDup t = some k → containsDupKey k t = true
  | .null, k, h => by simp [firstDup] at h
  | .bool _, k, h => by simp [firstDup] at h
  | .num _, k, h => by simp [firstDup] at h
  | .str _, k, h => by simp [firstDup] at h
  | .arr items, k, h => by
    rw [firstDup] at h
    rw [containsDupKey]
    exact firstDupList_dup h
  | .obj fields, k, h => by
    rw [firstDup] at h
    rw [containsDupKey]
    split at h
    · rename_i d hd
      injection h with h
      subst h
      rw [firstDupFields_dup hd]
      simp
    · rw [decide_eq_true (dupInPairs_nil_count h)]
      simp
theorem firstDupList_dup : ∀ {l : RawJsonList} {k : Str},
    firstDupList l = some k → containsDupKeyList k l = true
  | .nil, k, h => by simp [firstDupList] at h
  | .cons x xs, k, h => by
    rw [firstDupList] at h
    rw [containsDupKeyList]
    split at h
    · rename_i d hd
      injection h with h
      subst h
      rw [firstDup_dup hd]
      simp
    · rw [firstDupList_dup h]
      simp
theorem firstDupFields_dup : ∀ {fs : RawJsonFields} {k : Str},
    firstDupFields fs = some k → containsDupKeyFields k fs = true
  | .nil, k, h => by simp [firstDupFields] at h
  | .cons k2 v rest, k, h => by
    rw [firstDupFields] at h
    rw [containsDupKeyFields]
    split at h
    · rename_i d hd
      injection h with h
      subst h
      rw [firstDup_dup hd]
      simp
    · rw [firstDupFields_dup h]
      simp
end

mutual
theorem firstDup_none_nodup : ∀ {t : RawJson},
    firstDup t = none → allKeysNodup t = true
  | .null, _ => rfl
  | .bool _, _ => rfl
  | .num _, _ => rfl
  | .str _, _ => rfl
  | .arr items, h => by
    rw [firstDup] at h
    rw [allKeysNodup]
    exact firstDupList_none_nodup h
  | .obj fields, h => by
    rw [firstDup] at h
    rw [allKeysNodup]
    split at h
    · cases h
    · rename_i hfs
      rw [firstDupFields_none_nodup hfs, h]
      simp [Option.isNone]
theorem firstDupList_none_nodup : ∀ {l : RawJsonList},
    firstDupList l = none → allKeysNodupList l = true
  | .nil, _ => rfl
  | .cons x xs, h => by
    rw [firstDupList] at h
    rw [allKeysNodupList]
    split at h
    · cases h
    · rename_i hx
      rw [firstDup_none_nodup hx, firstDupList_none_nodup h]
      simp
theorem firstDupFields_none_nodup : ∀ {fs : RawJsonFields},
    firstDupFields fs = none → allKeysNodupFields fs = true
  | .nil, _ => rfl
  | .cons k2 v rest, h => by
    rw [firstDupFields] at h
    rw [allKeysNodupFields]
    split at h
    · cases h
    · rename_i hv
      rw [firstDup_none_nodup hv, firstDupFields_none_nodup h]
      simp
end

/-- C10. A duplicated key in any object of a metadata or schema JSON file
aborts `read_json` with the reported `SimpleEbookManagerExit` whose message
names the duplicate key and the file; the named key really occurs at least
twice in some object of the tree; and on a tree without duplicate keys
`read_json` succeeds, returning the parse unchanged rather than silently
keeping a last occurrence. -/
theorem json_duplicate_key_reported (fn k : Str) (tree : RawJson)
    (h : firstDup tree = some k) :
    read_json fn tree = .error (.exit (dupKeyMsg k fn)) ∧
    (SemError.exit (dupKeyMsg k fn)).isUserError = true ∧
    containsSubstr (dupKeyMsg k fn) k ∧
    containsSubstr (dupKeyMsg k fn) fn ∧
    containsDupKey k tree = true ∧
    (∀ t : RawJson, firstDup t = none →
      read_json fn t = .ok t ∧ allKeysNodup t = true) := by
  refine ⟨?_, rfl, ?_, ?_, firstDup_dup h, ?_⟩
  · rw [read_json, h]
  · exact ⟨chars "ERROR: duplicate key '",
      chars "' found in '" ++ fn ++ chars "'.", by simp [dupKeyMsg]⟩
  · exact ⟨chars "ERROR: duplicate key '" ++ k ++ chars "' found in '",
      chars "'.", by simp [dupKeyMsg]⟩
  · intro t ht
    refine ⟨?_, firstDup_none_nodup ht⟩
    rw [read_json, ht]

/-- A metadata tree whose nested object repeats the key `x`. -/
def sampleDupTree : RawJson :=
  .obj (.cons (chars "a") (.num 1)
    (.cons (chars "b")
      (.obj (.cons (chars "x") .null (.cons (chars "x") (.num 2) .nil)))
      .nil))

theorem json_duplicate_key_reported_witness :
    read_json (chars "metadata.json") sampleDupTree =
      .error (.exit (dupKeyMsg (chars "x") (chars "metadata.json"))) ∧
    containsDupKey (chars "x") sampleDupTree = true ∧
    containsSubstr (dupKeyMsg (chars "x") (chars "metadata.json"))
      (chars "x") :=
  have h := json_duplicate_key_reported (chars "metadata.json") (chars "x")
    sampleDupTree (by decide)
  ⟨h.1, h.2.2.2.2.1, h.2.2.1⟩

/-! ## `src/db/sql.py`: `get_create_view_summary_sql`

The generator builds a list of text chunks and joins them with newlines,
stripping each chunk's outer newlines; the model carries each chunk as its
list of lines (the chunks are the `textwrap.dedent`-ed templates of
`_get_create_view_summary_other_cte_sql` and
`_get_create_view_summary_sortdisplay_cte_sql`, transcribed verbatim), so
the produced string is the newline-join of the concatenated lines.  The two
CTE templates are shared between their emitted form (final line `),`) and
the comma-stripped form the generator leaves on the last CTE. -/

/-- A schema item (`src/util/schema.py`, `SchemaItemTypes`). -/
inductive SchemaItem where
  /-- `Date` with input and output formats. -/
  | date (name input_format output_format : Str) : SchemaItem
  /-- `File`. -/
  | file (name : Str) : SchemaItem
  /-- `KeyValue` with its two labels. -/
  | keyvalue (name key_label value_label : Str) : SchemaItem
  /-- `SortDisplay`. -/
  | sortdisplay (name : Str) : SchemaItem
  /-- `String`, inline or not. -/
  | string (name : Str) (inline : Bool) : SchemaItem
  /-- `Title`. -/
  | title (name : Str) : SchemaItem
deriving DecidableEq, Repr

/-- `item.name`, common to all schema item types. -/
def SchemaItem.name : SchemaItem → Str
  | .date n _ _ => n
  | .file n => n
  | .keyvalue n _ _ => n
  | .sortdisplay n => n
  | .string n _ => n
  | .title n => n

/-- Python `lines[-1] = f(lines[-1])`: rewrite the last element. -/
def mapLast {α : Type} (f : α → α) : List α → List α
  | [] => []
  | [x] => [f x]
  | x :: y :: rest => x :: mapLast f (y :: rest)

/-- The opening line of a windowed `group_concat` over expression `x`. -/
def aggOpen (x : Str) : Str :=
  chars "        group_concat(" ++ x ++ chars ", ';') OVER ("

/-- The windowed-aggregate block the templates emit for expression `x`:
`group_concat` ordered over a window partitioned by `book_pkey` and
ordered by the aggregated value. -/
def windowLines (x : Str) : List Str :=
  [aggOpen x,
   chars "            PARTITION BY",
   chars "                book_pkey",
   chars "            ORDER BY",
   chars "                " ++ x,
   chars "            ROWS BETWEEN UNBOUNDED PRECEDING AND UNBOUNDED FOLLOWING"]

/-- Lines of `_get_create_view_summary_other_cte_sql` (`src/db/sql.py`
lines 272-295, dedented), with the final line a parameter so the same
template serves before and after the generator strips the last comma. -/
def otherCteCore (fieldname col1 col2 delim last : Str) : List Str :=
  [fieldname ++ chars "_concat AS (",
   chars "    SELECT DISTINCT",
   chars "        book_pkey,",
   aggOpen (chars "book_" ++ fieldname ++ chars "_combined"),
   chars "            PARTITION BY",
   chars "                book_pkey",
   chars "            ORDER BY",
   chars "                " ++ (chars "book_" ++ fieldname ++ chars "_combined"),
   chars "            ROWS BETWEEN UNBOUNDED PRECEDING AND UNBOUNDED FOLLOWING",
   chars "        ) AS " ++ fieldname,
   chars "    FROM (",
   chars "        SELECT",
   chars "            book.pkey AS book_pkey,",
   chars "            book_" ++ fieldname ++ chars "." ++ col1 ++
     chars " || '" ++ delim ++ chars "' || book_" ++ fieldname ++
     chars "." ++ col2 ++ chars " AS book_" ++ fieldname ++ chars "_combined",
   chars "        FROM",
   chars "            book,",
   chars "            book_" ++ fieldname,
   chars "        WHERE",
   chars "            book.pkey=book_" ++ fieldname ++ chars ".book_pkey",
   chars "    )",
   last]

/-- The emitted file/keyvalue CTE (final line `),`). -/
def otherCteLines (fieldname col1 col2 delim : Str) : List Str :=
  otherCteCore fieldname col1 col2 delim (chars "),")

/-- Lines of `_get_create_view_summary_sortdisplay_cte_sql`
(`src/db/sql.py` lines 306-340, dedented), final line a parameter. -/
def sdCteCore (fieldname last : Str) : List Str :=
  [fieldname ++ chars "_concat AS (",
   chars "    SELECT DISTINCT",
   chars "        book_pkey,",
   aggOpen (fieldname ++ chars "_sort"),
   chars "            PARTITION BY",
   chars "                book_pkey",
   chars "            ORDER BY",
   chars "                " ++ (fieldname ++ chars "_sort"),
   chars "            ROWS BETWEEN UNBOUNDED PRECEDING AND UNBOUNDED FOLLOWING",
   chars "        ) AS " ++ fieldname ++ chars "_sort,",
   aggOpen (fieldname ++ chars "_display"),
   chars "            PARTITION BY",
   chars "                book_pkey",
   chars "            ORDER BY",
   chars "                " ++ (fieldname ++ chars "_display"),
   chars "            ROWS BETWEEN UNBOUNDED PRECEDING AND UNBOUNDED FOLLOWING",
   chars "        ) AS " ++ fieldname ++ chars "_display",
   chars "    FROM (",
   chars "        SELECT",
   chars "            book.pkey AS book_pkey,",
   chars "            " ++ (fieldname ++ chars ".sort AS " ++ fieldname ++ chars "_sort,"),
   chars "            " ++ (fieldname ++ chars ".display AS " ++ fieldname ++ chars "_display"),
   chars "        FROM",
   chars "            book,",
   chars "            book_" ++ fieldname ++ chars ",",
   chars "            " ++ fieldname,
   chars "        WHERE",
   chars "            book.pkey=book_" ++ fieldname ++ chars ".book_pkey AND",
   chars "            book_" ++ fieldname ++ chars "." ++ fieldname ++
     chars "_pkey=" ++ fieldname ++ chars ".pkey",
   chars "    )",
   last]

/-- The emitted sortdisplay CTE (final line `),`). -/
def sortdisplayCteLines (fieldname : Str) : List Str :=
  sdCteCore fieldname (chars "),")

/-- The CTE chunk the first loop of `get_create_view_summary_sql` appends
for an item (`src/db/sql.py` lines 347-366): File and KeyValue use the
other-CTE template with their columns and delimiter, SortDisplay its own
template, remaining types none. -/
def cteChunk : SchemaItem → Option (List Str)
  | .file n => some (otherCteLines n (chars "file_name") (chars "file_hash") (chars "::"))
  | .keyvalue n kl vl => some (otherCteLines n kl vl (chars ":"))
  | .sortdisplay n => some (sortdisplayCteLines n)
  | _ => none

/-- The select-column lines the second loop appends for an item
(`src/db/sql.py` lines 373-392). -/
def selectLines : SchemaItem → List Str
  | .date n _ _ => [chars "    book." ++ n ++ chars ","]
  | .string n _ => [chars "    book." ++ n ++ chars ","]
  | .file n =>
    [chars "    cast(" ++ n ++ chars "_concat." ++ n ++
      chars " AS TEXT) AS " ++ n ++ chars ","]
  | .keyvalue n _ _ =>
    [chars "    cast(" ++ n ++ chars "_concat." ++ n ++
      chars " AS TEXT) AS " ++ n ++ chars ","]
  | .sortdisplay n =>
    [chars "    cast(" ++ n ++ chars "_concat." ++ n ++
      chars "_sort AS TEXT) AS " ++ n ++ chars "_sort,",
     chars "    cast(" ++ n ++ chars "_concat." ++ n ++
      chars "_display AS TEXT) AS " ++ n ++ chars "_display,"]
  | .title n =>
    [chars "    book." ++ n ++ chars "_sort,",
     chars "    book." ++ n ++ chars "_display,"]

/-- The `LEFT OUTER JOIN` chunk for a concatenated field
(`src/db/sql.py` lines 413-422, dedented). -/
def joinLines (n : Str) : List Str :=
  [chars "LEFT OUTER JOIN",
   chars "    " ++ n ++ chars "_concat",
   chars "    ON",
   chars "    book.pkey=" ++ n ++ chars "_concat.book_pkey"]

/-- Which items the third loop joins against (File, KeyValue,
SortDisplay; `src/db/sql.py` lines 404-422). -/
def joinChunk : SchemaItem → Option (List Str)
  | .file n => some (joinLines n)
  | .keyvalue n _ _ => some (joinLines n)
  | .sortdisplay n => some (joinLines n)
  | _ => none

/-- `title_fieldname` as the second loop leaves it: the name of the last
Title item, if any. -/
def lastTitle : List SchemaItem → Option Str
  | [] => none
  | .title n :: rest =>
    match lastTitle rest with
    | some m => some m
    | none => some n
  | _ :: rest => lastTitle rest

/-- The aggregated expressions of an item's windowed `group_concat`s. -/
def aggExprs : SchemaItem → List Str
  | .file n => [chars "book_" ++ n ++ chars "_combined"]
  | .keyvalue n _ _ => [chars "book_" ++ n ++ chars "_combined"]
  | .sortdisplay n => [n ++ chars "_sort", n ++ chars "_display"]
  | _ => []

/-- The lines of the summary-view SQL (`get_create_view_summary_sql`,
`src/db/sql.py` lines 343-435): header, CTE chunks with the last CTE's
trailing comma stripped, select columns with the last comma stripped,
`FROM book`, the join chunks, and the final grouping on the title sort. -/
def summaryLines (schema : List SchemaItem) (title_fieldname : Str) : List Str :=
  [chars "CREATE VIEW v_summary AS", chars "WITH"] ++
  (mapLast (mapLast rstripComma) (schema.filterMap cteChunk)).flatten ++
  mapLast rstripComma
    ([chars "SELECT",
      chars "    book.pkey AS book_pkey,",
      chars "    book.metadata_directory,"] ++
     (schema.map selectLines).flatten) ++
  [chars "FROM", chars "    book"] ++
  (schema.filterMap joinChunk).flatten ++
  [chars "GROUP BY",
   chars "    book." ++ title_fieldname ++ chars "_sort",
   chars "ORDER BY",
   chars "    book." ++ title_fieldname ++ chars "_sort"]

/-- `get_create_view_summary_sql`: the newline-join of `summaryLines`; a
schema without a Title leaves `title_fieldname` unbound, an uncaught
`UnboundLocalError`. -/
def get_create_view_summary_sql (schema : List SchemaItem) : Except SemError Str :=
  match lastTitle schema with
  | none => .error (.exception (chars "UnboundLocalError"))
  | some t => .ok (pyJoin ['\n'] (summaryLines schema t))

/-- Leading spaces removed, as Python `str.lstrip(" ")`. -/
def stripSp (s : Str) : Str := s.dropWhile (fun c => c == ' ')

/-- The line does not open a `group_concat` call (after indentation). -/
def lineNoAgg (l : Str) : Prop := ¬ (chars "group_concat(" <+: stripSp l)

instance lineNoAggDec (l : Str) : Decidable (lineNoAgg l) :=
  inferInstanceAs (Decidable (¬ (chars "group_concat(" <+: stripSp l)))

/-- A schema name is agg-safe when no line it heads can open a
`group_concat` call. -/
def aggSafe (n : Str) : Prop := ∀ rest : Str, lineNoAgg (n ++ rest)

theorem lineNoAgg_head {c : Char} {s : Str} (hsp : (c == ' ') = false)
    (hg : (c == 'g') = false) : lineNoAgg (c :: s) := by
  intro hpre
  have hstrip : stripSp (c :: s) = c :: s := by
    simp only [stripSp, List.dropWhile_cons, hsp]
    simp
  rw [hstrip] at hpre
  obtain ⟨t, ht⟩ := hpre
  have hc : 'g' = c := by
    have := congrArg (fun l : Str => l.head?) ht
    simpa [chars] using this
  rw [← hc] at hg
  simp at hg

theorem lineNoAgg_sp {s : Str} (h : lineNoAgg s) : lineNoAgg (' ' :: s) := by
  intro hpre
  apply h
  have hstrip : stripSp (' ' :: s) = stripSp s := by
    simp [stripSp, List.dropWhile_cons]
  rwa [hstrip] at hpre

theorem aggSafe_self {n : Str} (hs : aggSafe n) : lineNoAgg n := by
  have := hs []
  rwa [List.append_nil] at this

theorem aggSafe_cons {c : Char} {n : Str} (hsp : (c == ' ') = false)
    (hg : (c == 'g') = false) : aggSafe (c :: n) :=
  fun _ => lineNoAgg_head hsp hg

theorem rstripComma_eq_append (s : Str) :
    ∃ t, rstripComma s ++ t = s := by
  refine ⟨(s.reverse.takeWhile (fun c => c = ',')).reverse, ?_⟩
  rw [rstripComma, ← List.reverse_append,
    List.takeWhile_append_dropWhile (fun c => c = ',') s.reverse,
    List.reverse_reverse]

theorem lineNoAgg_rstripComma {s : Str} (h : lineNoAgg s) :
    lineNoAgg (rstripComma s) := by
  intro hpre
  apply h
  obtain ⟨t, ht⟩ := rstripComma_eq_append s
  rw [← ht, stripSp, List.dropWhile_append]
  rcases hemp : (List.dropWhile (fun c => c == ' ') (rstripComma s)).isEmpty with _ | _
  · rw [if_neg (by simp [hemp])]
    exact hpre.trans (List.prefix_append _ _)
  · exfalso
    rw [stripSp] at hpre
    rw [List.isEmpty_iff] at hemp
    rw [hemp] at hpre
    have := List.prefix_nil.mp hpre
    simp [chars] at this

theorem mem_mapLast {α : Type} {f : α → α} :
    ∀ {l : List α} {x : α}, x ∈ mapLast f l → x ∈ l ∨ ∃ y ∈ l, x = f y
  | [], x, h => by cases h
  | [a], x, h => by
    rw [mapLast] at h
    right
    exact ⟨a, List.mem_singleton.2 rfl, List.mem_singleton.1 h⟩
  | a :: b :: t, x, h => by
    rw [mapLast] at h
    rcases List.mem_cons.1 h with rfl | h₁
    · left
      exact List.mem_cons_self _ _
    · rcases mem_mapLast h₁ with h₂ | ⟨y, hy, hxy⟩
      · left
        exact List.mem_cons_of_mem _ h₂
      · right
        exact ⟨y, List.mem_cons_of_mem _ hy, hxy⟩

theorem mem_mapLast_of_mem {α : Type} {f : α → α} :
    ∀ {l : List α} {x : α}, x ∈ l → x ∈ mapLast f l ∨ f x ∈ mapLast f l
  | [], x, h => by cases h
  | [a], x, h => by
    right
    rw [List.mem_singleton.1 h, mapLast]
    exact List.mem_singleton.2 rfl
  | a :: b :: t, x, h => by
    rw [mapLast]
    rcases List.mem_cons.1 h with rfl | h₁
    · left
      exact List.mem_cons_self _ _
    · rcases mem_mapLast_of_mem h₁ with h₂ | h₂
      · left
        exact List.mem_cons_of_mem _ h₂
      · right
        exact List.mem_cons_of_mem _ h₂

theorem pyJoin_cons_cons (sep x y : Str) (t : List Str) :
    pyJoin sep (x :: y :: t) = x ++ sep ++ pyJoin sep (y :: t) := rfl

theorem pyJoin_append (sep : Str) :
    ∀ (a b : List Str), a ≠ [] → b ≠ [] →
      pyJoin sep (a ++ b) = pyJoin sep a ++ sep ++ pyJoin sep b
  | [], _, ha, _ => absurd rfl ha
  | [x], b, _, hb => by
    rcases b with _ | ⟨y, t⟩
    · exact absurd rfl hb
    · rw [List.singleton_append, pyJoin_cons_cons]
      rfl
  | x :: y :: t, b, _, hb => by
    have h1 : ((x :: y :: t : List Str) ++ b) = x :: ((y :: t) ++ b) := rfl
    have h2 : ((y :: t : List Str) ++ b) = y :: (t ++ b) := rfl
    rw [h1, h2, pyJoin_cons_cons, ← h2,
      pyJoin_append sep (y :: t) b (by simp) hb, pyJoin_cons_cons]
    simp [List.append_assoc]

theorem containsSubstr_pyJoin_of_infix {sep : Str} {l₁ l₂ : List Str}
    (hne : l₁ ≠ []) (h : l₁ <:+: l₂) :
    containsSubstr (pyJoin sep l₂) (pyJoin sep l₁) := by
  obtain ⟨a, b, hab⟩ := h
  subst hab
  rcases ha : a with _ | ⟨a0, a'⟩ <;> rcases hb : b with _ | ⟨b0, b'⟩
  · exact ⟨[], [], by simp⟩
  · refine ⟨[], sep ++ pyJoin sep (b0 :: b'), ?_⟩
    rw [List.nil_append, List.nil_append,
      pyJoin_append sep l₁ (b0 :: b') hne (by simp)]
    simp [List.append_assoc]
  · refine ⟨pyJoin sep (a0 :: a') ++ sep, [], ?_⟩
    rw [List.append_nil, List.append_nil,
      pyJoin_append sep (a0 :: a') l₁ (by simp) hne]
  · refine ⟨pyJoin sep (a0 :: a') ++ sep, sep ++ pyJoin sep (b0 :: b'), ?_⟩
    rw [pyJoin_append sep (a0 :: a' ++ l₁) (b0 :: b') (by simp) (by simp),
      pyJoin_append sep (a0 :: a') l₁ (by simp) hne]
    simp [List.append_assoc]

theorem otherCteCore_window (n c1 c2 d last : Str) :
    windowLines (chars "book_" ++ n ++ chars "_combined") <:+:
      otherCteCore n c1 c2 d last :=
  ⟨[n ++ chars "_concat AS (",
    chars "    SELECT DISTINCT",
    chars "        book_pkey,"],
   [chars "        ) AS " ++ n,
    chars "    FROM (",
    chars "        SELECT",
    chars "            book.pkey AS book_pkey,",
    chars "            book_" ++ n ++ chars "." ++ c1 ++
      chars " || '" ++ d ++ chars "' || book_" ++ n ++
      chars "." ++ c2 ++ chars " AS book_" ++ n ++ chars "_combined",
    chars "        FROM",
    chars "            book,",
    chars "            book_" ++ n,
    chars "        WHERE",
    chars "            book.pkey=book_" ++ n ++ chars ".book_pkey",
    chars "    )",
    last], rfl⟩

theorem sdCteCore_window1 (n last : Str) :
    windowLines (n ++ chars "_sort") <:+: sdCteCore n last :=
  ⟨[n ++ chars "_concat AS (",
    chars "    SELECT DISTINCT",
    chars "        book_pkey,"],
   [chars "        ) AS " ++ n ++ chars "_sort,",
    aggOpen (n ++ chars "_display"),
    chars "            PARTITION BY",
    chars "                book_pkey",
    chars "            ORDER BY",
    chars "                " ++ (n ++ chars "_display"),
    chars "            ROWS BETWEEN UNBOUNDED PRECEDING AND UNBOUNDED FOLLOWING",
    chars "        ) AS " ++ n ++ chars "_display",
    chars "    FROM (",
    chars "        SELECT",
    chars "            book.pkey AS book_pkey,",
    chars "            " ++ (n ++ chars ".sort AS " ++ n ++ chars "_sort,"),
    chars "            " ++ (n ++ chars ".display AS " ++ n ++ chars "_display"),
    chars "        FROM",
    chars "            book,",
    chars "            book_" ++ n ++ chars ",",
    chars "            " ++ n,
    chars "        WHERE",
    chars "            book.pkey=book_" ++ n ++ chars ".book_pkey AND",
    chars "            book_" ++ n ++ chars "." ++ n ++
      chars "_pkey=" ++ n ++ chars ".pkey",
    chars "    )",
    last], rfl⟩

theorem sdCteCore_window2 (n last : Str) :
    windowLines (n ++ chars "_display") <:+: sdCteCore n last :=
  ⟨[n ++ chars "_concat AS (",
    chars "    SELECT DISTINCT",
    chars "        book_pkey,",
    aggOpen (n ++ chars "_sort"),
    chars "            PARTITION BY",
    chars "                book_pkey",
    chars "            ORDER BY",
    chars "                " ++ (n ++ chars "_sort"),
    chars "            ROWS BETWEEN UNBOUNDED PRECEDING AND UNBOUNDED FOLLOWING",
    chars "        ) AS " ++ n ++ chars "_sort,"],
   [chars "        ) AS " ++ n ++ chars "_display",
    chars "    FROM (",
    chars "        SELECT",
    chars "            book.pkey AS book_pkey,",
    chars "            " ++ (n ++ chars ".sort AS " ++ n ++ chars "_sort,"),
    chars "            " ++ (n ++ chars ".display AS " ++ n ++ chars "_display"),
    chars "        FROM",
    chars "            book,",
    chars "            book_" ++ n ++ chars ",",
    chars "            " ++ n,
    chars "        WHERE",
    chars "            book.pkey=book_" ++ n ++ chars ".book_pkey AND",
    chars "            book_" ++ n ++ chars "." ++ n ++
      chars "_pkey=" ++ n ++ chars ".pkey",
    chars "    )",
    last], rfl⟩

/-- The line's first non-space character exists and is not `g` (so the
line cannot open a `group_concat` call). -/
def headNotG (s : Str) : Bool :=
  match stripSp s with
  | [] => false
  | c :: _ => !(c == 'g')

theorem lineNoAgg_append {lit : Str} (h : headNotG lit = true) (X : Str) :
    lineNoAgg (lit ++ X) := by
  intro hpre
  rw [stripSp, List.dropWhile_append] at hpre
  rcases hsl : stripSp lit with _ | ⟨c, rest⟩
  · rw [headNotG, hsl] at h
    cases h
  · rw [headNotG, hsl] at h
    rw [stripSp] at hsl
    rw [hsl] at hpre
    rw [if_neg (by simp)] at hpre
    obtain ⟨t, ht⟩ := hpre
    have hc : 'g' = c := by
      have := congrArg (fun l : Str => l.head?) ht
      simpa [chars] using this
    rw [← hc] at h
    simp at h

theorem lineNoAgg_spaces {lit : Str} (h : (stripSp lit).isEmpty = true)
    {s : Str} (hns : lineNoAgg s) : lineNoAgg (lit ++ s) := by
  intro hpre
  apply hns
  rw [stripSp, List.dropWhile_append] at hpre
  rw [stripSp] at h
  rw [if_pos h] at hpre
  exact hpre

set_option maxRecDepth 4000 in
theorem otherCteCore_lines (n c1 c2 d last : Str) (hs : aggSafe n)
    (hlast : lineNoAgg last) :
    ∀ l ∈ otherCteCore n c1 c2 d last,
      lineNoAgg l ∨ ∃ x, l = aggOpen x ∧
        windowLines x <:+: otherCteCore n c1 c2 d last := by
  intro l hmem
  simp only [otherCteCore, List.mem_cons, List.not_mem_nil, or_false] at hmem
  rcases hmem with rfl|rfl|rfl|rfl|rfl|rfl|rfl|rfl|rfl|rfl|rfl|rfl|rfl|rfl|rfl|rfl|rfl|rfl|rfl|rfl|rfl <;>
    first
      | exact Or.inl hlast
      | exact Or.inl (by decide)
      | exact Or.inl (by
          try simp only [List.append_assoc]
          first
            | exact hs _
            | exact lineNoAgg_append (by decide) _
            | exact lineNoAgg_spaces (by decide) (hs _)
            | exact lineNoAgg_spaces (by decide) (aggSafe_self hs)
            | exact lineNoAgg_spaces (by decide) (lineNoAgg_append (by decide) _))
      | exact Or.inr ⟨_, rfl, otherCteCore_window n c1 c2 d last⟩

set_option maxRecDepth 4000 in
theorem sdCteCore_lines (n last : Str) (hs : aggSafe n)
    (hlast : lineNoAgg last) :
    ∀ l ∈ sdCteCore n last,
      lineNoAgg l ∨ ∃ x, l = aggOpen x ∧
        windowLines x <:+: sdCteCore n last := by
  intro l hmem
  simp only [sdCteCore, List.mem_cons, List.not_mem_nil, or_false] at hmem
  rcases hmem with rfl|rfl|rfl|rfl|rfl|rfl|rfl|rfl|rfl|rfl|rfl|rfl|rfl|rfl|rfl|rfl|rfl|rfl|rfl|rfl|rfl|rfl|rfl|rfl|rfl|rfl|rfl|rfl|rfl|rfl|rfl <;>
    first
      | exact Or.inl hlast
      | exact Or.inl (by decide)
      | exact Or.inl (by
          try simp only [List.append_assoc]
          first
            | exact hs _
            | exact lineNoAgg_append (by decide) _
            | exact lineNoAgg_spaces (by decide) (hs _)
            | exact lineNoAgg_spaces (by decide) (aggSafe_self hs)
            | exact lineNoAgg_spaces (by decide) (lineNoAgg_append (by decide) _))
      | exact Or.inr ⟨_, rfl, sdCteCore_window1 n last⟩
      | exact Or.inr ⟨_, rfl, sdCteCore_window2 n last⟩

theorem mapLast_otherCteLines (n c1 c2 d : Str) :
    mapLast rstripComma (otherCteLines n c1 c2 d) =
      otherCteCore n c1 c2 d (chars ")") := rfl

theorem mapLast_sdCteLines (n : Str) :
    mapLast rstripComma (sortdisplayCteLines n) =
      sdCteCore n (chars ")") := rfl

/-- C6. For every schema with a title, the summary-view SQL is the
newline-join of `summaryLines`; every multi-valued field (File, KeyValue,
SortDisplay) is aggregated by a windowed `group_concat` carrying
`PARTITION BY book_pkey` and an explicit `ORDER BY` on the aggregated
value (the block appears verbatim in the emitted SQL); and, provided no
schema name can itself open a `group_concat` call, every line of the
emitted SQL that opens a `group_concat` call is the opening line of such a
windowed block — never a bare unordered `group_concat`. -/
theorem summary_sql_windowed_aggregation (schema : List SchemaItem)
    (t sql : Str)
    (htitle : lastTitle schema = some t)
    (hok : get_create_view_summary_sql schema = .ok sql)
    (hsafe : ∀ item ∈ schema, aggSafe item.name) :
    sql = pyJoin ['\n'] (summaryLines schema t) ∧
    (∀ item ∈ schema, ∀ x ∈ aggExprs item,
      windowLines x <:+: summaryLines schema t ∧
      containsSubstr sql (pyJoin ['\n'] (windowLines x))) ∧
    (∀ l ∈ summaryLines schema t,
      lineNoAgg l ∨ ∃ x, l = aggOpen x ∧
        windowLines x <:+: summaryLines schema t) := by
  have hsql : sql = pyJoin ['\n'] (summaryLines schema t) := by
    simp only [get_create_view_summary_sql, htitle] at hok
    injection hok with h
    exact h.symm
  have hBsub : ∀ c ∈ mapLast (mapLast rstripComma) (schema.filterMap cteChunk),
      c <:+: summaryLines schema t := by
    intro c hc
    refine (List.infix_of_mem_flatten hc).trans ?_
    refine ⟨[chars "CREATE VIEW v_summary AS", chars "WITH"],
      mapLast rstripComma
        ([chars "SELECT",
          chars "    book.pkey AS book_pkey,",
          chars "    book.metadata_directory,"] ++
         (schema.map selectLines).flatten) ++
      ([chars "FROM", chars "    book"] ++
       ((schema.filterMap joinChunk).flatten ++
        [chars "GROUP BY",
         chars "    book." ++ t ++ chars "_sort",
         chars "ORDER BY",
         chars "    book." ++ t ++ chars "_sort"])), ?_⟩
    simp only [summaryLines, List.append_assoc]
  have hchunk : ∀ c ∈ mapLast (mapLast rstripComma) (schema.filterMap cteChunk),
      ∀ l ∈ c, lineNoAgg l ∨ ∃ x, l = aggOpen x ∧ windowLines x <:+: c := by
    intro c hc
    rcases mem_mapLast hc with hc₁ | ⟨y, hy, rfl⟩
    · obtain ⟨item, hitem, hsome⟩ := List.mem_filterMap.1 hc₁
      have hsafeI := hsafe item hitem
      cases item
      case date => simp [cteChunk] at hsome
      case string => simp [cteChunk] at hsome
      case title => simp [cteChunk] at hsome
      case file nm =>
        simp only [cteChunk, Option.some.injEq] at hsome
        subst hsome
        exact otherCteCore_lines nm _ _ _ _ hsafeI (by decide)
      case keyvalue nm kl vl =>
        simp only [cteChunk, Option.some.injEq] at hsome
        subst hsome
        exact otherCteCore_lines nm _ _ _ _ hsafeI (by decide)
      case sortdisplay nm =>
        simp only [cteChunk, Option.some.injEq] at hsome
        subst hsome
        exact sdCteCore_lines nm _ hsafeI (by decide)
    · obtain ⟨item, hitem, hsome⟩ := List.mem_filterMap.1 hy
      have hsafeI := hsafe item hitem
      cases item
      case date => simp [cteChunk] at hsome
      case string => simp [cteChunk] at hsome
      case title => simp [cteChunk] at hsome
      case file nm =>
        simp only [cteChunk, Option.some.injEq] at hsome
        subst hsome
        rw [mapLast_otherCteLines]
        exact otherCteCore_lines nm _ _ _ _ hsafeI (by decide)
      case keyvalue nm kl vl =>
        simp only [cteChunk, Option.some.injEq] at hsome
        subst hsome
        rw [mapLast_otherCteLines]
        exact otherCteCore_lines nm _ _ _ _ hsafeI (by decide)
      case sortdisplay nm =>
        simp only [cteChunk, Option.some.injEq] at hsome
        subst hsome
        rw [mapLast_sdCteLines]
        exact sdCteCore_lines nm _ hsafeI (by decide)
  have hparta : ∀ item ∈ schema, ∀ x ∈ aggExprs item,
      windowLines x <:+: summaryLines schema t := by
    intro item hitem x hx
    cases item
    case date => simp [aggExprs] at hx
    case string => simp [aggExprs] at hx
    case title => simp [aggExprs] at hx
    case file nm =>
      simp only [aggExprs, List.mem_cons, List.not_mem_nil, or_false] at hx
      subst hx
      have hy : otherCteLines nm (chars "file_name") (chars "file_hash")
          (chars "::") ∈ schema.filterMap cteChunk :=
        List.mem_filterMap.2 ⟨_, hitem, rfl⟩
      rcases mem_mapLast_of_mem (f := mapLast rstripComma) hy with hm | hm
      · exact (otherCteCore_window nm _ _ _ _).trans (hBsub _ hm)
      · rw [mapLast_otherCteLines] at hm
        exact (otherCteCore_window nm _ _ _ _).trans (hBsub _ hm)
    case keyvalue nm kl vl =>
      simp only [aggExprs, List.mem_cons, List.not_mem_nil, or_false] at hx
      subst hx
      have hy : otherCteLines nm kl vl (chars ":") ∈ schema.filterMap cteChunk :=
        List.mem_filterMap.2 ⟨_, hitem, rfl⟩
      rcases mem_mapLast_of_mem (f := mapLast rstripComma) hy with hm | hm
      · exact (otherCteCore_window nm _ _ _ _).trans (hBsub _ hm)
      · rw [mapLast_otherCteLines] at hm
        exact (otherCteCore_window nm _ _ _ _).trans (hBsub _ hm)
    case sortdisplay nm =>
      simp only [aggExprs, List.mem_cons, List.not_mem_nil, or_false] at hx
      have hy : sortdisplayCteLines nm ∈ schema.filterMap cteChunk :=
        List.mem_filterMap.2 ⟨_, hitem, rfl⟩
      rcases hx with rfl | rfl
      · rcases mem_mapLast_of_mem (f := mapLast rstripComma) hy with hm | hm
        · exact (sdCteCore_window1 nm _).trans (hBsub _ hm)
        · rw [mapLast_sdCteLines] at hm
          exact (sdCteCore_window1 nm _).trans (hBsub _ hm)
      · rcases mem_mapLast_of_mem (f := mapLast rstripComma) hy with hm | hm
        · exact (sdCteCore_window2 nm _).trans (hBsub _ hm)
        · rw [mapLast_sdCteLines] at hm
          exact (sdCteCore_window2 nm _).trans (hBsub _ hm)
  refine ⟨hsql, ?_, ?_⟩
  · intro item hitem x hx
    refine ⟨hparta item hitem x hx, ?_⟩
    rw [hsql]
    exact containsSubstr_pyJoin_of_infix (by simp [windowLines])
      (hparta item hitem x hx)
  · intro l hl
    rw [summaryLines] at hl
    simp only [List.mem_append] at hl
    rcases hl with ((((hl | hl) | hl) | hl) | hl) | hl
    · simp only [List.mem_cons, List.not_mem_nil, or_false] at hl
      rcases hl with rfl | rfl
      · exact Or.inl (by decide)
      · exact Or.inl (by decide)
    · rw [List.mem_flatten] at hl
      obtain ⟨c, hc, hlc⟩ := hl
      rcases hchunk c hc l hlc with h | ⟨x, rfl, hwin⟩
      · exact Or.inl h
      · exact Or.inr ⟨x, rfl, hwin.trans (hBsub c hc)⟩
    · have hsel : ∀ y ∈ ([chars "SELECT",
          chars "    book.pkey AS book_pkey,",
          chars "    book.metadata_directory,"] ++
          (schema.map selectLines).flatten), lineNoAgg y := by
        intro y hy
        rcases List.mem_append.1 hy with hy | hy
        · simp only [List.mem_cons, List.not_mem_nil, or_false] at hy
          rcases hy with rfl | rfl | rfl <;> exact (by decide)
        · rw [List.mem_flatten] at hy
          obtain ⟨ls, hls, hyls⟩ := hy
          obtain ⟨item, hitem, rfl⟩ := List.mem_map.1 hls
          cases item <;>
            simp only [selectLines, List.mem_cons, List.not_mem_nil,
              or_false] at hyls <;>
            first
              | (rcases hyls with rfl | rfl <;>
                  · try simp only [List.append_assoc]
                    exact lineNoAgg_append (by decide) _)
              | (subst hyls
                 try simp only [List.append_assoc]
                 exact lineNoAgg_append (by decide) _)
      rcases mem_mapLast hl with hl₁ | ⟨y, hy, rfl⟩
      · exact Or.inl (hsel l hl₁)
      · exact Or.inl (lineNoAgg_rstripComma (hsel y hy))
    · simp only [List.mem_cons, List.not_mem_nil, or_false] at hl
      rcases hl with rfl | rfl <;> exact Or.inl (by decide)
    · rw [List.mem_flatten] at hl
      obtain ⟨c, hc, hlc⟩ := hl
      obtain ⟨item, hitem, hsome⟩ := List.mem_filterMap.1 hc
      have hsafeI := hsafe item hitem
      cases item
      case date => simp [joinChunk] at hsome
      case string => simp [joinChunk] at hsome
      case title => simp [joinChunk] at hsome
      all_goals
        simp only [joinChunk, Option.some.injEq] at hsome
        subst hsome
        simp only [joinLines, List.mem_cons, List.not_mem_nil,
          or_false] at hlc
        rcases hlc with rfl | rfl | rfl | rfl <;>
          first
            | exact Or.inl (by decide)
            | exact Or.inl (by
                simp only [List.append_assoc]
                first
                  | exact lineNoAgg_append (by decide) _
                  | exact lineNoAgg_spaces (by decide) (hsafeI _))
    · simp only [List.mem_cons, List.not_mem_nil, or_false] at hl
      rcases hl with rfl | rfl | rfl | rfl <;>
        first
          | exact Or.inl (by decide)
          | exact Or.inl (by
              simp only [List.append_assoc]
              exact lineNoAgg_append (by decide) _)

/-- A representative schema: title, file, keyvalue, sortdisplay, date and
string fields. -/
def sampleSchemaC6 : List SchemaItem :=
  [.title (chars "title"),
   .file (chars "files"),
   .keyvalue (chars "ids") (chars "idk") (chars "idv"),
   .sortdisplay (chars "authors"),
   .date (chars "published") (chars "%Y-%m-%d") (chars "%Y"),
   .string (chars "description") true]

theorem summary_sql_windowed_aggregation_witness :
    get_create_view_summary_sql sampleSchemaC6 =
      .ok (pyJoin ['\n'] (summaryLines sampleSchemaC6 (chars "title"))) ∧
    windowLines (chars "authors_sort") <:+:
      summaryLines sampleSchemaC6 (chars "title") ∧
    containsSubstr (pyJoin ['\n'] (summaryLines sampleSchemaC6 (chars "title")))
      (pyJoin ['\n'] (windowLines (chars "authors_sort"))) := by
  have h := summary_sql_windowed_aggregation sampleSchemaC6 (chars "title")
    (pyJoin ['\n'] (summaryLines sampleSchemaC6 (chars "title")))
    (by decide) rfl
    (by
      intro item hitem
      simp only [sampleSchemaC6, List.mem_cons, List.not_mem_nil,
        or_false] at hitem
      rcases hitem with rfl | rfl | rfl | rfl | rfl | rfl <;>
        exact aggSafe_cons rfl rfl)
  obtain ⟨hw1, hw2⟩ := h.2.1 (.sortdisplay (chars "authors"))
    (by decide) (chars "authors_sort") (by decide)
  exact ⟨rfl, hw1, hw2⟩

/-! ## `src/book/book.py`: `Book.from_args`, `_BookJSONEncoder`,
`Book.write_metadata`

The metadata file is modelled as its parsed JSON value (`read_json`
guarantees objects have no duplicate keys, and `json.dumps`/`json.loads`
round-trip a value); string text files as a map from fieldname to file
content; `datetime.strptime` and `datetime.strftime` as oracles.  JSON
values are typed (`null`, string, object, array): paths where the Python
code would pass a non-string JSON value into string-typed positions (it
then fails downstream with an uncaught builtin exception) are modelled as
immediate internal faults. -/

/-- A parsed JSON value as book metadata holds it. -/
inductive JsonV where
  /-- `null`. -/
  | null : JsonV
  /-- A string. -/
  | str (s : Str) : JsonV
  /-- An object (parsed dict: keys unique in document order). -/
  | obj (fields : List (Str × JsonV)) : JsonV
  /-- An array. -/
  | arr (items : List JsonV) : JsonV

/-- `get_metadata_fn` (`src/util/file.py` line 41-43). -/
def get_metadata_fn (dir : Str) : Str := dir ++ chars "/metadata.json"

/-- The title prefix of a string file (`src/book/book.py` lines 261-263). -/
def strTitlePrefix (display : Str) : Str :=
  chars "# Title: " ++ display ++ chars "\n#\n"

/-- `_remove_whitespace` (`src/book/book.py` lines 108-110). -/
def _remove_whitespace (text : Str) : Str :=
  pyJoin ['\n'] ((pySplit ['\n'] text).map pyStrip)

/-- One `sd_input` of `_get_sortdisplays` (`src/book/book.py` lines
214-221): a bare string, or a dict carrying `display` and `sort`. -/
def sdOfInput (v : JsonV) : Except SemError SortDisplay :=
  match v with
  | .str sort => .ok ⟨sort, sort, none⟩
  | .obj f =>
    match f.lookup (chars "display"), f.lookup (chars "sort") with
    | some (.str display), some (.str sort) => .ok ⟨sort, display, none⟩
    | _, _ => .error (.exception (chars "invalid sd_input"))
  | _ => .error (.exception (chars "invalid sd_input"))

/-- The wrapped input list of `_get_sortdisplays` (lines 206-209). -/
def sdInputsOf (v : JsonV) : List JsonV :=
  match v with
  | .null => []
  | .str s => [JsonV.str s]
  | .obj f => [JsonV.obj f]
  | .arr items => items

/-- The loop of `_get_sortdisplays` (lines 211-237): expand each input,
exiting on a duplicate sort or display. -/
def sdLoop (d_type md : Str) :
    List JsonV → List Str → List Str → Except SemError (List SortDisplay)
  | [], _, _ => .ok []
  | v :: rest, sorts, displays =>
    match sdOfInput v with
    | .error e => .error e
    | .ok sd =>
      if sd.sort ∈ sorts then
        .error (.exit (chars "ERROR: duplicate '" ++ d_type ++
          chars "' data 'sort=" ++ sd.sort ++ chars "' found in '" ++
          get_metadata_fn md ++ chars "'."))
      else if sd.display ∈ displays then
        .error (.exit (chars "ERROR: duplicate '" ++ d_type ++
          chars "' data 'display=" ++ sd.display ++ chars "' found in '" ++
          get_metadata_fn md ++ chars "'."))
      else
        match sdLoop d_type md rest (sd.sort :: sorts) (sd.display :: displays) with
        | .error e => .error e
        | .ok sds => .ok (sd :: sds)

/-- `_get_sortdisplays` (`src/book/book.py` lines 200-239): expand, check
duplicates, return sorted. -/
def _get_sortdisplays (v : JsonV) (d_type md : Str) :
    Except SemError (List SortDisplay) :=
  match sdLoop d_type md (sdInputsOf v) [] [] with
  | .error e => .error e
  | .ok sds => .ok (List.insertionSort sdLe sds)

/-- Ordering of `sorted(dict.items())` on parsed-object pairs: by key (the
keys of a parsed dict are unique, so the value tiebreak never runs). -/
def kvPairLe (a b : Str × JsonV) : Prop := strLe a.1 b.1

instance : DecidableRel kvPairLe := fun a b => by unfold kvPairLe; infer_instance

instance : IsTotal (Str × JsonV) kvPairLe :=
  ⟨fun a b => IsTotal.total (r := strLe) a.1 b.1⟩

instance : IsTrans (Str × JsonV) kvPairLe :=
  ⟨fun a b c h₁ h₂ => IsTrans.trans (r := strLe) a.1 b.1 c.1 h₁ h₂⟩

/-- The loop of `_get_keyvalues` (`src/book/book.py` lines 187-195):
null values are a reported exit. -/
def kvLoop (fieldname md : Str) :
    List (Str × JsonV) → Except SemError (List BookKeyValue)
  | [] => .ok []
  | (k, v) :: rest =>
    match v with
    | .null =>
      .error (.exit (chars "ERROR: key '" ++ k ++
        chars "' in keyvalue field '" ++ fieldname ++ chars "' in '" ++
        get_metadata_fn md ++ chars "' has a null value."))
    | .str s =>
      match kvLoop fieldname md rest with
      | .error e => .error e
      | .ok kvs => .ok (⟨k, s⟩ :: kvs)
    | _ => .error (.exception (chars "invalid keyvalue value"))

/-- `_get_keyvalues` (`src/book/book.py` lines 183-197). -/
def _get_keyvalues (v : JsonV) (fieldname md : Str) :
    Except SemError (List BookKeyValue) :=
  match v with
  | .null => .ok []
  | .obj f => kvLoop fieldname md (List.insertionSort kvPairLe f)
  | _ => .error (.exception (chars "AttributeError"))

/-- The `name` a file dict sorts by (`sorted(f_inputs, key=...)`,
`src/book/book.py` line 158). -/
def fdName (v : JsonV) : Str :=
  match v with
  | .obj f =>
    match f.lookup (chars "name") with
    | some (.str s) => s
    | _ => []
  | _ => []

/-- Sort order of file dicts: by their `name` value. -/
def fdLe (a b : JsonV) : Prop := strLe (fdName a) (fdName b)

instance : DecidableRel fdLe := fun a b => by unfold fdLe; infer_instance

instance : IsTotal JsonV fdLe :=
  ⟨fun a b => IsTotal.total (r := strLe) (fdName a) (fdName b)⟩

instance : IsTrans JsonV fdLe :=
  ⟨fun a b c h₁ h₂ => IsTrans.trans (r := strLe) (fdName a) (fdName b) (fdName c) h₁ h₂⟩

/-- The match of `_get_files` (lines 159-165): a file dict carrying
`directory`, `name` and `hash`, or just `name` and `hash` (directory
defaults to `.`). -/
def fdTriple (v : JsonV) : Option (Str × Str × Str) :=
  match v with
  | .obj f =>
    match f.lookup (chars "directory"), f.lookup (chars "name"),
        f.lookup (chars "hash") with
    | some (.str dir), some (.str nm), some (.str h) => some (dir, nm, h)
    | none, some (.str nm), some (.str h) => some (chars ".", nm, h)
    | _, _, _ => none
  | _ => none

/-- The wrapped input list of `_get_files` (lines 153-154). -/
def fileInputsOf (v : JsonV) : Option (List JsonV) :=
  match v with
  | .obj f => some [JsonV.obj f]
  | .arr items => some items
  | _ => none

/-- The loop of `_get_files` (lines 156-180): duplicate basenames exit,
each dict becomes a `BookFile`. -/
def filesLoop (bts md : Str) (dvs : List DirVar) :
    List JsonV → List Str → Except SemError (List BookFile)
  | [], _ => .ok []
  | v :: rest, basenames =>
    match fdTriple v with
    | none => .error (.exception (chars "invalid f_dict"))
    | some (dir, nm, h) =>
      if nm ∈ basenames then
        .error (.exit (chars "ERROR: duplicate file with name '" ++ nm ++
          chars "' found in '" ++ get_metadata_fn md ++ chars "'."))
      else
        match BookFile.from_args bts nm md dvs dir h with
        | .error e => .error e
        | .ok bf =>
          match filesLoop bts md dvs rest (nm :: basenames) with
          | .error e => .error e
          | .ok fls => .ok (bf :: fls)

/-- `_get_files` (`src/book/book.py` lines 146-180). -/
def _get_files (v : JsonV) (bts md : Str) (dvs : List DirVar) :
    Except SemError (List BookFile) :=
  match fileInputsOf v with
  | none => .error (.exception (chars "TypeError"))
  | some inputs => filesLoop bts md dvs (List.insertionSort fdLe inputs) []

/-- `_get_date` (`src/book/book.py` lines 141-143) together with
`BookDate.from_args`: `strptime` is the platform parser oracle, `none`
standing for an uncaught `ValueError`. -/
def _get_date (strptime : Str → Str → Option PyDatetime) (v : JsonV)
    (input_fmt : Str) : Except SemError (Option BookDate) :=
  match v with
  | .null => .ok none
  | .str s =>
    match strptime s input_fmt with
    | none => .error (.exception (chars "ValueError"))
    | some p => .ok (some ⟨p⟩)
  | _ => .error (.exception (chars "TypeError"))

/-- `_get_string` (`src/book/book.py` lines 242-258). -/
def _get_string (metadata : List (Str × JsonV)) (n : Str) (inl : Bool)
    (md title_prefix : Str) (stringFiles : List (Str × Str)) :
    Except SemError (Option Str) :=
  if inl then
    match metadata.lookup n with
    | none => .error (.exception (chars "KeyError: " ++ n))
    | some .null => .ok none
    | some (.str s) => .ok (some s)
    | some _ => .error (.exception (chars "invalid string value"))
  else
    match metadata.lookup n with
    | some _ =>
      .error (.exit (chars "ERROR: '" ++ n ++ chars "' data found in '" ++
        get_metadata_fn md ++ chars "' but field is inline: false in the schema."))
    | none =>
      match stringFiles.lookup n with
      | some content => .ok (some (removePrefix title_prefix content))
      | none => .ok none

/-- `Schema.title_fieldname` (`src/util/schema.py` lines 108-113): first
Title item's name. -/
def firstTitle : List SchemaItem → Option Str
  | [] => none
  | .title n :: _ => some n
  | _ :: rest => firstTitle rest

/-- The field loop of `Book.from_args` (lines 324-348), appending each
item's value to its per-kind map; `files` is the loop-local variable. -/
def loadFields (strptime : Str → Str → Option PyDatetime) (md : Str)
    (dvs : List DirVar) (metadata : List (Str × JsonV))
    (stringFiles : List (Str × Str)) (title : SortDisplay) :
    List SchemaItem → BookFields → Option (List BookFile) →
    Except SemError (BookFields × Option (List BookFile))
  | [], fields, files => .ok (fields, files)
  | item :: rest, fields, files =>
    match item with
    | .date n ifmt _ =>
      match metadata.lookup n with
      | none => .error (.exception (chars "KeyError: " ++ n))
      | some v =>
        match _get_date strptime v ifmt with
        | .error e => .error e
        | .ok d =>
          loadFields strptime md dvs metadata stringFiles title rest
            ⟨fields.dates ++ [(n, d)], fields.keyvalues,
             fields.sortdisplays, fields.strings⟩ files
    | .file n =>
      match metadata.lookup n with
      | none => .error (.exception (chars "KeyError: " ++ n))
      | some v =>
        match _get_files v title.sort md dvs with
        | .error e => .error e
        | .ok fls =>
          loadFields strptime md dvs metadata stringFiles title rest
            fields (some fls)
    | .keyvalue n _ _ =>
      match metadata.lookup n with
      | none => .error (.exception (chars "KeyError: " ++ n))
      | some v =>
        match _get_keyvalues v n md with
        | .error e => .error e
        | .ok kvs =>
          loadFields strptime md dvs metadata stringFiles title rest
            ⟨fields.dates, fields.keyvalues ++ [(n, kvs)],
             fields.sortdisplays, fields.strings⟩ files
    | .sortdisplay n =>
      match metadata.lookup n with
      | none => .error (.exception (chars "KeyError: " ++ n))
      | some v =>
        match _get_sortdisplays v n md with
        | .error e => .error e
        | .ok sds =>
          loadFields strptime md dvs metadata stringFiles title rest
            ⟨fields.dates, fields.keyvalues,
             fields.sortdisplays ++ [(n, sds)], fields.strings⟩ files
    | .string n inl =>
      match _get_string metadata n inl md (strTitlePrefix title.display)
          stringFiles with
      | .error e => .error e
      | .ok s =>
        loadFields strptime md dvs metadata stringFiles title rest
          ⟨fields.dates, fields.keyvalues, fields.sortdisplays,
           fields.strings ++ [(n, s)]⟩ files
    | .title _ =>
      loadFields strptime md dvs metadata stringFiles title rest fields files

/-- `Book.from_args` (`src/book/book.py` lines 312-350): `b_dir.resolve()`
is the given `metadata_dir`, `dir_vars` are sorted, the title is the first
element of the title field's sortdisplays (an empty list is an uncaught
`IndexError`), and a schema without a File item leaves `files` unbound. -/
def Book.from_args (strptime : Str → Str → Option PyDatetime)
    (metadata_dir : Str) (dir_vars : List DirVar) (schema : List SchemaItem)
    (metadata : List (Str × JsonV)) (stringFiles : List (Str × Str)) :
    Except SemError Book :=
  match firstTitle schema with
  | none => .error (.exception (chars "no title found in schema"))
  | some tf =>
    match metadata.lookup tf with
    | none => .error (.exception (chars "KeyError: " ++ tf))
    | some tv =>
      match _get_sortdisplays tv tf metadata_dir with
      | .error e => .error e
      | .ok [] => .error (.exception (chars "IndexError"))
      | .ok (title :: _) =>
        match loadFields strptime metadata_dir
            (List.insertionSort dvLe dir_vars) metadata stringFiles title
            schema ⟨[], [], [], []⟩ none with
        | .error e => .error e
        | .ok (_, none) => .error (.exception (chars "UnboundLocalError"))
        | .ok (fields, some files) =>
          .ok ⟨title, metadata_dir, fields, files⟩

/-- The encoder's rendering of one `SortDisplay` (`src/book/book.py`
lines 78-82 and 93-101): collapse to the bare string when display and
sort agree. -/
def encSd (sd : SortDisplay) : JsonV :=
  if sd.display == sd.sort then .str sd.display
  else .obj [(chars "display", .str sd.display), (chars "sort", .str sd.sort)]

/-- The encoder's rendering of one file (lines 58-65). -/
def encFile (f : BookFile) : JsonV :=
  .obj [(chars "directory", .str f.input_dir_str),
        (chars "hash", .str f.hash),
        (chars "name", .str f.basename)]

/-- `r_val[k] = v` on the encoder's dict: overwrite in place or append. -/
def dictSet (m : List (Str × JsonV)) (k : Str) (v : JsonV) :
    List (Str × JsonV) :=
  if (m.lookup k).isSome then
    m.map (fun p => if p.1 == k then (k, v) else p)
  else m ++ [(k, v)]

/-- The schema loop of `_BookJSONEncoder.default` (lines 48-101). -/
def bookJsonLoop (strftime : PyDatetime → Str → Str) (book : Book) :
    List SchemaItem → List (Str × JsonV) →
    Except SemError (List (Str × JsonV))
  | [], r_val => .ok r_val
  | item :: rest, r_val =>
    match item with
    | .date n ifmt _ =>
      match book.fields.dates.lookup n with
      | none => .error (.exception (chars "KeyError: " ++ n))
      | some none => bookJsonLoop strftime book rest (dictSet r_val n .null)
      | some (some d) =>
        bookJsonLoop strftime book rest
          (dictSet r_val n (.str (BookDate.as_str (strftime d._datetime) ifmt)))
    | .file n =>
      bookJsonLoop strftime book rest
        (dictSet r_val n
          (match book.files.map encFile with
           | [fv] => fv
           | fvs => .arr fvs))
    | .keyvalue n _ _ =>
      match book.fields.keyvalues.lookup n with
      | none => .error (.exception (chars "KeyError: " ++ n))
      | some [] => bookJsonLoop strftime book rest (dictSet r_val n .null)
      | some kvs =>
        bookJsonLoop strftime book rest
          (dictSet r_val n (.obj (kvs.map (fun kv => (kv.key, .str kv.value)))))
    | .sortdisplay n =>
      match book.fields.sortdisplays.lookup n with
      | none => .error (.exception (chars "KeyError: " ++ n))
      | some sds =>
        bookJsonLoop strftime book rest
          (dictSet r_val n
            (match sds.map encSd with
             | [] => .null
             | [sv] => sv
             | svs => .arr svs))
    | .string n inl =>
      if inl then
        match book.fields.strings.lookup n with
        | none => .error (.exception (chars "KeyError: " ++ n))
        | some none => bookJsonLoop strftime book rest (dictSet r_val n .null)
        | some (some s) =>
          bookJsonLoop strftime book rest (dictSet r_val n (.str s))
      else bookJsonLoop strftime book rest r_val
    | .title n =>
      bookJsonLoop strftime book rest (dictSet r_val n (encSd book.title))

/-- The non-inline string files `write_metadata` writes (lines 298-309):
`write_text` strips trailing newlines and appends one. -/
def stringOuts (book : Book) : List SchemaItem →
    Except SemError (List (Str × Str))
  | [] => .ok []
  | item :: rest =>
    match item with
    | .string n false =>
      match book.fields.strings.lookup n with
      | none => .error (.exception (chars "KeyError: " ++ n))
      | some none => stringOuts book rest
      | some (some s) =>
        match stringOuts book rest with
        | .error e => .error e
        | .ok outs =>
          .ok ((n, rstripNl (strTitlePrefix book.title.display ++
            _remove_whitespace s) ++ ['\n']) :: outs)
    | _ => stringOuts book rest

/-- `Book.write_metadata` (`src/book/book.py` lines 280-310) with
`replace_unicode=False`: the metadata JSON value (keys sorted, as both the
encoder and `json.dumps(sort_keys=True)` leave them) and the written
string files. -/
def Book.write_metadata (strftime : PyDatetime → Str → Str) (book : Book)
    (schema : List SchemaItem) :
    Except SemError (List (Str × JsonV) × List (Str × Str)) :=
  match bookJsonLoop strftime book schema [] with
  | .error e => .error e
  | .ok r_val =>
    match stringOuts book schema with
    | .error e => .error e
    | .ok souts => .ok (List.insertionSort kvPairLe r_val, souts)

/-- Load, write back unchanged, reload (the round-trip of the spec). -/
def writeReload (strptime : Str → Str → Option PyDatetime)
    (strftime : PyDatetime → Str → Str) (metadata_dir : Str)
    (dir_vars : List DirVar) (schema : List SchemaItem)
    (metadata : List (Str × JsonV)) (stringFiles : List (Str × Str)) :
    Except SemError Book :=
  match Book.from_args strptime metadata_dir dir_vars schema metadata
      stringFiles with
  | .error e => .error e
  | .ok book =>
    match Book.write_metadata strftime book schema with
    | .error e => .error e
    | .ok (md2, sf2) =>
      Book.from_args strptime metadata_dir dir_vars schema md2 sf2

/-- A three-field schema: title, files, and one non-inline string. -/
def rtSchema : List SchemaItem :=
  [.title (chars "title"), .file (chars "files"),
   .string (chars "description") false]

/-- Metadata of the counterexample book. -/
def rtMetadata : List (Str × JsonV) :=
  [(chars "title", .str (chars "T")),
   (chars "files", .obj [(chars "directory", .str (chars ".")),
     (chars "hash", .str (chars "h1")),
     (chars "name", .str (chars "b.epub"))])]

/-- The single attached file of the counterexample book. -/
def rtFile : BookFile :=
  ⟨chars "T", chars "b.epub", chars "/lib/b", [], chars ".", chars "h1",
   chars "/lib/b/b.epub"⟩

/-- The counterexample book as loaded: its non-inline string is the raw
file text ` x` (leading space, no trailing newline). -/
def rtBook : Book :=
  ⟨⟨chars "T", chars "T", none⟩, chars "/lib/b",
   ⟨[], [], [], [(chars "description", some (chars " x"))]⟩, [rtFile]⟩

/-- The same book after one write/reload cycle: the string came back as
`x\n` — whitespace-normalized and newline-terminated. -/
def rtBook2 : Book :=
  ⟨⟨chars "T", chars "T", none⟩, chars "/lib/b",
   ⟨[], [], [], [(chars "description", some (chars "x\n"))]⟩, [rtFile]⟩

/-- The round-trip claim is false as stated: a Document whose non-inline
string file is not in written normal form (here ` x`) loads fine, but
writing it back unchanged and reloading yields a different Document (the
string reloads as `x\n`). -/
theorem book_roundtrip_counterexample :
    Book.from_args (fun _ _ => none) (chars "/lib/b") [] rtSchema
      rtMetadata [(chars "description", chars " x")] = .ok rtBook ∧
    writeReload (fun _ _ => none) (fun _ _ => []) (chars "/lib/b") []
      rtSchema rtMetadata [(chars "description", chars " x")] =
        .ok rtBook2 ∧
    rtBook2 ≠ rtBook := by
  refine ⟨by decide, by decide, by decide⟩

theorem lookup_none_of_not_mem_keys {κ β : Type} [BEq κ] [LawfulBEq κ] :
    ∀ {l : List (κ × β)} {k : κ},
      k ∉ l.map (fun p => p.1) → l.lookup k = none
  | [], _, _ => rfl
  | (k', v') :: rest, k, h => by
    rw [List.lookup]
    rcases hk : k == k' with _ | _
    · exact lookup_none_of_not_mem_keys (fun hm => h (List.mem_cons_of_mem _ hm))
    · exfalso
      apply h
      rw [List.map_cons, eq_of_beq hk]
      exact List.mem_cons_self _ _

theorem lookup_perm_eq {κ β : Type} [BEq κ] [LawfulBEq κ]
    {l l' : List (κ × β)} (hp : l.Perm l')
    (hnd : (l.map (fun p => p.1)).Nodup) (k : κ) :
    l'.lookup k = l.lookup k := by
  rcases hl : l.lookup k with _ | v
  · refine lookup_none_of_not_mem_keys ?_
    intro hm
    obtain ⟨p, hp', he⟩ := List.mem_map.1 hm
    have : (k, p.2) ∈ l := by
      have := hp.symm.subset hp'
      rwa [show p = (k, p.2) from Prod.ext he rfl] at this
    exact absurd (lookup_ne_none_of_mem this) (by rw [hl]; simp)
  · exact lookup_of_mem_nodup (hp.subset (lookup_some_mem hl))
      ((hp.map (fun p => p.1)).nodup_iff.1 hnd)

theorem filterMap_keys_nodup {α β : Type} {name : α → Str}
    {g : α → Option (Str × β)}
    (hg : ∀ a p, g a = some p → p.1 = name a) :
    ∀ {l : List α}, (l.map name).Nodup →
      ((l.filterMap g).map (fun p => p.1)).Nodup
  | [], _ => by simp
  | a :: rest, hnd => by
    rw [List.map_cons, List.nodup_cons] at hnd
    rw [List.filterMap_cons]
    rcases hga : g a with _ | p
    · exact filterMap_keys_nodup hg hnd.2
    · rw [List.map_cons, List.nodup_cons]
      refine ⟨?_, filterMap_keys_nodup hg hnd.2⟩
      intro hm
      obtain ⟨q, hq, he⟩ := List.mem_map.1 hm
      obtain ⟨b, hb, hgb⟩ := List.mem_filterMap.1 hq
      apply hnd.1
      rw [← hg a p hga, ← he, hg b q hgb]
      exact List.mem_map_of_mem _ hb

theorem filterMap_lookup {α β : Type} {name : α → Str}
    {g : α → Option (Str × β)}
    (hg : ∀ a p, g a = some p → p.1 = name a) :
    ∀ {l : List α} {a : α} {p : Str × β},
      (l.map name).Nodup → a ∈ l → g a = some p →
      (l.filterMap g).lookup p.1 = some p.2
  | [], _, _, _, hmem, _ => by cases hmem
  | b :: rest, a, p, hnd, hmem, hga => by
    rw [List.map_cons, List.nodup_cons] at hnd
    rw [List.filterMap_cons]
    rcases List.mem_cons.1 hmem with rfl | hmem'
    · rw [hga, List.lookup]
      rw [show (p.1 == p.1) = true by simp]
    · rcases hgb : g b with _ | q
      · exact filterMap_lookup hg hnd.2 hmem' hga
      · rw [List.lookup]
        rcases hk : p.1 == q.1 with _ | _
        · exact filterMap_lookup hg hnd.2 hmem' hga
        · exfalso
          apply hnd.1
          rw [← hg b q hgb, ← eq_of_beq hk, hg a p hga]
          exact List.mem_map_of_mem _ hmem'

theorem sdLoop_ok :
    ∀ {d m : Str} {inputs : List JsonV} {sorts displays : List Str}
      {sds : List SortDisplay},
      sdLoop d m inputs sorts displays = .ok sds →
      (∀ sd ∈ sds, sd._key = none ∧ sd.sort ∉ sorts ∧ sd.display ∉ displays) ∧
      (sds.map SortDisplay.sort).Nodup ∧
      (sds.map SortDisplay.display).Nodup
  | _, _, [], _, _, _, h => by
    rw [sdLoop] at h
    injection h with h
    subst h
    exact ⟨by simp, by simp, by simp⟩
  | d, m, v :: rest, sorts, displays, sds, h => by
    rw [sdLoop] at h
    split at h
    · cases h
    · rename_i sd hsd
      split at h
      · cases h
      · rename_i hsort
        split at h
        · cases h
        · rename_i hdisp
          split at h
          · cases h
          · rename_i sds' hrest
            injection h with h
            subst h
            obtain ⟨hmem, hnds, hndd⟩ := sdLoop_ok hrest
            have hkey : sd._key = none := by
              rcases v with _ | s | f | items <;>
                simp only [sdOfInput] at hsd
              · cases hsd
              · injection hsd with hsd
                subst hsd
                rfl
              · split at hsd
                · injection hsd with hsd
                  subst hsd
                  rfl
                · cases hsd
              · cases hsd
            refine ⟨?_, ?_, ?_⟩
            · intro x hx
              rcases List.mem_cons.1 hx with rfl | hx'
              · exact ⟨hkey, hsort, hdisp⟩
              · obtain ⟨hk, hs, hd⟩ := hmem x hx'
                exact ⟨hk, fun hc => hs (List.mem_cons_of_mem _ hc),
                  fun hc => hd (List.mem_cons_of_mem _ hc)⟩
            · rw [List.map_cons, List.nodup_cons]
              refine ⟨?_, hnds⟩
              intro hc
              obtain ⟨x, hx, he⟩ := List.mem_map.1 hc
              exact (hmem x hx).2.1 (by rw [he]; exact List.mem_cons_self _ _)
            · rw [List.map_cons, List.nodup_cons]
              refine ⟨?_, hndd⟩
              intro hc
              obtain ⟨x, hx, he⟩ := List.mem_map.1 hc
              exact (hmem x hx).2.2 (by rw [he]; exact List.mem_cons_self _ _)

theorem sdOfInput_encSd {sd : SortDisplay} (hk : sd._key = none) :
    sdOfInput (encSd sd) = .ok sd := by
  rcases sd with ⟨s, d, k⟩
  simp only at hk
  subst hk
  show sdOfInput (if d == s then .str d
    else .obj [(chars "display", .str d), (chars "sort", .str s)]) =
      .ok ⟨s, d, none⟩
  rcases hds : d == s with _ | _
  · rw [if_neg (by simp)]
    rfl
  · rw [if_pos (by simp)]
    have he : d = s := eq_of_beq hds
    subst he
    rfl

/-- Either rendering of a `SortDisplay` is a bare string or an object. -/
theorem encSd_shape (sd : SortDisplay) :
    (∃ s, encSd sd = .str s) ∨ ∃ f, encSd sd = .obj f := by
  rw [encSd]
  by_cases h : (sd.display == sd.sort) = true
  · exact Or.inl ⟨sd.display, if_pos h⟩
  · exact Or.inr ⟨_, if_neg h⟩

theorem sdLoop_enc :
    ∀ {d m : Str} {sds : List SortDisplay} {sorts displays : List Str},
      (∀ sd ∈ sds, sd._key = none ∧ sd.sort ∉ sorts ∧ sd.display ∉ displays) →
      (sds.map SortDisplay.sort).Nodup →
      (sds.map SortDisplay.display).Nodup →
      sdLoop d m (sds.map encSd) sorts displays = .ok sds
  | _, _, [], _, _, _, _, _ => rfl
  | d, m, sd :: rest, sorts, displays, hmem, hnds, hndd => by
    rw [List.map_cons, List.nodup_cons] at hnds hndd
    have hrest : ∀ x ∈ rest, x._key = none ∧
        x.sort ∉ sd.sort :: sorts ∧ x.display ∉ sd.display :: displays := by
      intro x hx
      obtain ⟨hk, hs, hd⟩ := hmem x (List.mem_cons_of_mem _ hx)
      refine ⟨hk, ?_, ?_⟩
      · intro hc
        rcases List.mem_cons.1 hc with he | hc'
        · exact hnds.1 (by rw [← he]; exact List.mem_map_of_mem _ hx)
        · exact hs hc'
      · intro hc
        rcases List.mem_cons.1 hc with he | hc'
        · exact hndd.1 (by rw [← he]; exact List.mem_map_of_mem _ hx)
        · exact hd hc'
    rw [List.map_cons, sdLoop]
    simp only [sdOfInput_encSd (hmem sd (List.mem_cons_self _ _)).1]
    rw [if_neg (hmem sd (List.mem_cons_self _ _)).2.1,
      if_neg (hmem sd (List.mem_cons_self _ _)).2.2]
    simp only [sdLoop_enc hrest hnds.2 hndd.2]

/-- The encoder's value for a sortdisplay list (singleton collapse,
`null` for empty). -/
def encSdsVal (sds : List SortDisplay) : JsonV :=
  match sds.map encSd with
  | [] => .null
  | [sv] => sv
  | svs => .arr svs

theorem _get_sortdisplays_enc {sds : List SortDisplay} {d m : Str}
    (hk : ∀ sd ∈ sds, sd._key = none)
    (hnds : (sds.map SortDisplay.sort).Nodup)
    (hndd : (sds.map SortDisplay.display).Nodup)
    (hsorted : List.Sorted sdLe sds) :
    _get_sortdisplays (encSdsVal sds) d m = .ok sds := by
  have hloop : sdLoop d m (sds.map encSd) [] [] = .ok sds :=
    sdLoop_enc (fun sd hsd => ⟨hk sd hsd, by simp, by simp⟩) hnds hndd
  have hinputs : sdInputsOf (encSdsVal sds) = sds.map encSd := by
    rw [encSdsVal]
    rcases sds with _ | ⟨sd, rest⟩
    · rfl
    · rcases rest with _ | ⟨sd2, rest2⟩
      · rw [List.map_cons, List.map_nil]
        rcases encSd_shape sd with ⟨x, he⟩ | ⟨f, he⟩ <;> rw [he] <;> rfl
      · rfl
  rw [_get_sortdisplays, hinputs, hloop]
  simp only [List.Sorted.insertionSort_eq hsorted]

theorem _get_sortdisplays_ok_props {v : JsonV} {d m : Str}
    {sds : List SortDisplay}
    (h : _get_sortdisplays v d m = .ok sds) :
    (∀ sd ∈ sds, sd._key = none) ∧
    (sds.map SortDisplay.sort).Nodup ∧
    (sds.map SortDisplay.display).Nodup ∧
    List.Sorted sdLe sds := by
  rw [_get_sortdisplays] at h
  split at h
  · cases h
  · rename_i raw hraw
    injection h with h
    subst h
    obtain ⟨hmem, hnds, hndd⟩ := sdLoop_ok hraw
    have hperm : (List.insertionSort sdLe raw).Perm raw :=
      List.perm_insertionSort sdLe raw
    refine ⟨?_, ?_, ?_, List.sorted_insertionSort sdLe raw⟩
    · intro sd hsd
      exact (hmem sd (hperm.subset hsd)).1
    · exact (hperm.map SortDisplay.sort).nodup_iff.2 hnds
    · exact (hperm.map SortDisplay.display).nodup_iff.2 hndd

theorem kvLoop_src :
    ∀ {f m : Str} {l : List (Str × JsonV)} {kvs : List BookKeyValue},
      kvLoop f m l = .ok kvs →
      l = kvs.map (fun kv => (kv.key, JsonV.str kv.value))
  | _, _, [], kvs, h => by
    rw [kvLoop] at h
    injection h with h
    subst h
    rfl
  | f, m, (k, v) :: rest, kvs, h => by
    rcases v with _ | sv | fv | iv
    · simp [kvLoop] at h
    · simp only [kvLoop] at h
      split at h
      · cases h
      · rename_i kvs' hrest
        injection h with h
        subst h
        rw [List.map_cons, ← kvLoop_src hrest]
    · simp [kvLoop] at h
    · simp [kvLoop] at h

theorem kvLoop_enc :
    ∀ {f m : Str} (kvs : List BookKeyValue),
      kvLoop f m (kvs.map (fun kv => (kv.key, JsonV.str kv.value))) = .ok kvs
  | _, _, [] => rfl
  | f, m, kv :: rest => by
    rw [List.map_cons, kvLoop]
    simp only [kvLoop_enc rest]

/-- The encoder's value for a keyvalue list (`null` when empty). -/
def encKvVal (kvs : List BookKeyValue) : JsonV :=
  match kvs with
  | [] => .null
  | _ => .obj (kvs.map (fun kv => (kv.key, .str kv.value)))

theorem _get_keyvalues_ok_sorted {v : JsonV} {n m : Str}
    {kvs : List BookKeyValue} (h : _get_keyvalues v n m = .ok kvs) :
    List.Sorted kvPairLe (kvs.map (fun kv => (kv.key, JsonV.str kv.value))) := by
  rcases v with _ | sv | f | iv
  · rw [_get_keyvalues] at h
    injection h with h
    subst h
    simp
  · simp [_get_keyvalues] at h
  · rw [_get_keyvalues] at h
    rw [← kvLoop_src h]
    exact List.sorted_insertionSort kvPairLe f
  · simp [_get_keyvalues] at h

theorem _get_keyvalues_enc {kvs : List BookKeyValue} {n m : Str}
    (hsorted : List.Sorted kvPairLe
      (kvs.map (fun kv => (kv.key, JsonV.str kv.value)))) :
    _get_keyvalues (encKvVal kvs) n m = .ok kvs := by
  rcases kvs with _ | ⟨kv, rest⟩
  · rfl
  · show _get_keyvalues (.obj ((kv :: rest).map (fun kv => (kv.key, .str kv.value)))) n m = _
    rw [_get_keyvalues]
    rw [List.Sorted.insertionSort_eq hsorted]
    exact kvLoop_enc (kv :: rest)

theorem BookFile.from_args_fields {bts nm md dir h : Str}
    {dvs : List DirVar} {bf : BookFile}
    (hok : BookFile.from_args bts nm md dvs dir h = .ok bf) :
    bf.book_title_sort = bts ∧ bf.basename = nm ∧ bf.metadata_dir = md ∧
    bf.dir_vars = dvs ∧ bf.input_dir_str = dir ∧ bf.hash = h := by
  rw [BookFile.from_args] at hok
  split at hok
  · cases hok
  · cases hok
  · injection hok with hok
    subst hok
    exact ⟨rfl, rfl, rfl, rfl, rfl, rfl⟩

theorem fdTriple_name {v : JsonV} {dir nm h : Str}
    (ht : fdTriple v = some (dir, nm, h)) : fdName v = nm := by
  rcases v with _ | s | f | items
  · simp [fdTriple] at ht
  · simp [fdTriple] at ht
  · rw [fdTriple] at ht
    rw [fdName]
    split at ht
    · rename_i d1 n1 h1 hd hn hh
      rw [hn]
      injection ht with ht
      rw [Prod.ext_iff] at ht
      rw [Prod.ext_iff] at ht
      exact ht.2.1
    · rename_i n1 h1 hd hn hh
      rw [hn]
      injection ht with ht
      rw [Prod.ext_iff] at ht
      rw [Prod.ext_iff] at ht
      exact ht.2.1
    · cases ht
  · simp [fdTriple] at ht

theorem fdTriple_encFile (bf : BookFile) :
    fdTriple (encFile bf) = some (bf.input_dir_str, bf.basename, bf.hash) := rfl

theorem fdName_encFile (bf : BookFile) :
    fdName (encFile bf) = bf.basename := rfl

theorem filesLoop_ok :
    ∀ {bts md : Str} {dvs : List DirVar} {inputs : List JsonV}
      {basenames : List Str} {fls : List BookFile},
      filesLoop bts md dvs inputs basenames = .ok fls →
      fls.map BookFile.basename = inputs.map fdName ∧
      (∀ bf ∈ fls, BookFile.from_args bts bf.basename md dvs
        bf.input_dir_str bf.hash = .ok bf) ∧
      (∀ bf ∈ fls, bf.basename ∉ basenames) ∧
      (fls.map BookFile.basename).Nodup
  | _, _, _, [], _, fls, h => by
    rw [filesLoop] at h
    injection h with h
    subst h
    exact ⟨rfl, by simp, by simp, by simp⟩
  | bts, md, dvs, v :: rest, basenames, fls, h => by
    rw [filesLoop] at h
    split at h
    · cases h
    · rename_i dir nm hsh htrip
      split at h
      · cases h
      · rename_i hdup
        split at h
        · cases h
        · rename_i bf hbf
          split at h
          · cases h
          · rename_i fls' hrest
            injection h with h
            subst h
            obtain ⟨hbts, hnm, hmd, hdv, hdir, hhsh⟩ :=
              BookFile.from_args_fields hbf
            obtain ⟨hnames, hfix, hnotin, hnd⟩ := filesLoop_ok hrest
            refine ⟨?_, ?_, ?_, ?_⟩
            · rw [List.map_cons, List.map_cons, hnames, hnm,
                fdTriple_name htrip]
            · intro x hx
              rcases List.mem_cons.1 hx with rfl | hx'
              · rw [hnm, hdir, hhsh]
                exact hbf
              · exact hfix x hx'
            · intro x hx
              rcases List.mem_cons.1 hx with rfl | hx'
              · rw [hnm]
                exact hdup
              · exact fun hc => hnotin x hx' (List.mem_cons_of_mem _ hc)
            · rw [List.map_cons, List.nodup_cons]
              refine ⟨?_, hnd⟩
              intro hc
              obtain ⟨x, hx, he⟩ := List.mem_map.1 hc
              exact hnotin x hx (by rw [he, hnm]; exact List.mem_cons_self _ _)

theorem filesLoop_enc :
    ∀ {bts md : Str} {dvs : List DirVar} {fls : List BookFile}
      {basenames : List Str},
      (∀ bf ∈ fls, BookFile.from_args bts bf.basename md dvs
        bf.input_dir_str bf.hash = .ok bf) →
      (fls.map BookFile.basename).Nodup →
      (∀ bf ∈ fls, bf.basename ∉ basenames) →
      filesLoop bts md dvs (fls.map encFile) basenames = .ok fls
  | _, _, _, [], _, _, _, _ => rfl
  | bts, md, dvs, bf :: rest, basenames, hfix, hnd, hdisj => by
    rw [List.map_cons, List.nodup_cons] at hnd
    have hrest : filesLoop bts md dvs (rest.map encFile)
        (bf.basename :: basenames) = .ok rest := by
      refine filesLoop_enc (fun x hx => hfix x (List.mem_cons_of_mem _ hx))
        hnd.2 ?_
      intro x hx hc
      rcases List.mem_cons.1 hc with he | hc'
      · exact hnd.1 (by rw [← he]; exact List.mem_map_of_mem _ hx)
      · exact hdisj x (List.mem_cons_of_mem _ hx) hc'
    show (match fdTriple (encFile bf) with
      | none => Except.error (SemError.exception (chars "invalid f_dict"))
      | some (dir, nm, h) =>
        if nm ∈ basenames then
          Except.error (SemError.exit (chars "ERROR: duplicate file with name '" ++
            nm ++ chars "' found in '" ++ get_metadata_fn md ++ chars "'."))
        else
          match BookFile.from_args bts nm md dvs dir h with
          | .error e => .error e
          | .ok bf =>
            match filesLoop bts md dvs (rest.map encFile)
                (nm :: basenames) with
            | .error e => .error e
            | .ok fls => .ok (bf :: fls)) = .ok (bf :: rest)
    rw [fdTriple_encFile]
    simp only
    rw [if_neg (hdisj bf (List.mem_cons_self _ _))]
    rw [hfix bf (List.mem_cons_self _ _)]
    simp only [hrest]

/-- The encoder's value for the file list (singleton collapse). -/
def encFilesVal (fls : List BookFile) : JsonV :=
  match fls.map encFile with
  | [fv] => fv
  | fvs => .arr fvs

theorem _get_files_ok_props {v : JsonV} {bts md : Str} {dvs : List DirVar}
    {fls : List BookFile} (h : _get_files v bts md dvs = .ok fls) :
    (∀ bf ∈ fls, BookFile.from_args bts bf.basename md dvs
      bf.input_dir_str bf.hash = .ok bf) ∧
    (fls.map BookFile.basename).Nodup ∧
    List.Sorted strLe (fls.map BookFile.basename) := by
  rw [_get_files] at h
  split at h
  · cases h
  · rename_i inputs hin
    obtain ⟨hnames, hfix, -, hnd⟩ := filesLoop_ok h
    refine ⟨hfix, hnd, ?_⟩
    rw [hnames]
    have hs : List.Sorted fdLe (List.insertionSort fdLe inputs) :=
      List.sorted_insertionSort fdLe inputs
    rw [List.Sorted, List.pairwise_map]
    exact hs

theorem _get_files_enc {fls : List BookFile} {bts md : Str}
    {dvs : List DirVar}
    (hfix : ∀ bf ∈ fls, BookFile.from_args bts bf.basename md dvs
      bf.input_dir_str bf.hash = .ok bf)
    (hnd : (fls.map BookFile.basename).Nodup)
    (hsorted : List.Sorted strLe (fls.map BookFile.basename)) :
    _get_files (encFilesVal fls) bts md dvs = .ok fls := by
  have hsfd : List.Sorted fdLe (fls.map encFile) := by
    rw [List.Sorted, List.pairwise_map]
    rw [List.Sorted, List.pairwise_map] at hsorted
    refine hsorted.imp ?_
    intro a b hab
    rw [fdLe, fdName_encFile, fdName_encFile]
    exact hab
  have hloop := filesLoop_enc hfix hnd (fun bf _ => List.not_mem_nil _)
  rw [encFilesVal]
  rcases hfl : fls.map encFile with _ | ⟨fv, fvs⟩
  · have hfls : fls = [] := List.map_eq_nil_iff.1 hfl
    subst hfls
    rfl
  · rcases fvs with _ | ⟨fv2, fvs2⟩
    · rcases fls with _ | ⟨bf, rest⟩
      · cases hfl
      · rcases rest with _ | ⟨bf2, rest2⟩
        · rw [List.map_cons, List.map_nil] at hfl
          injection hfl with hfv htl
          show _get_files fv bts md dvs = Except.ok [bf]
          rw [← hfv]
          exact hloop
        · rw [List.map_cons, List.map_cons] at hfl
          injection hfl with heq1 hfl
          cases hfl
    · show _get_files (.arr (fv :: fv2 :: fvs2)) bts md dvs = Except.ok fls
      rw [← hfl]
      show filesLoop bts md dvs
        (List.insertionSort fdLe (fls.map encFile)) [] = Except.ok fls
      rw [List.Sorted.insertionSort_eq hsfd]
      exact hloop


theorem lookup_isSome_of_mem_keys {κ β : Type} [BEq κ] [LawfulBEq κ]
    {l : List (κ × β)} {k : κ} (h : k ∈ l.map (fun p => p.1)) :
    (l.lookup k).isSome = true := by
  obtain ⟨p, hp, he⟩ := List.mem_map.1 h
  have hm : (k, p.2) ∈ l := by
    rwa [show p = (k, p.2) from Prod.ext he rfl] at hp
  rcases hl : l.lookup k with _ | v
  · exact absurd hl (lookup_ne_none_of_mem hm)
  · rfl

theorem assoc_reconstruct {β : Type} :
    ∀ {l : List (Str × β)}, (l.map (fun p => p.1)).Nodup →
      l = (l.map (fun p => p.1)).filterMap
        (fun n => (l.lookup n).map (fun v => (n, v)))
  | [], _ => rfl
  | (n, v) :: rest, hnd => by
    rw [List.map_cons, List.nodup_cons] at hnd
    rw [List.map_cons, List.filterMap_cons]
    rw [show List.lookup n ((n, v) :: rest) = some v by
      rw [List.lookup]; rw [show (n == n) = true by simp]]
    simp only [Option.map_some]
    refine congrArg (List.cons (n, v)) ?_
    have hcongr : (rest.map (fun p => p.1)).filterMap
        (fun k => (((n, v) :: rest).lookup k).map (fun w => (k, w))) =
        (rest.map (fun p => p.1)).filterMap
        (fun k => (rest.lookup k).map (fun w => (k, w))) := by
      refine List.filterMap_congr ?_
      intro k hk
      rw [List.lookup]
      rcases hkn : k == n with _ | _
      · rfl
      · exact absurd (by rw [← eq_of_beq hkn]; exact hk) hnd.1
    rw [hcongr]
    exact assoc_reconstruct hnd.2

/-- The name of a Date item, if any. -/
def dateNameOf : SchemaItem → Option Str
  | .date n _ _ => some n
  | _ => none

/-- The name of a KeyValue item, if any. -/
def kvNameOf : SchemaItem → Option Str
  | .keyvalue n _ _ => some n
  | _ => none

/-- The name of a SortDisplay item, if any. -/
def sdNameOf : SchemaItem → Option Str
  | .sortdisplay n => some n
  | _ => none

/-- The name of a String item (inline or not), if any. -/
def strNameOf : SchemaItem → Option Str
  | .string n _ => some n
  | _ => none

/-- Whether an item is the File item. -/
def isFileItem : SchemaItem → Bool
  | .file _ => true
  | _ => false

/-- The metadata entry `_BookJSONEncoder.default` produces for one schema
item (`none` both for non-inline strings, which are not written, and for
the `KeyError` cases). -/
def encEntry (strftime : PyDatetime → Str → Str) (book : Book) :
    SchemaItem → Option (Str × JsonV)
  | .date n ifmt _ =>
    match book.fields.dates.lookup n with
    | none => none
    | some none => some (n, .null)
    | some (some d) =>
      some (n, .str (BookDate.as_str (strftime d._datetime) ifmt))
  | .file n => some (n, encFilesVal book.files)
  | .keyvalue n _ _ =>
    match book.fields.keyvalues.lookup n with
    | none => none
    | some kvs => some (n, encKvVal kvs)
  | .sortdisplay n =>
    match book.fields.sortdisplays.lookup n with
    | none => none
    | some sds => some (n, encSdsVal sds)
  | .string n true =>
    match book.fields.strings.lookup n with
    | none => none
    | some none => some (n, .null)
    | some (some s) => some (n, .str s)
  | .string _ false => none
  | .title n => some (n, encSd book.title)

/-- The string file `write_metadata` writes for one schema item. -/
def strOutEntry (book : Book) : SchemaItem → Option (Str × Str)
  | .string n false =>
    match book.fields.strings.lookup n with
    | some (some s) =>
      some (n, rstripNl (strTitlePrefix book.title.display ++
        _remove_whitespace s) ++ ['\n'])
    | _ => none
  | _ => none

/-- The encoder's field lookups all succeed for this item. -/
def lookupOk (book : Book) : SchemaItem → Prop
  | .date n _ _ => (book.fields.dates.lookup n).isSome = true
  | .keyvalue n _ _ => (book.fields.keyvalues.lookup n).isSome = true
  | .sortdisplay n => (book.fields.sortdisplays.lookup n).isSome = true
  | .string n _ => (book.fields.strings.lookup n).isSome = true
  | _ => True

theorem encEntry_name {strftime : PyDatetime → Str → Str} {book : Book} :
    ∀ {item : SchemaItem} {p : Str × JsonV},
      encEntry strftime book item = some p → p.1 = item.name := by
  intro item p h
  rcases item with ⟨n, i, o⟩ | n | ⟨n, kl, vl⟩ | n | ⟨n, _ | _⟩ | n
  · rw [show encEntry strftime book (.date n i o) =
        (match book.fields.dates.lookup n with
         | none => none
         | some none => some (n, JsonV.null)
         | some (some d) =>
           some (n, .str (BookDate.as_str (strftime d._datetime) i)))
        from rfl] at h
    split at h
    · cases h
    · injection h with h
      subst h
      rfl
    · injection h with h
      subst h
      rfl
  · injection h with h
    subst h
    rfl
  · rw [show encEntry strftime book (.keyvalue n kl vl) =
        (match book.fields.keyvalues.lookup n with
         | none => none
         | some kvs => some (n, encKvVal kvs)) from rfl] at h
    split at h
    · cases h
    · injection h with h
      subst h
      rfl
  · rw [show encEntry strftime book (.sortdisplay n) =
        (match book.fields.sortdisplays.lookup n with
         | none => none
         | some sds => some (n, encSdsVal sds)) from rfl] at h
    split at h
    · cases h
    · injection h with h
      subst h
      rfl
  · exact Option.noConfusion h
  · rw [show encEntry strftime book (.string n true) =
        (match book.fields.strings.lookup n with
         | none => none
         | some none => some (n, JsonV.null)
         | some (some s) => some (n, .str s)) from rfl] at h
    split at h
    · cases h
    · injection h with h
      subst h
      rfl
    · injection h with h
      subst h
      rfl
  · injection h with h
    subst h
    rfl

theorem strOutEntry_name {book : Book} :
    ∀ {item : SchemaItem} {p : Str × Str},
      strOutEntry book item = some p → p.1 = item.name := by
  intro item p h
  rcases item with ⟨n, i, o⟩ | n | ⟨n, kl, vl⟩ | n | ⟨n, _ | _⟩ | n
  · exact Option.noConfusion h
  · exact Option.noConfusion h
  · exact Option.noConfusion h
  · exact Option.noConfusion h
  · rw [show strOutEntry book (.string n false) =
        (match book.fields.strings.lookup n with
         | some (some s) =>
           some (n, rstripNl (strTitlePrefix book.title.display ++
             _remove_whitespace s) ++ ['\n'])
         | _ => none) from rfl] at h
    split at h
    · injection h with h
      subst h
      rfl
    · cases h
  · exact Option.noConfusion h
  · exact Option.noConfusion h

theorem dictSet_append {m : List (Str × JsonV)} {k : Str} {v : JsonV}
    (h : k ∉ m.map (fun p => p.1)) : dictSet m k v = m ++ [(k, v)] := by
  rw [dictSet, lookup_none_of_not_mem_keys h]
  rfl

theorem bookJsonLoop_spec {strftime : PyDatetime → Str → Str} {book : Book} :
    ∀ {items : List SchemaItem} {r0 : List (Str × JsonV)},
      (∀ item ∈ items, lookupOk book item) →
      (∀ item ∈ items, SchemaItem.name item ∉ r0.map (fun p => p.1)) →
      (items.map SchemaItem.name).Nodup →
      bookJsonLoop strftime book items r0 =
        .ok (r0 ++ items.filterMap (encEntry strftime book))
  | [], r0, _, _, _ => by
    rw [bookJsonLoop, List.filterMap_nil, List.append_nil]
  | item :: rest, r0, hlk, hdisj, hnd => by
    rw [List.map_cons, List.nodup_cons] at hnd
    have hdisj' : ∀ it ∈ rest, ∀ (q : Str × JsonV),
        encEntry strftime book item = some q →
        SchemaItem.name it ∉ (r0 ++ [q]).map (fun p => p.1) := by
      intro it hit q hq hc
      rw [List.map_append] at hc
      rcases List.mem_append.1 hc with hc' | hc'
      · exact hdisj it (List.mem_cons_of_mem _ hit) hc'
      · rw [List.map_cons, List.map_nil, List.mem_singleton] at hc'
        rw [encEntry_name hq] at hc'
        exact hnd.1 (by rw [← hc']; exact List.mem_map_of_mem _ hit)
    have hrec : ∀ (q : Str × JsonV), encEntry strftime book item = some q →
        bookJsonLoop strftime book rest (r0 ++ [q]) =
          .ok ((r0 ++ [q]) ++ rest.filterMap (encEntry strftime book)) :=
      fun q hq => bookJsonLoop_spec
        (fun it hit => hlk it (List.mem_cons_of_mem _ hit))
        (fun it hit => hdisj' it hit q hq) hnd.2
    have hset : ∀ (vv : JsonV), dictSet r0 item.name vv = r0 ++ [(item.name, vv)] :=
      fun vv => dictSet_append (hdisj item (List.mem_cons_self _ _))
    have hstep : ∀ (vv : JsonV), encEntry strftime book item = some (item.name, vv) →
        bookJsonLoop strftime book rest (dictSet r0 item.name vv) =
          .ok (r0 ++ (item :: rest).filterMap (encEntry strftime book)) := by
      intro vv hv
      rw [hset vv, hrec (item.name, vv) hv, List.filterMap_cons, hv]
      rw [List.append_assoc, List.singleton_append]
    have hlk0 := hlk item (List.mem_cons_self _ _)
    rcases item with ⟨n, i, o⟩ | n | ⟨n, kl, vl⟩ | n | ⟨n, _ | _⟩ | n
    · rw [bookJsonLoop]
      rw [lookupOk] at hlk0
      rcases hv : book.fields.dates.lookup n with _ | v
      · rw [hv] at hlk0
        cases hlk0
      · rcases v with _ | d
        · exact hstep JsonV.null (by
            rw [show encEntry strftime book (.date n i o) =
              (match book.fields.dates.lookup n with
               | none => none
               | some none => some (n, JsonV.null)
               | some (some d) =>
                 some (n, .str (BookDate.as_str (strftime d._datetime) i)))
              from rfl, hv]
            rfl)
        · exact hstep _ (by
            rw [show encEntry strftime book (.date n i o) =
              (match book.fields.dates.lookup n with
               | none => none
               | some none => some (n, JsonV.null)
               | some (some d) =>
                 some (n, .str (BookDate.as_str (strftime d._datetime) i)))
              from rfl, hv]
            rfl)
    · rw [bookJsonLoop]
      exact hstep _ rfl
    · rw [bookJsonLoop]
      rw [lookupOk] at hlk0
      rcases hv : book.fields.keyvalues.lookup n with _ | kvs
      · rw [hv] at hlk0
        cases hlk0
      · have henc : encEntry strftime book (.keyvalue n kl vl) =
            some (n, encKvVal kvs) := by
          rw [show encEntry strftime book (.keyvalue n kl vl) =
            (match book.fields.keyvalues.lookup n with
             | none => none
             | some kvs => some (n, encKvVal kvs)) from rfl, hv]
        rcases kvs with _ | ⟨kv, kvrest⟩
        · exact hstep JsonV.null henc
        · exact hstep _ henc
    · rw [bookJsonLoop]
      rw [lookupOk] at hlk0
      rcases hv : book.fields.sortdisplays.lookup n with _ | sds
      · rw [hv] at hlk0
        cases hlk0
      · have henc : encEntry strftime book (.sortdisplay n) =
            some (n, encSdsVal sds) := by
          rw [show encEntry strftime book (.sortdisplay n) =
            (match book.fields.sortdisplays.lookup n with
             | none => none
             | some sds => some (n, encSdsVal sds)) from rfl, hv]
        exact hstep _ henc
    · rw [bookJsonLoop]
      simp only [Bool.false_eq_true, if_false]
      have hnone : encEntry strftime book (.string n false) = none := rfl
      rw [List.filterMap_cons, hnone]
      exact bookJsonLoop_spec
        (fun it hit => hlk it (List.mem_cons_of_mem _ hit))
        (fun it hit => hdisj it (List.mem_cons_of_mem _ hit)) hnd.2
    · rw [bookJsonLoop]
      simp only [if_true]
      rw [lookupOk] at hlk0
      rcases hv : book.fields.strings.lookup n with _ | v
      · rw [hv] at hlk0
        cases hlk0
      · rcases v with _ | sv
        · exact hstep JsonV.null (by
            rw [show encEntry strftime book (.string n true) =
              (match book.fields.strings.lookup n with
               | none => none
               | some none => some (n, JsonV.null)
               | some (some s) => some (n, .str s)) from rfl, hv]
            rfl)
        · exact hstep _ (by
            rw [show encEntry strftime book (.string n true) =
              (match book.fields.strings.lookup n with
               | none => none
               | some none => some (n, JsonV.null)
               | some (some s) => some (n, .str s)) from rfl, hv]
            rfl)
    · rw [bookJsonLoop]
      exact hstep _ rfl

theorem stringOuts_spec {book : Book} :
    ∀ {items : List SchemaItem},
      (∀ item ∈ items, lookupOk book item) →
      stringOuts book items = .ok (items.filterMap (strOutEntry book))
  | [], _ => rfl
  | item :: rest, hlk => by
    have hrec := stringOuts_spec
      (fun it hit => hlk it (List.mem_cons_of_mem _ hit))
    have hlk0 := hlk item (List.mem_cons_self _ _)
    rcases item with ⟨n, i, o⟩ | n | ⟨n, kl, vl⟩ | n | ⟨n, _ | _⟩ | n
    · exact hrec
    · exact hrec
    · exact hrec
    · exact hrec
    · rw [lookupOk] at hlk0
      rcases hv : book.fields.strings.lookup n with _ | v
      · rw [hv] at hlk0
        cases hlk0
      · have hout : strOutEntry book (.string n false) =
            (match book.fields.strings.lookup n with
             | some (some s) =>
               some (n, rstripNl (strTitlePrefix book.title.display ++
                 _remove_whitespace s) ++ ['\n'])
             | _ => none) := rfl
        rcases v with _ | sv
        · rw [show stringOuts book (SchemaItem.string n false :: rest) =
            (match book.fields.strings.lookup n with
             | none => .error (.exception (chars "KeyError: " ++ n))
             | some none => stringOuts book rest
             | some (some s) =>
               match stringOuts book rest with
               | .error e => .error e
               | .ok outs =>
                 .ok ((n, rstripNl (strTitlePrefix book.title.display ++
                   _remove_whitespace s) ++ ['\n']) :: outs)) from rfl, hv]
          rw [List.filterMap_cons, hout, hv]
          exact hrec
        · rw [show stringOuts book (SchemaItem.string n false :: rest) =
            (match book.fields.strings.lookup n with
             | none => .error (.exception (chars "KeyError: " ++ n))
             | some none => stringOuts book rest
             | some (some s) =>
               match stringOuts book rest with
               | .error e => .error e
               | .ok outs =>
                 .ok ((n, rstripNl (strTitlePrefix book.title.display ++
                   _remove_whitespace s) ++ ['\n']) :: outs)) from rfl, hv]
          rw [List.filterMap_cons, hout, hv]
          rw [hrec]
    · exact hrec
    · exact hrec

theorem write_metadata_spec {strftime : PyDatetime → Str → Str}
    {book : Book} {schema : List SchemaItem}
    (hlk : ∀ item ∈ schema, lookupOk book item)
    (hnd : (schema.map SchemaItem.name).Nodup) :
    Book.write_metadata strftime book schema =
      .ok (List.insertionSort kvPairLe
            (schema.filterMap (encEntry strftime book)),
           schema.filterMap (strOutEntry book)) := by
  rw [Book.write_metadata]
  rw [bookJsonLoop_spec hlk (fun item _ => List.not_mem_nil _) hnd]
  rw [show ((([] : List (Str × JsonV)) ++
    schema.filterMap (encEntry strftime book))) =
    schema.filterMap (encEntry strftime book) from List.nil_append _]
  rw [stringOuts_spec hlk]

theorem loadFields_props {strptime : Str → Str → Option PyDatetime}
    {md : Str} {dvs : List DirVar} {metadata : List (Str × JsonV)}
    {sf : List (Str × Str)} {t : SortDisplay} :
    ∀ {items : List SchemaItem} {f0 : BookFields}
      {fl0 : Option (List BookFile)} {F : BookFields}
      {fl : Option (List BookFile)},
      loadFields strptime md dvs metadata sf t items f0 fl0 = .ok (F, fl) →
      F.dates.map (fun p => p.1) =
        f0.dates.map (fun p => p.1) ++ items.filterMap dateNameOf ∧
      F.keyvalues.map (fun p => p.1) =
        f0.keyvalues.map (fun p => p.1) ++ items.filterMap kvNameOf ∧
      F.sortdisplays.map (fun p => p.1) =
        f0.sortdisplays.map (fun p => p.1) ++ items.filterMap sdNameOf ∧
      F.strings.map (fun p => p.1) =
        f0.strings.map (fun p => p.1) ++ items.filterMap strNameOf ∧
      (∀ p ∈ F.keyvalues, p ∈ f0.keyvalues ∨
        ∃ jv, _get_keyvalues jv p.1 md = .ok p.2) ∧
      (∀ p ∈ F.sortdisplays, p ∈ f0.sortdisplays ∨
        ∃ jv, _get_sortdisplays jv p.1 md = .ok p.2) ∧
      (fl = fl0 ∨ ∃ jv fls, _get_files jv t.sort md dvs = .ok fls ∧
        fl = some fls ∧ ∃ n, SchemaItem.file n ∈ items)
  | [], f0, fl0, F, fl, h => by
    rw [loadFields] at h
    injection h with h
    rw [Prod.ext_iff] at h
    obtain ⟨h1, h2⟩ := h
    subst h1
    subst h2
    exact ⟨by simp, by simp, by simp, by simp,
      fun p hp => Or.inl hp, fun p hp => Or.inl hp, Or.inl rfl⟩
  | item :: rest, f0, fl0, F, fl, h => by
    rcases item with ⟨n, i, o⟩ | n | ⟨n, kl, vl⟩ | n | ⟨n, inl⟩ | n <;>
      rw [loadFields] at h
    · split at h
      · cases h
      · rename_i v hv
        split at h
        · cases h
        · rename_i d hd
          obtain ⟨h1, h2, h3, h4, h5, h6, h7⟩ := loadFields_props h
          refine ⟨?_, ?_, ?_, ?_, h5, h6, ?_⟩
          · rw [h1]
            simp [dateNameOf, List.filterMap_cons, List.append_assoc]
          · rw [h2]
            simp [kvNameOf, List.filterMap_cons]
          · rw [h3]
            simp [sdNameOf, List.filterMap_cons]
          · rw [h4]
            simp [strNameOf, List.filterMap_cons]
          · rcases h7 with h7 | ⟨jv, fls, ha, hb, nn, hc⟩
            · exact Or.inl h7
            · exact Or.inr ⟨jv, fls, ha, hb, nn, List.mem_cons_of_mem _ hc⟩
    · split at h
      · cases h
      · rename_i v hv
        split at h
        · cases h
        · rename_i fls hfls
          obtain ⟨h1, h2, h3, h4, h5, h6, h7⟩ := loadFields_props h
          refine ⟨?_, ?_, ?_, ?_, h5, h6, ?_⟩
          · rw [h1]
            simp [dateNameOf, List.filterMap_cons]
          · rw [h2]
            simp [kvNameOf, List.filterMap_cons]
          · rw [h3]
            simp [sdNameOf, List.filterMap_cons]
          · rw [h4]
            simp [strNameOf, List.filterMap_cons]
          · rcases h7 with h7 | ⟨jv, fls2, ha, hb, nn, hc⟩
            · exact Or.inr ⟨v, fls, hfls, h7, n, List.mem_cons_self _ _⟩
            · exact Or.inr ⟨jv, fls2, ha, hb, nn, List.mem_cons_of_mem _ hc⟩
    · split at h
      · cases h
      · rename_i v hv
        split at h
        · cases h
        · rename_i kvs hkvs
          obtain ⟨h1, h2, h3, h4, h5, h6, h7⟩ := loadFields_props h
          refine ⟨?_, ?_, ?_, ?_, ?_, h6, ?_⟩
          · rw [h1]
            simp [dateNameOf, List.filterMap_cons]
          · rw [h2]
            simp [kvNameOf, List.filterMap_cons, List.append_assoc]
          · rw [h3]
            simp [sdNameOf, List.filterMap_cons]
          · rw [h4]
            simp [strNameOf, List.filterMap_cons]
          · intro p hp
            rcases h5 p hp with hp' | hp'
            · rcases List.mem_append.1 hp' with hp'' | hp''
              · exact Or.inl hp''
              · rw [List.mem_singleton] at hp''
                subst hp''
                exact Or.inr ⟨v, hkvs⟩
            · exact Or.inr hp'
          · rcases h7 with h7 | ⟨jv, fls, ha, hb, nn, hc⟩
            · exact Or.inl h7
            · exact Or.inr ⟨jv, fls, ha, hb, nn, List.mem_cons_of_mem _ hc⟩
    · split at h
      · cases h
      · rename_i v hv
        split at h
        · cases h
        · rename_i sds hsds
          obtain ⟨h1, h2, h3, h4, h5, h6, h7⟩ := loadFields_props h
          refine ⟨?_, ?_, ?_, ?_, h5, ?_, ?_⟩
          · rw [h1]
            simp [dateNameOf, List.filterMap_cons]
          · rw [h2]
            simp [kvNameOf, List.filterMap_cons]
          · rw [h3]
            simp [sdNameOf, List.filterMap_cons, List.append_assoc]
          · rw [h4]
            simp [strNameOf, List.filterMap_cons]
          · intro p hp
            rcases h6 p hp with hp' | hp'
            · rcases List.mem_append.1 hp' with hp'' | hp''
              · exact Or.inl hp''
              · rw [List.mem_singleton] at hp''
                subst hp''
                exact Or.inr ⟨v, hsds⟩
            · exact Or.inr hp'
          · rcases h7 with h7 | ⟨jv, fls, ha, hb, nn, hc⟩
            · exact Or.inl h7
            · exact Or.inr ⟨jv, fls, ha, hb, nn, List.mem_cons_of_mem _ hc⟩
    · split at h
      · cases h
      · rename_i s hs
        obtain ⟨h1, h2, h3, h4, h5, h6, h7⟩ := loadFields_props h
        refine ⟨?_, ?_, ?_, ?_, h5, h6, ?_⟩
        · rw [h1]
          simp [dateNameOf, List.filterMap_cons]
        · rw [h2]
          simp [kvNameOf, List.filterMap_cons]
        · rw [h3]
          simp [sdNameOf, List.filterMap_cons]
        · rw [h4]
          simp [strNameOf, List.filterMap_cons, List.append_assoc]
        · rcases h7 with h7 | ⟨jv, fls, ha, hb, nn, hc⟩
          · exact Or.inl h7
          · exact Or.inr ⟨jv, fls, ha, hb, nn, List.mem_cons_of_mem _ hc⟩
    · obtain ⟨h1, h2, h3, h4, h5, h6, h7⟩ := loadFields_props h
      refine ⟨?_, ?_, ?_, ?_, h5, h6, ?_⟩
      · rw [h1]
        simp [dateNameOf, List.filterMap_cons]
      · rw [h2]
        simp [kvNameOf, List.filterMap_cons]
      · rw [h3]
        simp [sdNameOf, List.filterMap_cons]
      · rw [h4]
        simp [strNameOf, List.filterMap_cons]
      · rcases h7 with h7 | ⟨jv, fls, ha, hb, nn, hc⟩
        · exact Or.inl h7
        · exact Or.inr ⟨jv, fls, ha, hb, nn, List.mem_cons_of_mem _ hc⟩

/-- The date entry the reload produces for an item, read off `book`. -/
def dEntryOf (book : Book) (it : SchemaItem) : Option (Str × Option BookDate) :=
  (dateNameOf it).bind
    (fun n => (book.fields.dates.lookup n).map (fun v => (n, v)))

/-- The keyvalue entry the reload produces for an item. -/
def kEntryOf (book : Book) (it : SchemaItem) :
    Option (Str × List BookKeyValue) :=
  (kvNameOf it).bind
    (fun n => (book.fields.keyvalues.lookup n).map (fun v => (n, v)))

/-- The sortdisplay entry the reload produces for an item. -/
def sdEntryOf (book : Book) (it : SchemaItem) :
    Option (Str × List SortDisplay) :=
  (sdNameOf it).bind
    (fun n => (book.fields.sortdisplays.lookup n).map (fun v => (n, v)))

/-- The string entry the reload produces for an item. -/
def stEntryOf (book : Book) (it : SchemaItem) :
    Option (Str × Option Str) :=
  (strNameOf it).bind
    (fun n => (book.fields.strings.lookup n).map (fun v => (n, v)))

/-- The `files` loop variable after processing `items`. -/
def filesOut (book : Book) (items : List SchemaItem)
    (fl0 : Option (List BookFile)) : Option (List BookFile) :=
  if items.any isFileItem then some book.files else fl0

/-- Per-item condition letting the reload reproduce `book`'s entry. -/
def ReloadStep (strptime : Str → Str → Option PyDatetime) (md : Str)
    (dvs : List DirVar) (md2 : List (Str × JsonV)) (sf2 : List (Str × Str))
    (title : SortDisplay) (book : Book) : SchemaItem → Prop
  | .date n ifmt _ => ∃ v jv, book.fields.dates.lookup n = some v ∧
      md2.lookup n = some jv ∧ _get_date strptime jv ifmt = .ok v
  | .file n => ∃ jv, md2.lookup n = some jv ∧
      _get_files jv title.sort md dvs = .ok book.files
  | .keyvalue n _ _ => ∃ kvs jv, book.fields.keyvalues.lookup n = some kvs ∧
      md2.lookup n = some jv ∧ _get_keyvalues jv n md = .ok kvs
  | .sortdisplay n => ∃ sds jv, book.fields.sortdisplays.lookup n = some sds ∧
      md2.lookup n = some jv ∧ _get_sortdisplays jv n md = .ok sds
  | .string n inl => ∃ v, book.fields.strings.lookup n = some v ∧
      _get_string md2 n inl md (strTitlePrefix title.display) sf2 = .ok v
  | .title _ => True

theorem filesOut_cons_nonfile {book : Book} {item : SchemaItem}
    {rest : List SchemaItem} {fl0 : Option (List BookFile)}
    (h : isFileItem item = false) :
    filesOut book (item :: rest) fl0 = filesOut book rest fl0 := by
  rw [filesOut, filesOut, List.any_cons, h]
  rfl

theorem filesOut_cons_file {book : Book} {n : Str}
    {rest : List SchemaItem} {fl0 : Option (List BookFile)} :
    filesOut book (SchemaItem.file n :: rest) fl0 =
      filesOut book rest (some book.files) := by
  rw [filesOut, filesOut, List.any_cons]
  rw [show isFileItem (SchemaItem.file n) = true from rfl]
  rw [Bool.true_or, if_pos rfl]
  split <;> rfl

theorem loadFields_reload {strptime : Str → Str → Option PyDatetime}
    {md : Str} {dvs : List DirVar} {md2 : List (Str × JsonV)}
    {sf2 : List (Str × Str)} {title : SortDisplay} {book : Book} :
    ∀ {items : List SchemaItem} {f0 : BookFields}
      {fl0 : Option (List BookFile)},
      (∀ item ∈ items, ReloadStep strptime md dvs md2 sf2 title book item) →
      loadFields strptime md dvs md2 sf2 title items f0 fl0 =
        .ok (⟨f0.dates ++ items.filterMap (dEntryOf book),
              f0.keyvalues ++ items.filterMap (kEntryOf book),
              f0.sortdisplays ++ items.filterMap (sdEntryOf book),
              f0.strings ++ items.filterMap (stEntryOf book)⟩,
             filesOut book items fl0)
  | [], f0, fl0, _ => by
    rw [loadFields]
    simp [filesOut]
  | item :: rest, f0, fl0, hstep => by
    have hrec := fun (f0' : BookFields) (fl0' : Option (List BookFile)) =>
      @loadFields_reload strptime md dvs md2 sf2 title book rest f0' fl0'
        (fun it hit => hstep it (List.mem_cons_of_mem _ hit))
    have hstep0 := hstep item (List.mem_cons_self _ _)
    rcases item with ⟨n, i, o⟩ | n | ⟨n, kl, vl⟩ | n | ⟨n, inl⟩ | n
    · obtain ⟨v, jv, hbv, hjv, hdec⟩ := hstep0
      rw [loadFields]
      simp only [hjv, hdec]
      rw [hrec _ fl0]
      rw [filesOut_cons_nonfile
        (show isFileItem (SchemaItem.date n i o) = false from rfl)]
      simp [List.filterMap_cons, hbv, dEntryOf, kEntryOf, sdEntryOf,
        stEntryOf, dateNameOf, kvNameOf, sdNameOf, strNameOf,
        List.append_assoc]
    · obtain ⟨jv, hjv, hfls⟩ := hstep0
      rw [loadFields]
      simp only [hjv, hfls]
      rw [hrec _ (some book.files)]
      rw [filesOut_cons_file]
      simp [List.filterMap_cons, dEntryOf, kEntryOf, sdEntryOf,
        stEntryOf, dateNameOf, kvNameOf, sdNameOf, strNameOf]
    · obtain ⟨kvs, jv, hbv, hjv, hdec⟩ := hstep0
      rw [loadFields]
      simp only [hjv, hdec]
      rw [hrec _ fl0]
      rw [filesOut_cons_nonfile
        (show isFileItem (SchemaItem.keyvalue n kl vl) = false from rfl)]
      simp [List.filterMap_cons, hbv, dEntryOf, kEntryOf, sdEntryOf,
        stEntryOf, dateNameOf, kvNameOf, sdNameOf, strNameOf,
        List.append_assoc]
    · obtain ⟨sds, jv, hbv, hjv, hdec⟩ := hstep0
      rw [loadFields]
      simp only [hjv, hdec]
      rw [hrec _ fl0]
      rw [filesOut_cons_nonfile
        (show isFileItem (SchemaItem.sortdisplay n) = false from rfl)]
      simp [List.filterMap_cons, hbv, dEntryOf, kEntryOf, sdEntryOf,
        stEntryOf, dateNameOf, kvNameOf, sdNameOf, strNameOf,
        List.append_assoc]
    · obtain ⟨v, hbv, hgs⟩ := hstep0
      rw [loadFields]
      simp only [hgs]
      rw [hrec _ fl0]
      rw [filesOut_cons_nonfile
        (show isFileItem (SchemaItem.string n inl) = false from rfl)]
      simp [List.filterMap_cons, hbv, dEntryOf, kEntryOf, sdEntryOf,
        stEntryOf, dateNameOf, kvNameOf, sdNameOf, strNameOf,
        List.append_assoc]
    · rw [loadFields]
      rw [hrec _ fl0]
      rw [filesOut_cons_nonfile
        (show isFileItem (SchemaItem.title n) = false from rfl)]
      simp [List.filterMap_cons, dEntryOf, kEntryOf, sdEntryOf,
        stEntryOf, dateNameOf, kvNameOf, sdNameOf, strNameOf]

theorem firstTitle_mem :
    ∀ {schema : List SchemaItem} {tf : Str},
      firstTitle schema = some tf → SchemaItem.title tf ∈ schema := by
  intro schema
  induction schema with
  | nil => intro tf h; cases h
  | cons item rest ih =>
    intro tf h
    rcases item with ⟨n, i, o⟩ | n | ⟨n, kl, vl⟩ | n | ⟨n, inl⟩ | n
    · exact List.mem_cons_of_mem _ (ih h)
    · exact List.mem_cons_of_mem _ (ih h)
    · exact List.mem_cons_of_mem _ (ih h)
    · exact List.mem_cons_of_mem _ (ih h)
    · exact List.mem_cons_of_mem _ (ih h)
    · rw [show firstTitle (SchemaItem.title n :: rest) = some n from rfl] at h
      injection h with h
      subst h
      exact List.mem_cons_self _ _

theorem filterMap_name_nodup {α : Type} {name : α → Str} {g : α → Option Str}
    (hg : ∀ a s, g a = some s → s = name a) :
    ∀ {l : List α}, (l.map name).Nodup → (l.filterMap g).Nodup
  | [], _ => by simp
  | a :: rest, hnd => by
    rw [List.map_cons, List.nodup_cons] at hnd
    rw [List.filterMap_cons]
    rcases hga : g a with _ | s
    · exact filterMap_name_nodup hg hnd.2
    · rw [List.nodup_cons]
      refine ⟨?_, filterMap_name_nodup hg hnd.2⟩
      intro hc
      obtain ⟨b, hb, hgb⟩ := List.mem_filterMap.1 hc
      apply hnd.1
      rw [← hg a s hga, hg b s hgb]
      exact List.mem_map_of_mem _ hb

theorem filterMap_keys_not_mem {α β : Type} {name : α → Str}
    {g : α → Option (Str × β)}
    (hg : ∀ a p, g a = some p → p.1 = name a) {l : List α}
    (hnd : (l.map name).Nodup) {a : α} (ha : a ∈ l) (hga : g a = none) :
    name a ∉ (l.filterMap g).map (fun p => p.1) := by
  intro hc
  obtain ⟨p, hp, he⟩ := List.mem_map.1 hc
  obtain ⟨b, hb, hgb⟩ := List.mem_filterMap.1 hp
  have hab : b = a :=
    List.inj_on_of_nodup_map hnd hb ha (by rw [← hg b p hgb, he])
  subst hab
  rw [hga] at hgb
  cases hgb

/-- The round-trip as amended: a loaded Document writes back and reloads
unchanged provided the platform date codec inverts (`strptime` after
`as_str` recovers the datetime for each schema date format) and every
non-inline string value is in written normal form (stripping the title
prefix from its rewritten file content returns it unchanged). -/
theorem book_roundtrip_amended
    (strptime : Str → Str → Option PyDatetime)
    (strftime : PyDatetime → Str → Str) (md : Str) (dvs : List DirVar)
    (schema : List SchemaItem) (metadata : List (Str × JsonV))
    (stringFiles : List (Str × Str)) (book : Book)
    (hnames : (schema.map SchemaItem.name).Nodup)
    (hload : Book.from_args strptime md dvs schema metadata stringFiles =
      .ok book)
    (hdate : ∀ item ∈ schema, ∀ n ifmt ofmt, item = .date n ifmt ofmt →
      ∀ p : PyDatetime,
        strptime (BookDate.as_str (strftime p) ifmt) ifmt = some p)
    (hstr : ∀ n, SchemaItem.string n false ∈ schema →
      ∀ s, book.fields.strings.lookup n = some (some s) →
        removePrefix (strTitlePrefix book.title.display)
          (rstripNl (strTitlePrefix book.title.display ++
            _remove_whitespace s) ++ ['\n']) = s) :
    writeReload strptime strftime md dvs schema metadata stringFiles =
      .ok book := by
  have hload' := hload
  rw [Book.from_args] at hload
  split at hload
  · cases hload
  · rename_i tf htf
    split at hload
    · cases hload
    · rename_i tv htv
      split at hload
      · cases hload
      · cases hload
      · rename_i title ts hsd0
        split at hload
        · cases hload
        · cases hload
        · rename_i F files hlf
          injection hload with hload
          subst hload
          -- original-run characterization
          obtain ⟨hk1, hk2, hk3, hk4, hkvprov, hsdprov, hflprov⟩ :=
            loadFields_props hlf
          simp only [List.map_nil, List.nil_append] at hk1 hk2 hk3 hk4
          rcases hflprov with hbad | ⟨jvf, fls, hgf, hfls, nf, hnfmem⟩
          · cases hbad
          · injection hfls with hfls
            subst hfls
            -- title properties
            obtain ⟨hsdk, -, -, -⟩ := _get_sortdisplays_ok_props hsd0
            have htk : title._key = none :=
              hsdk title (List.mem_cons_self _ _)
            -- shorthand
            set book : Book := ⟨title, md, F, files⟩ with hbook
            have hfD : book.fields.dates = F.dates := rfl
            have hfK : book.fields.keyvalues = F.keyvalues := rfl
            have hfS : book.fields.sortdisplays = F.sortdisplays := rfl
            have hfT : book.fields.strings = F.strings := rfl
            -- every encoder lookup succeeds
            have hlkAll : ∀ item ∈ schema, lookupOk book item := by
              intro item hitem
              rcases item with ⟨n, i, o⟩ | n | ⟨n, kl, vl⟩ | n | ⟨n, inl⟩ | n
              · rw [lookupOk, hfD]
                refine lookup_isSome_of_mem_keys ?_
                rw [hk1]
                exact List.mem_filterMap.2 ⟨_, hitem, rfl⟩
              · exact trivial
              · rw [lookupOk, hfK]
                refine lookup_isSome_of_mem_keys ?_
                rw [hk2]
                exact List.mem_filterMap.2 ⟨_, hitem, rfl⟩
              · rw [lookupOk, hfS]
                refine lookup_isSome_of_mem_keys ?_
                rw [hk3]
                exact List.mem_filterMap.2 ⟨_, hitem, rfl⟩
              · rw [lookupOk, hfT]
                refine lookup_isSome_of_mem_keys ?_
                rw [hk4]
                exact List.mem_filterMap.2 ⟨_, hitem, rfl⟩
              · exact trivial
            -- the written metadata and string files
            have hwrite := @write_metadata_spec strftime book schema
              hlkAll hnames
            have hrnodup : ((schema.filterMap (encEntry strftime book)).map
                (fun p => p.1)).Nodup :=
              filterMap_keys_nodup (fun a p => encEntry_name) hnames
            have hlkmd2 : ∀ k, (List.insertionSort kvPairLe
                (schema.filterMap (encEntry strftime book))).lookup k =
                (schema.filterMap (encEntry strftime book)).lookup k :=
              fun k => lookup_perm_eq
                (List.perm_insertionSort kvPairLe _).symm hrnodup k
            -- reload steps
            have hsteps : ∀ item ∈ schema, ReloadStep strptime md
                (List.insertionSort dvLe dvs)
                (List.insertionSort kvPairLe
                  (schema.filterMap (encEntry strftime book)))
                (schema.filterMap (strOutEntry book)) title book item := by
              intro item hitem
              rcases item with ⟨n, i, o⟩ | n | ⟨n, kl, vl⟩ | n | ⟨n, inl⟩ | n
              · -- date
                have hlk0 := hlkAll _ hitem
                rw [lookupOk] at hlk0
                rcases hv : book.fields.dates.lookup n with _ | v
                · rw [hv] at hlk0
                  cases hlk0
                · rcases v with _ | d
                  · refine ⟨none, JsonV.null, hv, ?_, rfl⟩
                    rw [hlkmd2]
                    exact filterMap_lookup (fun a p => encEntry_name)
                      hnames hitem (p := (n, JsonV.null)) (by
                        rw [show encEntry strftime book (.date n i o) =
                          (match book.fields.dates.lookup n with
                           | none => none
                           | some none => some (n, JsonV.null)
                           | some (some d) => some (n, .str
                             (BookDate.as_str (strftime d._datetime) i)))
                          from rfl, hv])
                  · refine ⟨some d,
                      .str (BookDate.as_str (strftime d._datetime) i),
                      hv, ?_, ?_⟩
                    · rw [hlkmd2]
                      exact filterMap_lookup (fun a p => encEntry_name)
                        hnames hitem (p := (n, .str
                          (BookDate.as_str (strftime d._datetime) i))) (by
                          rw [show encEntry strftime book (.date n i o) =
                            (match book.fields.dates.lookup n with
                             | none => none
                             | some none => some (n, JsonV.null)
                             | some (some d) => some (n, .str
                               (BookDate.as_str (strftime d._datetime) i)))
                            from rfl, hv])
                    · rw [_get_date]
                      rw [hdate _ hitem n i o rfl d._datetime]
              · -- file
                refine ⟨encFilesVal book.files, ?_, ?_⟩
                · rw [hlkmd2]
                  exact filterMap_lookup (fun a p => encEntry_name)
                    hnames hitem (p := (n, encFilesVal book.files)) rfl
                · obtain ⟨hfix, hndb, hsortb⟩ := _get_files_ok_props hgf
                  exact _get_files_enc hfix hndb hsortb
              · -- keyvalue
                have hlk0 := hlkAll _ hitem
                rw [lookupOk] at hlk0
                rcases hv : book.fields.keyvalues.lookup n with _ | kvs
                · rw [hv] at hlk0
                  cases hlk0
                · refine ⟨kvs, encKvVal kvs, hv, ?_, ?_⟩
                  · rw [hlkmd2]
                    exact filterMap_lookup (fun a p => encEntry_name)
                      hnames hitem (p := (n, encKvVal kvs)) (by
                        rw [show encEntry strftime book (.keyvalue n kl vl) =
                          (match book.fields.keyvalues.lookup n with
                           | none => none
                           | some kvs => some (n, encKvVal kvs)) from rfl, hv])
                  · rcases hkvprov (n, kvs)
                      (lookup_some_mem (hfK ▸ hv)) with hin | ⟨jv2, hkv2⟩
                    · cases hin
                    · exact _get_keyvalues_enc (_get_keyvalues_ok_sorted hkv2)
              · -- sortdisplay
                have hlk0 := hlkAll _ hitem
                rw [lookupOk] at hlk0
                rcases hv : book.fields.sortdisplays.lookup n with _ | sds
                · rw [hv] at hlk0
                  cases hlk0
                · refine ⟨sds, encSdsVal sds, hv, ?_, ?_⟩
                  · rw [hlkmd2]
                    exact filterMap_lookup (fun a p => encEntry_name)
                      hnames hitem (p := (n, encSdsVal sds)) (by
                        rw [show encEntry strftime book (.sortdisplay n) =
                          (match book.fields.sortdisplays.lookup n with
                           | none => none
                           | some sds => some (n, encSdsVal sds)) from rfl, hv])
                  · rcases hsdprov (n, sds)
                      (lookup_some_mem (hfS ▸ hv)) with hin | ⟨jv2, hsd2⟩
                    · cases hin
                    · obtain ⟨hks, hnds, hndd, hsorted⟩ :=
                        _get_sortdisplays_ok_props hsd2
                      exact _get_sortdisplays_enc hks hnds hndd hsorted
              · -- string
                have hlk0 := hlkAll _ hitem
                rw [lookupOk] at hlk0
                rcases hv : book.fields.strings.lookup n with _ | v
                · rw [hv] at hlk0
                  cases hlk0
                · refine ⟨v, hv, ?_⟩
                  rcases inl with _ | _
                  · -- non-inline
                    have hmd2none : (List.insertionSort kvPairLe
                        (schema.filterMap (encEntry strftime book))).lookup n =
                        none := by
                      rw [hlkmd2]
                      refine lookup_none_of_not_mem_keys ?_
                      exact filterMap_keys_not_mem (fun a p => encEntry_name)
                        hnames hitem rfl
                    rw [_get_string, if_neg (by simp)]
                    rw [hmd2none]
                    rcases v with _ | sv
                    · have hsfnone : (schema.filterMap
                          (strOutEntry book)).lookup n = none := by
                        refine lookup_none_of_not_mem_keys ?_
                        refine filterMap_keys_not_mem
                          (fun a p => strOutEntry_name) hnames hitem ?_
                        rw [show strOutEntry book (.string n false) =
                          (match book.fields.strings.lookup n with
                           | some (some s) => some (n,
                             rstripNl (strTitlePrefix book.title.display ++
                               _remove_whitespace s) ++ ['\n'])
                           | _ => none) from rfl, hv]
                      rw [hsfnone]
                    · have hsfsome : (schema.filterMap
                          (strOutEntry book)).lookup n = some
                          (rstripNl (strTitlePrefix book.title.display ++
                            _remove_whitespace sv) ++ ['\n']) := by
                        exact filterMap_lookup (fun a p => strOutEntry_name)
                          hnames hitem (p := (n,
                            rstripNl (strTitlePrefix book.title.display ++
                              _remove_whitespace sv) ++ ['\n'])) (by
                          rw [show strOutEntry book (.string n false) =
                            (match book.fields.strings.lookup n with
                             | some (some s) => some (n,
                               rstripNl (strTitlePrefix book.title.display ++
                                 _remove_whitespace s) ++ ['\n'])
                             | _ => none) from rfl, hv])
                      rw [hsfsome]
                      show Except.ok (some (removePrefix
                        (strTitlePrefix book.title.display)
                        (rstripNl (strTitlePrefix book.title.display ++
                          _remove_whitespace sv) ++ ['\n']))) = .ok (some sv)
                      rw [hstr n hitem sv hv]
                  · -- inline
                    rcases v with _ | sv
                    · have hsome : (List.insertionSort kvPairLe
                          (schema.filterMap (encEntry strftime book))).lookup n =
                          some JsonV.null := by
                        rw [hlkmd2]
                        exact filterMap_lookup (fun a p => encEntry_name)
                          hnames hitem (p := (n, JsonV.null)) (by
                            rw [show encEntry strftime book (.string n true) =
                              (match book.fields.strings.lookup n with
                               | none => none
                               | some none => some (n, JsonV.null)
                               | some (some s) => some (n, .str s))
                              from rfl, hv])
                      rw [_get_string, if_pos rfl, hsome]
                    · have hsome : (List.insertionSort kvPairLe
                          (schema.filterMap (encEntry strftime book))).lookup n =
                          some (.str sv) := by
                        rw [hlkmd2]
                        exact filterMap_lookup (fun a p => encEntry_name)
                          hnames hitem (p := (n, .str sv)) (by
                            rw [show encEntry strftime book (.string n true) =
                              (match book.fields.strings.lookup n with
                               | none => none
                               | some none => some (n, JsonV.null)
                               | some (some s) => some (n, .str s))
                              from rfl, hv])
                      rw [_get_string, if_pos rfl, hsome]
              · -- title
                exact trivial
            -- assemble the reload
            have htmem := firstTitle_mem htf
            have htlkup : (List.insertionSort kvPairLe
                (schema.filterMap (encEntry strftime book))).lookup tf =
                some (encSd title) := by
              rw [hlkmd2]
              exact filterMap_lookup (fun a p => encEntry_name)
                hnames htmem (p := (tf, encSd title)) rfl
            have htreload : _get_sortdisplays (encSd title) tf md =
                .ok [title] :=
              @_get_sortdisplays_enc [title] tf md
                (fun sd hsd => by
                  rw [List.mem_singleton.1 hsd]
                  exact htk)
                (by simp) (by simp) (by simp)
            have hreload := @loadFields_reload _ _ _ _ _ _ _ _
              ⟨[], [], [], []⟩ none hsteps
            -- field reconstruction
            have hDnd : (F.dates.map (fun p => p.1)).Nodup := by
              rw [hk1]
              exact filterMap_name_nodup
                (fun a s h => by
                  rcases a with ⟨n, i, o⟩ | n | _ | _ | _ | _ <;>
                    first
                      | (injection h with h; rw [← h]; rfl)
                      | cases h) hnames
            have hKnd : (F.keyvalues.map (fun p => p.1)).Nodup := by
              rw [hk2]
              exact filterMap_name_nodup
                (fun a s h => by
                  rcases a with _ | _ | ⟨n, kl, vl⟩ | _ | _ | _ <;>
                    first
                      | (injection h with h; rw [← h]; rfl)
                      | cases h) hnames
            have hSnd : (F.sortdisplays.map (fun p => p.1)).Nodup := by
              rw [hk3]
              exact filterMap_name_nodup
                (fun a s h => by
                  rcases a with _ | _ | _ | ⟨n⟩ | _ | _ <;>
                    first
                      | (injection h with h; rw [← h]; rfl)
                      | cases h) hnames
            have hTnd : (F.strings.map (fun p => p.1)).Nodup := by
              rw [hk4]
              exact filterMap_name_nodup
                (fun a s h => by
                  rcases a with _ | _ | _ | _ | ⟨n, inl⟩ | _ <;>
                    first
                      | (injection h with h; rw [← h]; rfl)
                      | cases h) hnames
            have hdates : schema.filterMap (dEntryOf book) = F.dates := by
              rw [show dEntryOf book = (fun it => (dateNameOf it).bind
                (fun n => (F.dates.lookup n).map (fun v => (n, v))))
                from rfl]
              rw [← List.filterMap_filterMap, ← hk1]
              exact (assoc_reconstruct hDnd).symm
            have hkvs : schema.filterMap (kEntryOf book) = F.keyvalues := by
              rw [show kEntryOf book = (fun it => (kvNameOf it).bind
                (fun n => (F.keyvalues.lookup n).map (fun v => (n, v))))
                from rfl]
              rw [← List.filterMap_filterMap, ← hk2]
              exact (assoc_reconstruct hKnd).symm
            have hsds : schema.filterMap (sdEntryOf book) =
                F.sortdisplays := by
              rw [show sdEntryOf book = (fun it => (sdNameOf it).bind
                (fun n => (F.sortdisplays.lookup n).map (fun v => (n, v))))
                from rfl]
              rw [← List.filterMap_filterMap, ← hk3]
              exact (assoc_reconstruct hSnd).symm
            have hstrs : schema.filterMap (stEntryOf book) = F.strings := by
              rw [show stEntryOf book = (fun it => (strNameOf it).bind
                (fun n => (F.strings.lookup n).map (fun v => (n, v))))
                from rfl]
              rw [← List.filterMap_filterMap, ← hk4]
              exact (assoc_reconstruct hTnd).symm
            have hfout : filesOut book schema none = some files := by
              rw [filesOut, if_pos]
              exact List.any_eq_true.2 ⟨_, hnfmem, rfl⟩
            -- final computation
            rw [writeReload]
            simp only [hload']
            rw [hwrite]
            simp only
            rw [Book.from_args]
            simp only [htf, htlkup, htreload, hreload]
            simp only [List.nil_append, hdates, hkvs, hsds, hstrs, hfout]

/-- A date-free sample schema: title, file, keyvalue, sortdisplay, an
inline string and a non-inline string field. -/
def schemaC3 : List SchemaItem :=
  [.title (chars "title"), .file (chars "books"),
   .keyvalue (chars "authors") (chars "k") (chars "v"),
   .sortdisplay (chars "genres"), .string (chars "blurb") true,
   .string (chars "desc") false]

/-- Sample metadata for `schemaC3` (the non-inline field is absent). -/
def metaC3 : List (Str × JsonV) :=
  [(chars "title", .str (chars "T")),
   (chars "books", .obj [(chars "directory", .str (chars "d")),
                         (chars "hash", .str (chars "h")),
                         (chars "name", .str (chars "b.epub"))]),
   (chars "authors", .obj [(chars "a", .str (chars "A"))]),
   (chars "genres", .str (chars "g")),
   (chars "blurb", .str (chars "B"))]

/-- The non-inline string file, holding the written normal form of the
text `x` plus newline under the title prefix. -/
def sfC3 : List (Str × Str) := [(chars "desc", chars "# Title: T\n#\nx\n")]

/-- A date parser oracle that never succeeds (the sample has no dates). -/
def strptimeC3 : Str → Str → Option PyDatetime := fun _ _ => none

/-- A date renderer oracle (never consulted by the sample). -/
def strftimeC3 : PyDatetime → Str → Str := fun _ _ => []

/-- The book the sample loads to. -/
def bookC3 : Book :=
  match Book.from_args strptimeC3 (chars "/m") [] schemaC3 metaC3 sfC3 with
  | .ok b => b
  | .error _ => ⟨⟨[], [], none⟩, [], ⟨[], [], [], []⟩, []⟩

/-- C3 witness: the date-free sample book writes back and reloads
unchanged via the amended round-trip theorem. -/
theorem book_roundtrip_amended_witness :
    writeReload strptimeC3 strftimeC3 (chars "/m") [] schemaC3 metaC3 sfC3 =
      .ok bookC3 :=
  book_roundtrip_amended strptimeC3 strftimeC3 (chars "/m") [] schemaC3
    metaC3 sfC3 bookC3
    (by decide)
    (by rfl)
    (by
      intro item hitem n i o heq p
      subst heq
      simp [schemaC3] at hitem)
    (by
      intro n hmem s hlk
      simp [schemaC3] at hmem
      subst hmem
      have h2 : some (some (chars "x\n")) = some (some s) :=
        Eq.trans (Eq.symm (show List.lookup (chars "desc")
          bookC3.fields.strings = some (some (chars "x\n")) from rfl)) hlk
      simp only [Option.some.injEq] at h2
      subst h2
      decide)
